import Mathlib

/-!
# Frame introspection core of the Pyston runtime

A shallow embedding of `src/codegen/unwinding.cpp`: the compiled-function
registry, the `.eh_frame` shim `parseEhFrame`, the emission observer
`NotifyObjectEmitted`, the location decoding of `PythonFrameIterator` (`getReg`,
`readLocation`, `getCurrentStatement`, `getFrameInfo`), the stack walker (`incr`,
`begin`, the range-for over `unwindPythonFrames()`), and the queries built on it
(`getLocals`, `getTracebackEntries`, `getFrameExcInfo`, `getTopCompiledFunction`);
of `_Py_HashPointer` from `src/runtime/capi.cpp`; and of `property_copy` with the
property getter, setter and deleter from `src/runtime/descr.cpp`.

Conventions of the embedding.
* Machine integers are natural numbers or integers with explicit reduction:
  `uint64_t` values live in `Nat` and are reduced modulo `2^64` where the C++
  expression can wrap; `int` / `int32_t` values live in `Int` and are brought
  back into `[-2^31, 2^31)` by `wrapInt32`.
* A failed `assert`, `RELEASE_ASSERT` or `abort()` is the result `none`.
* Pointers to `CompiledFunction` records are natural numbers read through a
  heap `CFPtr → CompiledFunction`; the null pointer is `none`.
* The native stack is the list of frames `unw_step` reaches, top first; a walk
  is a loop over `incr()`, and `walkTrace` / `foldTrace` describe the same loop
  by recursion over the stack (`unwindLoop_trace`).
* The emission observer returns `Except.error` with the state at the failed
  assertion, so that what it has stored by then can be stated.
* The definitions ending in `Steps` are the walker with the results of its calls
  of `unw_step` recorded; their second component is the walker itself
  (`incrLoopSteps_spec`, `unwindLoopSteps_spec`).
-/

namespace Pyston

/-! ## Machine arithmetic -/

/-- Number of values of a 64-bit word. -/
def U64 : Nat := 2 ^ 64

/-- Number of values of a 32-bit word. -/
def U32 : Nat := 2 ^ 32

/-- Conversion of an unsigned 32-bit word to `int` (two's complement). -/
def toInt32 (w : Nat) : Int :=
  if w % U32 < 2 ^ 31 then ((w % U32 : Nat) : Int) else ((w % U32 : Nat) : Int) - (U32 : Int)

/-- Result of an `int` computation whose mathematical value is `x`, wrapped into `[-2^31, 2^31)`. -/
def wrapInt32 (x : Int) : Int :=
  (x + 2 ^ 31) % (2 ^ 32) - 2 ^ 31

/-- Conversion of a signed value to `uint64_t` (sign extension, modulo `2^64`). -/
def toU64 (x : Int) : Nat :=
  (x % (U64 : Int)).toNat

/-- Byte-addressed memory. -/
abbrev Memory := Nat → Nat

/-- Little-endian load of a `uint32_t` at address `a`. -/
def read32 (mem : Memory) (a : Nat) : Nat :=
  mem a % 256 + 256 * (mem (a + 1) % 256) + 65536 * (mem (a + 2) % 256)
    + 16777216 * (mem (a + 3) % 256)

/-- Little-endian load of a `uint64_t` at address `a`. -/
def read64 (mem : Memory) (a : Nat) : Nat :=
  read32 mem a + U32 * read32 mem (a + 4)

/-! ## Data model -/

/-- Modelled from the spec: the tag `StackMap::Record::Location::LocationType`, whose
declaration (`codegen/stackmaps.h`) is not among the source files. The spec lists the
five variants; `Other` stands for any further tag value, which reaches the final `else`
of `readLocation`. -/
inductive LocationType where
  | Register
  | Direct
  | Indirect
  | Constant
  | ConstIndex
  | Other (tag : Nat)
  deriving DecidableEq, Repr

/-- Modelled from the spec: the record `StackMap::Record::Location` with its fields
`type`, `flags`, `regnum`, `offset`; the declaration is not among the source files.
`regnum` is an unsigned DWARF register number and `offset` a signed immediate. -/
structure Location where
  type : LocationType
  flags : Nat
  regnum : Nat
  offset : Int
  deriving DecidableEq, Repr

/-- Modelled from the spec: the record `LocationMap::LocationTable::LocationEntry`, whose
declaration is not among the source files. `offset` and `length` delimit the PC range
measured from `code_start`, `type` identifies the value-layout descriptor
(`CompilerType*`), `locations` are the descriptors of the value. -/
structure LocationEntry where
  offset : Nat
  length : Nat
  type : Nat
  locations : List Location
  deriving DecidableEq, Repr

/-- Modelled from the spec: the record `LocationMap::LocationTable`, the ordered entries
of one name; the declaration is not among the source files. -/
structure LocationTable where
  locations : List LocationEntry
  deriving DecidableEq, Repr

/-- Modelled from the spec: the record `LocationMap`, whose declaration is not among the
source files. `names` lists the (name, table) pairs of the map in its iteration order,
`constants` is the constant pool, `frame_info_location` locates the `FrameInfo`. -/
structure LocationMap where
  constants : List Nat
  frame_info_location : Location
  names : List (String × LocationTable)
  deriving DecidableEq, Repr

/-- Modelled from the spec: the record `CompiledFunction` with the attributes the core
reads; the declaration is not among the source files. `code_start` and `code_size` are
64-bit unsigned words, `entry_descriptor` records whether the pointer is non-null,
`location_map` is `none` for a null pointer. -/
structure CompiledFunction where
  code_start : Nat
  code_size : Nat
  entry_descriptor : Bool
  location_map : Option LocationMap
  deriving DecidableEq, Repr

/-- Address of a `CompiledFunction` record. -/
abbrev CFPtr := Nat

/-- Heap of `CompiledFunction` records. -/
abbrev CFHeap := CFPtr → CompiledFunction

/-! ## CFRegistry -/

/-- Class `CFRegistry`: the vector `cfs` of registered function pointers. -/
structure CFRegistry where
  cfs : List CFPtr
  deriving DecidableEq, Repr

/-- Initial state of the static `cf_registry`. -/
def CFRegistry.empty : CFRegistry := ⟨[]⟩

/-- Method `CFRegistry::registerCF`: `cfs.push_back(cf)`. -/
def CFRegistry.registerCF (r : CFRegistry) (cf : CFPtr) : CFRegistry :=
  ⟨r.cfs ++ [cf]⟩

/-- Value of the `uint64_t` expression `cf->code_start + cf->code_size`. -/
def codeEnd (cf : CompiledFunction) : Nat :=
  (cf.code_start + cf.code_size) % U64

/-- Loop condition of `getCFForAddress`:
`cf->code_start < addr && addr <= cf->code_start + cf->code_size`. -/
def addrInCF (cf : CompiledFunction) (addr : Nat) : Bool :=
  decide (cf.code_start < addr) && decide (addr ≤ codeEnd cf)

/-- The `for (auto* cf : cfs)` loop of `CFRegistry::getCFForAddress`. -/
def getCFForAddressLoop (heap : CFHeap) : List CFPtr → Nat → Option CFPtr
  | [], _ => none
  | cf :: rest, addr =>
    if addrInCF (heap cf) addr then some cf else getCFForAddressLoop heap rest addr

/-- Method `CFRegistry::getCFForAddress`; `none` is `NULL`. -/
def CFRegistry.getCFForAddress (heap : CFHeap) (r : CFRegistry) (addr : Nat) : Option CFPtr :=
  getCFForAddressLoop heap r.cfs addr

/-- Process globals the emission observer touches: the records, `g.cur_cf`, `cf_registry`. -/
structure Globals where
  heap : CFHeap
  cur_cf : Option CFPtr
  cf_registry : CFRegistry

/-- Free function `getCFForAddress(addr)`: lookup in the static `cf_registry`. -/
def getCFForAddress (g : Globals) (addr : Nat) : Option CFPtr :=
  g.cf_registry.getCFForAddress g.heap addr

/-- Store through `g.cur_cf`: `cf->code_start = Addr; cf->code_size = Size`. -/
def setCode (heap : CFHeap) (cf : CFPtr) (addr size : Nat) : CFHeap :=
  fun q => if q = cf then { heap cf with code_start := addr, code_size := size } else heap q

/-- Body of the symbol loop of `NotifyObjectEmitted` for one function symbol with load
address `Addr` and size `Size` (lines 106, 120, 141-144): `assert(g.cur_cf)`,
`assert(Addr)`, `assert(g.cur_cf->code_start == 0)`, the two stores, `registerCF`. -/
def notifyFunctionSymbol (g : Globals) (Addr Size : Nat) : Option Globals :=
  match g.cur_cf with
  | none => none
  | some cf =>
    if Addr = 0 then none
    else if (g.heap cf).code_start ≠ 0 then none
    else some { g with heap := setCode g.heap cf Addr Size,
                       cf_registry := g.cf_registry.registerCF cf }

/-- Closed ranges `[code_start, code_start + code_size]` of two records share no address. -/
def rangesDisjoint (f g : CompiledFunction) : Prop :=
  f.code_start + f.code_size < g.code_start ∨ g.code_start + g.code_size < f.code_start

instance (f g : CompiledFunction) : Decidable (rangesDisjoint f g) := by
  unfold rangesDisjoint; infer_instance

/-- Registry invariant of the spec: two registered pointers are the same record or
their closed ranges are disjoint. -/
def RegistryDisjoint (heap : CFHeap) (r : CFRegistry) : Prop :=
  ∀ f ∈ r.cfs, ∀ g ∈ r.cfs, f = g ∨ rangesDisjoint (heap f) (heap g)

instance (heap : CFHeap) (r : CFRegistry) : Decidable (RegistryDisjoint heap r) := by
  unfold RegistryDisjoint; infer_instance

/-! ## Sample data for the registry -/

/-- A heap with two disjoint functions at pointers 1 and 2 and zeroed records elsewhere. -/
def sampleHeap : CFHeap := fun q =>
  if q = 1 then ⟨4096, 16, false, none⟩
  else if q = 2 then ⟨8192, 32, true, none⟩
  else ⟨0, 0, false, none⟩

/-- A heap whose record 1 is a function of zero code size at address 4096. -/
def emptyCodeHeap : CFHeap := fun _ => ⟨4096, 0, false, none⟩

/-- Globals before any emission: zeroed records, empty registry, active function 1. -/
def freshGlobals : Globals :=
  { heap := fun _ => ⟨0, 0, false, none⟩, cur_cf := some 1, cf_registry := CFRegistry.empty }

/-- Two emissions in a row: function 1 is emitted at 4096 with 16 bytes of code, then the
compiler makes function 2 the active one and it is emitted right behind, at 4112. -/
def adjacentEmissions : Option Globals :=
  (notifyFunctionSymbol freshGlobals 4096 16).bind fun g1 =>
    notifyFunctionSymbol { g1 with cur_cf := some 2 } 4112 16

/-- Globals that the two emissions of `adjacentEmissions` leave behind. -/
def adjacentGlobals : Globals :=
  { heap := setCode (setCode freshGlobals.heap 1 4096 16) 2 4112 16
    cur_cf := some 2
    cf_registry := ⟨[1, 2]⟩ }

/-- Globals after function 1 was emitted at 4096 with 16 bytes and the compiler made
function 2 the active one. -/
def emittedOne : Globals :=
  { heap := setCode freshGlobals.heap 1 4096 16, cur_cf := some 2, cf_registry := ⟨[1]⟩ }

/-- Globals after function 2 was then emitted at 4113 with 16 bytes. -/
def emittedTwo : Globals :=
  { heap := setCode emittedOne.heap 2 4113 16, cur_cf := some 2, cf_registry := ⟨[1, 2]⟩ }

/-! ## EhFrameShim: `parseEhFrame` -/

/-- Record `uw_table_entry`: two `int32_t` fields. -/
structure uw_table_entry where
  start_ip_offset : Int
  fde_offset : Int
  deriving DecidableEq, Repr

/-- What `parseEhFrame` stores through `out_data` (the table it allocates) and `out_len`. -/
structure EhFrameTable where
  table_data : List uw_table_entry
  out_len : Nat
  deriving DecidableEq, Repr

/-- Line 54, `int cie_length = *u32;` with `u32 = start_addr`. -/
def cieLength (mem : Memory) (start_addr : Nat) : Int :=
  toInt32 (read32 mem start_addr)

/-- Pointer after line 55, `*u32++;`: four bytes past `start_addr`. -/
def cieIdAddr (start_addr : Nat) : Nat :=
  (start_addr + 4) % U64

/-- Pointer after line 59, `u8 += cie_length;` (the union makes it the value of `u32` too). -/
def fdeLengthAddr (mem : Memory) (start_addr : Nat) : Nat :=
  toU64 ((cieIdAddr start_addr : Int) + cieLength mem start_addr)

/-- Line 61, `int fde_length = *u32;`. -/
def fdeLength (mem : Memory) (start_addr : Nat) : Int :=
  toInt32 (read32 mem (fdeLengthAddr mem start_addr))

/-- Condition of the assertion of line 64, `cie_length + fde_length + 8 == size`: the left
side is an `int`, converted to `uint64_t` for the comparison. -/
def sizeAssertion (mem : Memory) (start_addr size : Nat) : Bool :=
  decide (toU64 (wrapInt32
    (wrapInt32 (cieLength mem start_addr + fdeLength mem start_addr) + 8)) = size)

/-- Function `parseEhFrame(start_addr, size, out_data, out_len)`; `none` is a failed assertion. -/
def parseEhFrame (mem : Memory) (start_addr size : Nat) : Option EhFrameTable :=
  let cie_length : Int := cieLength mem start_addr
  if read32 mem (cieIdAddr start_addr) ≠ 0 then none
  else if sizeAssertion mem start_addr size = false then none
  else
    let nentries : Nat := 1
    some { table_data := [{ start_ip_offset := 0, fde_offset := wrapInt32 (4 + cie_length) }],
           out_len := nentries }

/-- Memory holding, at address 4096, a well-formed section of 40 bytes: a CIE of length 16
(id 0) followed by an FDE of length 16. All other bytes are zero. -/
def ehFrameOk : Memory := fun a =>
  if a = 4096 then 16 else if a = 4116 then 16 else 0

/-- Memory holding, at address 4096, the length word `0xFFFFFFFF` followed by zero bytes. -/
def ehFrameTopBit : Memory := fun a =>
  if 4096 ≤ a ∧ a < 4100 then 255 else 0

/-- Memory holding, at address 4096, a CIE of length 16, an FDE of length 16 and a second
FDE of length 8: a section of 52 bytes. -/
def ehFrameTwoFdes : Memory := fun a =>
  if a = 4096 then 16 else if a = 4116 then 16 else if a = 4136 then 8 else 0

/-! ## PythonFrameIterator: location decoding -/

/-- Enum `PythonFrameId::FrameType`. -/
inductive FrameType where
  | COMPILED
  | INTERPRETED
  deriving DecidableEq, Repr

/-- Record `PythonFrameId`. The union of `ip` and `bp` is one 64-bit payload, named `ip`. -/
structure PythonFrameId where
  type : FrameType
  ip : Nat
  deriving DecidableEq, Repr

/-- Union member `bp` of `PythonFrameId`: the same storage as `ip`. -/
def PythonFrameId.bp (id : PythonFrameId) : Nat := id.ip

/-- One frame of the native stack as the unwinder reports it once the cursor stands on
it: the instruction pointer (`UNW_REG_IP`), the frame base (`UNW_TDEP_BP`), the DWARF
registers (`regs n` is `none` when `unw_get_reg` returns a non-zero code) and the
`start_ip` of `unw_get_proc_info` (`none` when that call returns a non-zero code). -/
structure NativeFrame where
  ip : Nat
  bp : Nat
  regs : Nat → Option Nat
  proc_start : Option Nat

/-- The unwinder cursor `unw_cursor_t`: `regs n` is the word `unw_get_reg` stores for DWARF
register `n` of the frame the cursor stands on, or `none` when it returns a non-zero code;
`outer` lists the frames outward of it, the ones `unw_step` can still reach. -/
structure Cursor where
  regs : Nat → Option Nat
  outer : List NativeFrame := []

/-- Library call `unw_get_reg(&cursor, dwarf_num, &rtn)`. -/
def Cursor.unw_get_reg (c : Cursor) (dwarf_num : Nat) : Option Nat :=
  c.regs dwarf_num

/-- Class `PythonFrameIterator`: the members `id`, `cursor`, `cf`, `cur_is_osr`. -/
structure PythonFrameIterator where
  id : PythonFrameId
  cursor : Cursor
  cf : Option CFPtr
  cur_is_osr : Bool

/-- Method `getCF()`: `assert(cf); return cf;`. -/
def PythonFrameIterator.getCF (it : PythonFrameIterator) : Option CFPtr :=
  it.cf

/-- Method `getReg(int dwarf_num)`: `assert(0 <= dwarf_num && dwarf_num < 16)`, then
`unw_get_reg` with `assert(code == 0)`. -/
def PythonFrameIterator.getReg (it : PythonFrameIterator) (dwarf_num : Int) : Option Nat :=
  if 0 ≤ dwarf_num ∧ dwarf_num < 16 then it.cursor.unw_get_reg dwarf_num.toNat else none

/-- Method `readLocation(loc)`. `reg_val + loc.offset` is a `uint64_t` sum with the
sign-extended offset; the `Indirect` case loads the `uint64_t` at that address. -/
def PythonFrameIterator.readLocation (heap : CFHeap) (mem : Memory) (it : PythonFrameIterator)
    (loc : Location) : Option Nat :=
  match loc.type with
  | LocationType.Register => it.getReg loc.regnum
  | LocationType.Direct =>
    match it.getReg loc.regnum with
    | none => none
    | some reg_val => some (toU64 ((reg_val : Int) + loc.offset))
  | LocationType.Indirect =>
    match it.getReg loc.regnum with
    | none => none
    | some reg_val =>
      let addr : Nat := toU64 ((reg_val : Int) + loc.offset)
      some (read64 mem addr)
  | LocationType.Constant => some (toU64 loc.offset)
  | LocationType.ConstIndex =>
    let const_idx : Int := loc.offset
    if ¬ (const_idx ≥ 0) then none
    else
      match it.cf with
      | none => none
      | some cf =>
        match (heap cf).location_map with
        | none => none
        | some location_map =>
          if ¬ (const_idx.toNat < location_map.constants.length) then none
          else location_map.constants[const_idx.toNat]?
  | LocationType.Other _ => none

/-- Range test of the entry loops:
`e.offset < offset && offset <= e.offset + e.length`. The fields of the entry are natural
numbers here, so the sum is exact; `offset` is the truncated local `unsigned offset`. -/
def entryMatches (e : LocationEntry) (offset : Nat) : Bool :=
  decide (e.offset < offset) && decide (offset ≤ e.offset + e.length)

/-- Map access `names[key]`: the table stored under `key`, or a fresh empty table. -/
def lookupTable (names : List (String × LocationTable)) (key : String) : LocationTable :=
  match names.find? (fun p => p.1 == key) with
  | some p => p.2
  | none => ⟨[]⟩

/-- The `for (... e : table.locations)` loop of `getCurrentStatement`, with the `abort()`
behind it. -/
def currentStatementLoop (heap : CFHeap) (mem : Memory) (it : PythonFrameIterator)
    (offset : Nat) : List LocationEntry → Option Nat
  | [] => none
  | e :: rest =>
    if entryMatches e offset then
      match e.locations with
      | [loc] => it.readLocation heap mem loc
      | _ => none
    else currentStatementLoop heap mem it offset rest

/-- Value of `unsigned offset = ip - cf->code_start;` for `ip > code_start`. -/
def pcOffset (ip code_start : Nat) : Nat :=
  (ip - code_start) % U32

/-- Modelled from the spec: the class `BoxedDict` as `getLocals` uses it, the map `d->d`
from names to `Box*` words; the declaration is not among the source files. -/
abbrev BoxedDict := String → Option Nat

/-- A fresh dictionary, `new BoxedDict()`. -/
def BoxedDict.empty : BoxedDict := fun _ => none

/-- Store `d->d[boxString(name)] = v`: insert or overwrite. -/
def BoxedDict.set (d : BoxedDict) (name : String) (v : Nat) : BoxedDict :=
  fun k => if k = name then some v else d k

/-- Functions and data of other subsystems the core uses, taken as parameters: the
interpreter accessors and the address `interpreter_instr_addr` of its trampoline, the
value-layout deserializer `e.type->deserializeFromFrame(vals)`, `gc::isValidGCObject`,
the method `frameInfoFound()` of the location map, the fields `lineno` and `col_offset`
of the statement an `AST_stmt*` points to, the file name
`cf->clfunc->source->parent_module->fn` and the name `cf->clfunc->source->getName()` of
a compiled function, and the singleton `None`. -/
structure Runtime where
  getCurrentStatementForInterpretedFrame : Nat → Option Nat
  localsForInterpretedFrame : Nat → Bool → Option BoxedDict
  deserializeFromFrame : Nat → List Nat → Nat
  isValidGCObject : Nat → Bool
  interpreter_instr_addr : Nat := 0
  getCFForInterpretedFrame : Nat → Option CFPtr := fun _ => none
  getFrameInfoForInterpretedFrame : Nat → Option Nat := fun _ => none
  frameInfoFound : LocationMap → Bool := fun _ => true
  stmt_lineno : Nat → Nat := fun _ => 0
  stmt_col_offset : Nat → Nat := fun _ => 0
  module_fn : CFPtr → String := fun _ => ""
  source_name : CFPtr → String := fun _ => ""
  None : Nat := 1

/-- Method `getCurrentStatement()`; the result is the `AST_stmt*` as a word. -/
def PythonFrameIterator.getCurrentStatement (rt : Runtime) (heap : CFHeap) (mem : Memory)
    (it : PythonFrameIterator) : Option Nat :=
  match it.id.type with
  | FrameType.COMPILED =>
    match it.getCF with
    | none => none
    | some cf =>
      let ip := it.id.ip
      if ¬ (ip > (heap cf).code_start) then none
      else
        let offset := pcOffset ip (heap cf).code_start
        match (heap cf).location_map with
        | none => none
        | some location_map =>
          let table := lookupTable location_map.names "!current_stmt"
          if table.locations.length = 0 then none
          else currentStatementLoop heap mem it offset table.locations
  | FrameType.INTERPRETED => rt.getCurrentStatementForInterpretedFrame it.id.bp

/-! ## getLocals -/

/-- The loop `for (auto& loc : locs) vals.push_back(frame_info.readLocation(loc));`. -/
def readLocations (heap : CFHeap) (mem : Memory) (it : PythonFrameIterator) :
    List Location → Option (List Nat)
  | [] => some []
  | loc :: rest =>
    match it.readLocation heap mem loc with
    | none => none
    | some v =>
      match readLocations heap mem it rest with
      | none => none
      | some vals => some (v :: vals)

/-- Test `p.first[0] == '#' || p.first[0] == '!'` on a map key; the first character of
an empty key is the terminating zero, which is neither sigil. -/
def isSyntheticName (name : String) : Bool :=
  match name.toList with
  | c :: _ => c == '#' || c == '!'
  | [] => false

/-- The inner loop of `getLocals` over the entries of one name (lines 533-549). -/
def localsEntryLoop (rt : Runtime) (heap : CFHeap) (mem : Memory) (it : PythonFrameIterator)
    (name : String) (offset : Nat) : BoxedDict → List LocationEntry → Option BoxedDict
  | d, [] => some d
  | d, e :: rest =>
    if entryMatches e offset then
      match readLocations heap mem it e.locations with
      | none => none
      | some vals =>
        let v := rt.deserializeFromFrame e.type vals
        if rt.isValidGCObject v = false then none
        else localsEntryLoop rt heap mem it name offset (d.set name v) rest
    else localsEntryLoop rt heap mem it name offset d rest

/-- The outer loop of `getLocals` over `cf->location_map->names` (lines 529-550). -/
def localsNameLoop (rt : Runtime) (heap : CFHeap) (mem : Memory) (it : PythonFrameIterator)
    (only_user_visible : Bool) (offset : Nat) :
    BoxedDict → List (String × LocationTable) → Option BoxedDict
  | d, [] => some d
  | d, p :: rest =>
    if only_user_visible && isSyntheticName p.1 then
      localsNameLoop rt heap mem it only_user_visible offset d rest
    else
      match localsEntryLoop rt heap mem it p.1 offset d p.2.locations with
      | none => none
      | some d2 => localsNameLoop rt heap mem it only_user_visible offset d2 rest

/-- Function `getLocals(only_user_visible)`. The range-for over `unwindPythonFrames()`
returns in its first iteration, so the function is determined by the frame
`PythonFrameIterator::begin()` yields: `top` is that frame, `none` when there is none. -/
def getLocals (rt : Runtime) (heap : CFHeap) (mem : Memory) (top : Option PythonFrameIterator)
    (only_user_visible : Bool) : Option BoxedDict :=
  match top with
  | none => none
  | some frame_info =>
    match frame_info.id.type with
    | FrameType.COMPILED =>
      match frame_info.getCF with
      | none => none
      | some cf =>
        let ip := frame_info.id.ip
        if ¬ (ip > (heap cf).code_start) then none
        else
          let offset := pcOffset ip (heap cf).code_start
          match (heap cf).location_map with
          | none => none
          | some location_map =>
            localsNameLoop rt heap mem frame_info only_user_visible offset BoxedDict.empty
              location_map.names
    | FrameType.INTERPRETED =>
      rt.localsForInterpretedFrame frame_info.id.bp only_user_visible

/-! ## Sample frames -/

/-- A runtime whose deserializer returns the first raw value and whose objects are all
valid; the interpreter accessors fail. -/
def sampleRuntime : Runtime :=
  { getCurrentStatementForInterpretedFrame := fun _ => none
    localsForInterpretedFrame := fun _ _ => none
    deserializeFromFrame := fun _ vals => vals.headD 0
    isValidGCObject := fun _ => true }

/-- A location map in which two entries of `!current_stmt` and two entries of `x` cover
the same PC range `(0, 100]`. -/
def overlapMap : LocationMap :=
  { constants := [7, 9]
    frame_info_location := ⟨LocationType.Constant, 0, 0, 0⟩
    names :=
      [("!current_stmt", ⟨[⟨0, 100, 0, [⟨LocationType.Constant, 0, 0, 1111⟩]⟩,
                          ⟨0, 100, 0, [⟨LocationType.Constant, 0, 0, 2222⟩]⟩]⟩),
       ("x", ⟨[⟨0, 100, 0, [⟨LocationType.Constant, 0, 0, 5⟩]⟩,
               ⟨0, 100, 0, [⟨LocationType.Register, 0, 3, 0⟩]⟩]⟩)] }

/-- A heap whose record 1 is a function at 4096 with 256 bytes of code and `overlapMap`. -/
def overlapHeap : CFHeap := fun _ => ⟨4096, 256, false, some overlapMap⟩

/-- A compiled frame of function 1 at return address 4096 + 8; register `n` holds `100 + n`. -/
def sampleFrame : PythonFrameIterator :=
  { id := ⟨FrameType.COMPILED, 4104⟩
    cursor := { regs := fun n => some (100 + n) }
    cf := some 1
    cur_is_osr := false }

/-- Memory whose every byte is zero. -/
def zeroMemory : Memory := fun _ => 0

/-- A location map whose `!current_stmt` table has two entries with the adjacent PC ranges
`(0, 4]` and `(4, 16]`. -/
def stmtMap : LocationMap :=
  { constants := []
    frame_info_location := ⟨LocationType.Constant, 0, 0, 0⟩
    names :=
      [("!current_stmt", ⟨[⟨0, 4, 0, [⟨LocationType.Constant, 0, 0, 10⟩]⟩,
                          ⟨4, 12, 0, [⟨LocationType.Register, 0, 3, 0⟩]⟩]⟩)] }

/-- A heap whose record 1 is a function at 4096 with 256 bytes of code and `stmtMap`. -/
def stmtHeap : CFHeap := fun _ => ⟨4096, 256, false, some stmtMap⟩

/-- A location map with two user names: `a` is live on the PC range `(0, 4]` only, `b` on
`(0, 100]`. -/
def partialMap : LocationMap :=
  { constants := []
    frame_info_location := ⟨LocationType.Constant, 0, 0, 0⟩
    names :=
      [("a", ⟨[⟨0, 4, 0, [⟨LocationType.Constant, 0, 0, 1⟩]⟩]⟩),
       ("b", ⟨[⟨0, 100, 0, [⟨LocationType.Constant, 0, 0, 2⟩]⟩]⟩)] }

/-- A heap whose record 1 is a function at 4096 with 256 bytes of code and `partialMap`. -/
def partialHeap : CFHeap := fun _ => ⟨4096, 256, false, some partialMap⟩


/-! ## StackWalker: `incr`, `begin` and the range-for over `unwindPythonFrames()` -/

/-- The `while (true)` loop of `incr()` over the frames `unw_step` still reaches, with the
local `was_osr`. An empty list is `unw_step` returning `<= 0`; `return incr()` re-enters
the loop with `was_osr` read from the `cur_is_osr` just stored. The result is the boolean
`incr()` returns and the iterator it leaves behind; `none` is a failed `RELEASE_ASSERT`
or a null dereference. -/
def PythonFrameIterator.incrLoop (g : Globals) (rt : Runtime) :
    Bool → PythonFrameIterator → List NativeFrame → Option (Bool × PythonFrameIterator)
  | _, it, [] => some (false, it)
  | was_osr, it, f :: rest =>
    let it1 : PythonFrameIterator := { it with cursor := { regs := f.regs, outer := rest } }
    let ip := f.ip
    match getCFForAddress g ip with
    | some cf =>
      let it2 : PythonFrameIterator :=
        { it1 with cf := some cf, id := ⟨FrameType.COMPILED, ip⟩,
                   cur_is_osr := (g.heap cf).entry_descriptor }
      if was_osr then PythonFrameIterator.incrLoop g rt it2.cur_is_osr it2 rest
      else some (true, it2)
    | none =>
      let it2 : PythonFrameIterator := { it1 with cf := none }
      match f.proc_start with
      | none => none
      | some start_ip =>
        if start_ip = rt.interpreter_instr_addr then
          let bp := f.bp
          match rt.getCFForInterpretedFrame bp with
          | none => none
          | some cf =>
            let it3 : PythonFrameIterator :=
              { it2 with id := ⟨FrameType.INTERPRETED, bp⟩, cf := some cf,
                         cur_is_osr := (g.heap cf).entry_descriptor }
            if was_osr then PythonFrameIterator.incrLoop g rt it3.cur_is_osr it3 rest
            else some (true, it3)
        else PythonFrameIterator.incrLoop g rt was_osr it2 rest

/-- Method `incr()`: `bool was_osr = cur_is_osr;` and the loop from the cursor outward. -/
def PythonFrameIterator.incr (g : Globals) (rt : Runtime) (it : PythonFrameIterator) :
    Option (Bool × PythonFrameIterator) :=
  PythonFrameIterator.incrLoop g rt it.cur_is_osr it it.cursor.outer

/-- Static method `begin()`, called with the native frames `stack` outward of it: a fresh
iterator (`cf(NULL)`, `cur_is_osr(false)`, the `id` not yet written), the cursor on its
own frame, then `incr()`; the inner `none` is the `NULL` it returns when nothing is found. -/
def PythonFrameIterator.begin (g : Globals) (rt : Runtime) (stack : List NativeFrame) :
    Option (Option PythonFrameIterator) :=
  let rtn : PythonFrameIterator :=
    { id := ⟨FrameType.COMPILED, 0⟩, cursor := { regs := fun _ => none, outer := stack },
      cf := none, cur_is_osr := false }
  match rtn.incr g rt with
  | none => none
  | some (found, it) => if found = false then some none else some (some it)

/-- How one pass through the body of a range-for ends: `next` falls through or hits
`continue`, `stop` hits `break` or `return`; `s` is the state of the locals. -/
inductive LoopControl (σ : Type) where
  | next (s : σ)
  | stop (s : σ)

/-- The loop `for (... : unwindPythonFrames())` from the iterator `it` on (`none` is
`end()`): the body, then `Holder::operator++`, which calls `incr()` and releases the
iterator when nothing is found. The first argument bounds the number of passes;
`unwindLoop` starts it high enough for the whole stack. -/
def forPythonFrames {σ : Type} (g : Globals) (rt : Runtime)
    (body : σ → PythonFrameIterator → Option (LoopControl σ)) :
    Nat → Option PythonFrameIterator → σ → Option σ
  | _, none, s => some s
  | 0, some _, _ => none
  | fuel + 1, some it, s =>
    match body s it with
    | none => none
    | some (LoopControl.stop s2) => some s2
    | some (LoopControl.next s2) =>
      match it.incr g rt with
      | none => none
      | some (found, it2) =>
        forPythonFrames g rt body fuel (if found then some it2 else none) s2

/-- A range-for over `unwindPythonFrames()` on the native stack `stack`, started at
`Manager::begin()`. -/
def unwindLoop {σ : Type} (g : Globals) (rt : Runtime) (stack : List NativeFrame)
    (body : σ → PythonFrameIterator → Option (LoopControl σ)) (s : σ) : Option σ :=
  match PythonFrameIterator.begin g rt stack with
  | none => none
  | some it => forPythonFrames g rt body stack.length it s

/-- The frames a complete walk `for (auto& frame : unwindPythonFrames())` yields, in walk
order. -/
def unwindPythonFrames (g : Globals) (rt : Runtime) (stack : List NativeFrame) :
    Option (List PythonFrameIterator) :=
  unwindLoop g rt stack (fun frames it => some (LoopControl.next (frames ++ [it]))) []

/-- Static function `getTopPythonFrame()`: `begin()` with the `RELEASE_ASSERT` that a
frame was found. -/
def getTopPythonFrame (g : Globals) (rt : Runtime) (stack : List NativeFrame) :
    Option PythonFrameIterator :=
  match PythonFrameIterator.begin g rt stack with
  | none => none
  | some none => none
  | some (some fr) => some fr


/-- What the body of the loop of `incr()` makes of the native frame `f`, with `rest` the
frames outward of it: the iterator of a Python frame (a registry hit gives a Compiled
frame, a procedure starting at the interpreter trampoline an Interpreted one), the inner
`none` for a foreign frame, the outer `none` where the body fails. -/
def frameIterator (g : Globals) (rt : Runtime) (f : NativeFrame) (rest : List NativeFrame) :
    Option (Option PythonFrameIterator) :=
  match getCFForAddress g f.ip with
  | some cf =>
    some (some { id := ⟨FrameType.COMPILED, f.ip⟩, cursor := { regs := f.regs, outer := rest },
                 cf := some cf, cur_is_osr := (g.heap cf).entry_descriptor })
  | none =>
    match f.proc_start with
    | none => none
    | some start_ip =>
      if start_ip = rt.interpreter_instr_addr then
        match rt.getCFForInterpretedFrame f.bp with
        | none => none
        | some cf =>
          some (some { id := ⟨FrameType.INTERPRETED, f.bp⟩,
                       cursor := { regs := f.regs, outer := rest },
                       cf := some cf, cur_is_osr := (g.heap cf).entry_descriptor })
      else some none

/-- The Python frames of a native stack, in stack order from the top outward, with no
coalescing; `none` when the walker fails on some frame of the stack. -/
def pythonFramesOf (g : Globals) (rt : Runtime) :
    List NativeFrame → Option (List PythonFrameIterator)
  | [] => some []
  | f :: rest =>
    match frameIterator g rt f rest with
    | none => none
    | some none => pythonFramesOf g rt rest
    | some (some it) =>
      match pythonFramesOf g rt rest with
      | none => none
      | some frames => some (it :: frames)

/-- The frames successive calls of `incr()` yield on the native stack `stack`, starting
with the flag `was_osr`, up to the first frame the walker fails on; the boolean tells
whether the walk ends in such a failure. -/
def walkTrace (g : Globals) (rt : Runtime) :
    Bool → List NativeFrame → List PythonFrameIterator × Bool
  | _, [] => ([], false)
  | was_osr, f :: rest =>
    match frameIterator g rt f rest with
    | none => ([], true)
    | some none => walkTrace g rt was_osr rest
    | some (some it) =>
      if was_osr then walkTrace g rt it.cur_is_osr rest
      else (it :: (walkTrace g rt it.cur_is_osr rest).1, (walkTrace g rt it.cur_is_osr rest).2)

/-- A loop body run over the frames of a walk trace: the body's `stop` or failure ends
it, and reaching the end of a trace that ends in a failure fails. -/
def foldTrace {σ : Type} (body : σ → PythonFrameIterator → Option (LoopControl σ)) :
    List PythonFrameIterator → Bool → σ → Option σ
  | [], aborted, s => if aborted then none else some s
  | it :: rest, aborted, s =>
    match body s it with
    | none => none
    | some (LoopControl.stop s2) => some s2
    | some (LoopControl.next s2) => foldTrace body rest aborted s2

/-- What the walker does to a sequence of Python frames: a frame is dropped exactly when
the Python frame before it (the flag `was_osr` for the first) is an OSR continuation. -/
def coalesceFrom : Bool → List PythonFrameIterator → List PythonFrameIterator
  | _, [] => []
  | was_osr, it :: rest =>
    if was_osr then coalesceFrom it.cur_is_osr rest
    else it :: coalesceFrom it.cur_is_osr rest

/-- The coalescing rule in the words of the spec (4.5, step 6): every frame reached is
yielded, and if the frame just yielded is an OSR continuation the next frame is
discarded. -/
def specOsrCoalescing : List PythonFrameIterator → List PythonFrameIterator
  | [] => []
  | [a] => [a]
  | a :: b :: rest =>
    if a.cur_is_osr then a :: specOsrCoalescing rest
    else a :: specOsrCoalescing (b :: rest)

/-- No OSR continuation is immediately followed by another OSR continuation. -/
def noSuccessiveOsr : List PythonFrameIterator → Prop
  | [] => True
  | [_] => True
  | a :: b :: rest => ¬ (a.cur_is_osr = true ∧ b.cur_is_osr = true) ∧ noSuccessiveOsr (b :: rest)

/-- The pair (frame id, compiled function) of a yielded frame. -/
def frameView (it : PythonFrameIterator) : PythonFrameId × Option CFPtr :=
  (it.id, it.cf)


instance noSuccessiveOsrDecidable :
    (frames : List PythonFrameIterator) → Decidable (noSuccessiveOsr frames)
  | [] => isTrue trivial
  | [_] => isTrue trivial
  | a :: b :: rest =>
    have : Decidable (noSuccessiveOsr (b :: rest)) := noSuccessiveOsrDecidable (b :: rest)
    inferInstanceAs (Decidable (¬ (a.cur_is_osr = true ∧ b.cur_is_osr = true) ∧
      noSuccessiveOsr (b :: rest)))

/-! ## Sample stacks -/

/-- Globals with the two sample functions registered: function 1 at `(4096, 4112]`, and
function 2, an OSR continuation, at `(8192, 8224]`. -/
def walkGlobals : Globals :=
  { heap := sampleHeap, cur_cf := none, cf_registry := ⟨[1, 2]⟩ }

/-- A runtime whose interpreter trampoline starts at 9000 and whose interpreter reports
function 3 for every frame; everything else as in `sampleRuntime`. -/
def walkRuntime : Runtime :=
  { sampleRuntime with
    interpreter_instr_addr := 9000
    getCFForInterpretedFrame := fun _ => some 3 }

/-- A native frame with instruction pointer `ip`, frame base `bp` and procedure start
`start`; register `n` holds `100 + n`. -/
def nativeFrame (ip bp start : Nat) : NativeFrame :=
  { ip := ip, bp := bp, regs := fun n => some (100 + n), proc_start := some start }

/-- A native stack, top first: the OSR continuation of function 2, a foreign frame, the
frame of function 1 it replaced, an interpreter frame, another frame of function 1. -/
def osrStack : List NativeFrame :=
  [nativeFrame 8200 1 8192, nativeFrame 50 2 40, nativeFrame 4100 3 4096,
   nativeFrame 60 777 9000, nativeFrame 4104 5 4096]

/-- The Python frames of `osrStack`. -/
def osrStackFrames : List PythonFrameIterator :=
  (pythonFramesOf walkGlobals walkRuntime osrStack).getD []


/-- The frames a walk of `osrStack` yields. -/
def osrStackYielded : List PythonFrameIterator :=
  (unwindPythonFrames walkGlobals walkRuntime osrStack).getD []

/-- The first frame a walk of `osrStack` yields. -/
def osrStackTop : PythonFrameIterator :=
  osrStackYielded.headD sampleFrame


/-! ## FrameIntrospection: traceback and exception info -/

/-- Modelled from the spec: the record `LineInfo { line, column, filename, function-name }`,
whose declaration is not among the source files. -/
structure LineInfo where
  line : Nat
  column : Nat
  file : String
  func : String
  deriving DecidableEq, Repr

/-- Static function `lineInfoForFrame(frame_it)`: the current statement, `getCF()` with its
assertion, and the new `LineInfo`. -/
def lineInfoForFrame (rt : Runtime) (heap : CFHeap) (mem : Memory)
    (frame_it : PythonFrameIterator) : Option LineInfo :=
  match frame_it.getCurrentStatement rt heap mem with
  | none => none
  | some current_stmt =>
    match frame_it.getCF with
    | none => none
    | some cf =>
      some { line := rt.stmt_lineno current_stmt, column := rt.stmt_col_offset current_stmt,
             file := rt.module_fn cf, func := rt.source_name cf }

/-- The function-local `static bool printed_warning` of `getTracebackEntries` and the lines
written to `stderr`. -/
structure TracebackState where
  printed_warning : Bool
  stderr : List String
  deriving DecidableEq, Repr

/-- Body of the range-for of `getTracebackEntries`: `entries.push_back(line_info)`, the
pointer `new` returns being non-null. -/
def tracebackBody (rt : Runtime) (heap : CFHeap) (mem : Memory) (entries : List LineInfo)
    (frame_info : PythonFrameIterator) : Option (LoopControl (List LineInfo)) :=
  match lineInfoForFrame rt heap mem frame_info with
  | none => none
  | some line_info => some (LoopControl.next (entries ++ [line_info]))

/-- Function `getTracebackEntries()`, with the build-time switch
`ENABLE_FRAME_INTROSPECTION` as a parameter; the result is the vector returned and the
state of the warning flag and of `stderr`. -/
def getTracebackEntries (ENABLE_FRAME_INTROSPECTION : Bool) (g : Globals) (rt : Runtime)
    (mem : Memory) (stack : List NativeFrame) (st : TracebackState) :
    Option (List LineInfo × TracebackState) :=
  if ENABLE_FRAME_INTROSPECTION = false then
    if st.printed_warning = false then
      some ([], { printed_warning := true,
                  stderr := st.stderr ++
                    ["Warning: can't get traceback since ENABLE_FRAME_INTROSPECTION=0\n"] })
    else some ([], st)
  else
    match unwindLoop g rt stack (tracebackBody rt g.heap mem) [] with
    | none => none
    | some entries => some (entries.reverse, st)

/-- A runtime for the traceback sample: the interpreter trampoline starts at 9000, every
interpreter frame runs function 2 and its current statement is the word `bp + 1`; the
line of a statement is its address, the file is `m.py`, function 1 is `f`, any other `g`. -/
def tracebackRuntime : Runtime :=
  { sampleRuntime with
    interpreter_instr_addr := 9000
    getCFForInterpretedFrame := fun _ => some 2
    getCurrentStatementForInterpretedFrame := fun bp => some (bp + 1)
    stmt_lineno := fun stmt => stmt
    module_fn := fun _ => "m.py"
    source_name := fun cf => if cf = 1 then "f" else "g" }

/-- Globals for the traceback sample: function 1 registered, at `(4096, 4352]`, with
`stmtMap`. -/
def tracebackGlobals : Globals :=
  { heap := stmtHeap, cur_cf := none, cf_registry := ⟨[1]⟩ }

/-- A native stack, top first: a compiled frame of function 1 at PC offset 8, a foreign
frame, an interpreter frame with frame base 20, a compiled frame of function 1 at PC
offset 2. -/
def tracebackStack : List NativeFrame :=
  [nativeFrame 4104 1 4096, nativeFrame 50 2 40, nativeFrame 60 20 9000,
   nativeFrame 4098 3 4096]

/-- The frames a walk of `tracebackStack` yields. -/
def tracebackFrames : List PythonFrameIterator :=
  (unwindPythonFrames tracebackGlobals tracebackRuntime tracebackStack).getD []


/-- Modelled from the spec: the exception tuple `ExcInfo` with its members `type`, `value`,
`traceback`, each a `Box*` word with 0 for the null pointer; the declaration is not among
the source files. -/
structure ExcInfo where
  type : Nat
  value : Nat
  traceback : Nat
  deriving DecidableEq, Repr

/-- The `exc` members of the `FrameInfo` records in memory, by address of the `FrameInfo`;
they are kept apart from the byte memory `mem` that location descriptors read. -/
abbrev ExcStore := Nat → ExcInfo

/-- Method `getFrameInfo()`; the result is the `FrameInfo*` as a word. -/
def PythonFrameIterator.getFrameInfo (rt : Runtime) (heap : CFHeap) (mem : Memory)
    (it : PythonFrameIterator) : Option Nat :=
  match it.id.type with
  | FrameType.COMPILED =>
    match it.getCF with
    | none => none
    | some cf =>
      match (heap cf).location_map with
      | none => none
      | some location_map =>
        if rt.frameInfoFound location_map = false then none
        else
          let frame_info_loc := location_map.frame_info_location
          it.readLocation heap mem frame_info_loc
  | FrameType.INTERPRETED => rt.getFrameInfoForInterpretedFrame it.id.bp

/-- The locals of `getFrameExcInfo`: `to_update`, `copy_from_exc`, `cur_exc`; an `ExcInfo*`
is the address of its `FrameInfo`, `none` the null pointer. -/
structure ExcLoopState where
  to_update : List Nat
  copy_from_exc : Option Nat
  cur_exc : Option Nat
  deriving DecidableEq, Repr

/-- Body of the range-for of `getFrameExcInfo` (lines 476-487). -/
def frameExcInfoBody (rt : Runtime) (heap : CFHeap) (mem : Memory) (store : ExcStore)
    (s : ExcLoopState) (frame_iter : PythonFrameIterator) :
    Option (LoopControl ExcLoopState) :=
  match frame_iter.getFrameInfo rt heap mem with
  | none => none
  | some frame_info =>
    let copy_from_exc := frame_info
    let cur_exc :=
      match s.cur_exc with
      | none => copy_from_exc
      | some c => c
    if (store copy_from_exc).type = 0 then
      some (LoopControl.next
        { to_update := s.to_update ++ [copy_from_exc], copy_from_exc := some copy_from_exc,
          cur_exc := some cur_exc })
    else
      some (LoopControl.stop
        { to_update := s.to_update, copy_from_exc := some copy_from_exc,
          cur_exc := some cur_exc })

/-- The loop `for (auto* ex : to_update) *ex = *copy_from_exc;`. -/
def updateLoop (copy_from_exc : Nat) : ExcStore → List Nat → ExcStore
  | store, [] => store
  | store, ex :: rest =>
    updateLoop copy_from_exc (Function.update store ex (store copy_from_exc)) rest

/-- Function `getFrameExcInfo()`: the pointer it returns and the exception tuples it
leaves in memory. -/
def getFrameExcInfo (g : Globals) (rt : Runtime) (mem : Memory) (stack : List NativeFrame)
    (store : ExcStore) : Option (Nat × ExcStore) :=
  match unwindLoop g rt stack (frameExcInfoBody rt g.heap mem store)
      { to_update := [], copy_from_exc := none, cur_exc := none } with
  | none => none
  | some s =>
    match s.copy_from_exc with
    | none => none
    | some copy_from_exc =>
      let store1 : ExcStore :=
        if (store copy_from_exc).type = 0 then
          Function.update store copy_from_exc ⟨rt.None, rt.None, rt.None⟩
        else store
      if (store1 copy_from_exc).value = 0 then none
      else if (store1 copy_from_exc).traceback = 0 then none
      else
        let store2 := updateLoop copy_from_exc store1 s.to_update
        match s.cur_exc with
        | none => none
        | some cur_exc => some (cur_exc, store2)

/-- The locals of `getFrameExcInfo` after its loop has passed frames whose `FrameInfo`
addresses are `ptrs`, all with an empty tuple. -/
def excAdvance (s : ExcLoopState) : List Nat → ExcLoopState
  | [] => s
  | p :: rest =>
    excAdvance
      { to_update := s.to_update ++ [p], copy_from_exc := some p,
        cur_exc := some (match s.cur_exc with
                         | none => p
                         | some c => c) } rest

/-- A location map whose `FrameInfo` address is held in register 6. -/
def excMap : LocationMap :=
  { constants := []
    frame_info_location := ⟨LocationType.Register, 0, 6, 0⟩
    names := [] }

/-- Globals for the exception sample: function 1 registered, at `(4096, 4352]`, with
`excMap`. -/
def excGlobals : Globals :=
  { heap := fun _ => ⟨4096, 256, false, some excMap⟩, cur_cf := none, cf_registry := ⟨[1]⟩ }

/-- A runtime for the exception sample: the trampoline starts at 9000, interpreter frames
run function 2 and keep their `FrameInfo` at address `10 * bp`; `None` is the word 1. -/
def excRuntime : Runtime :=
  { sampleRuntime with
    interpreter_instr_addr := 9000
    getCFForInterpretedFrame := fun _ => some 2
    getFrameInfoForInterpretedFrame := fun bp => some (10 * bp) }

/-- A native stack, top first: a compiled frame with `FrameInfo` at 1006, an interpreter
frame with `FrameInfo` at 200, a compiled frame with `FrameInfo` at 3006. -/
def excStack : List NativeFrame :=
  [{ ip := 4104, bp := 1, regs := fun n => some (1000 + n), proc_start := some 4096 },
   nativeFrame 60 20 9000,
   { ip := 4098, bp := 3, regs := fun n => some (3000 + n), proc_start := some 4096 }]

/-- The frames a walk of `excStack` yields. -/
def excFrames : List PythonFrameIterator :=
  (unwindPythonFrames excGlobals excRuntime excStack).getD []

/-- Exception tuples: the frame at 3006 holds `(5, 6, 7)`, every other tuple is empty. -/
def excStorePopulated : ExcStore := fun p => if p = 3006 then ⟨5, 6, 7⟩ else ⟨0, 0, 0⟩

/-- Exception tuples that are all empty. -/
def excStoreEmpty : ExcStore := fun _ => ⟨0, 0, 0⟩


/-- The two frames of `excFrames` that come first in the walk. -/
def excFramesFirstTwo : List PythonFrameIterator := excFrames.take 2

/-- The third frame of `excFrames`. -/
def excFramesThird : PythonFrameIterator := (excFrames.drop 2).headD sampleFrame


/-! ## JitEmissionObserver: `NotifyObjectEmitted` -/

/-- Enum `llvm::object::SymbolRef::Type` of the object-file library. -/
inductive SymbolType where
  | ST_Unknown
  | ST_Data
  | ST_Debug
  | ST_File
  | ST_Function
  | ST_Other
  deriving DecidableEq, Repr

/-- One symbol of the emitted object as the loop of `NotifyObjectEmitted` queries it:
`getType`, `getName` and `getSize` are `none` when the call returns an error code. -/
structure SymbolRef where
  getType : Option SymbolType
  getName : Option String
  getSize : Option Nat
  deriving DecidableEq, Repr

/-- One section of the emitted object: `getName` is `none` when the call returns an error
code, `getSize` is the `uint64_t` that `sec.getSize()` returns. -/
structure SectionRef where
  getName : Option String
  getSize : Nat
  deriving DecidableEq, Repr

/-- The emitted object `Obj`: its symbols and its sections, in iteration order. -/
structure ObjectFile where
  symbols : List SymbolRef
  sections : List SectionRef
  deriving DecidableEq, Repr

/-- The loader's record `L` of where the object was placed: the load address of a symbol
and of a section, by name. -/
structure LoadedObjectInfo where
  getSymbolLoadAddress : String → Nat
  getSectionLoadAddress : String → Nat

/-- The fields of `unw_dyn_info_t` that `NotifyObjectEmitted` fills in; the format is
`UNW_INFO_FORMAT_REMOTE_TABLE` and `name_ptr` is 0. -/
structure unw_dyn_info_t where
  start_ip : Nat
  end_ip : Nat
  segbase : Nat
  table : EhFrameTable
  deriving DecidableEq, Repr

/-- What the observer reads and writes: the process globals and the records handed to
`_U_dyn_register`, in call order. -/
structure EmissionState where
  g : Globals
  dyn_info_list : List unw_dyn_info_t

/-- The loop `for (const auto& sym : Obj.symbols())` (lines 109-146), run after
`assert(g.cur_cf)`. An error code of `getType`, `getName` or `getSize` is `continue`; a
function symbol runs `assert(Addr)` before its size is read, then the assertion, the two
stores and the registration of `notifyFunctionSymbol`. The result is `error` with the
globals as they stand when an assertion fails, `ok` with the globals after the loop. -/
def symbolLoop (L : LoadedObjectInfo) : Globals → List SymbolRef → Except Globals Globals
  | g, [] => Except.ok g
  | g, sym :: rest =>
    match sym.getType with
    | none => symbolLoop L g rest
    | some SymType =>
      if SymType = SymbolType.ST_Function then
        match sym.getName with
        | none => symbolLoop L g rest
        | some Name =>
          let Addr := L.getSymbolLoadAddress Name
          if Addr = 0 then Except.error g
          else
            match sym.getSize with
            | none => symbolLoop L g rest
            | some Size =>
              match notifyFunctionSymbol g Addr Size with
              | none => Except.error g
              | some g2 => symbolLoop L g2 rest
      else symbolLoop L g rest

/-- The locals of the section scan (lines 150-152): `-1` is the `uint64_t` word
`2^64 - 1`. -/
structure SectionScan where
  found_text : Bool := false
  found_eh_frame : Bool := false
  text_addr : Nat := U64 - 1
  text_size : Nat := U64 - 1
  eh_frame_addr : Nat := U64 - 1
  eh_frame_size : Nat := U64 - 1
  deriving DecidableEq, Repr

/-- The loop `for (const auto& sec : Obj.sections())` (lines 154-176); `none` is a failed
assertion: a section name that cannot be read, a second `.eh_frame`, a second `.text`. -/
def sectionLoop (L : LoadedObjectInfo) : SectionScan → List SectionRef → Option SectionScan
  | s, [] => some s
  | s, sec :: rest =>
    match sec.getName with
    | none => none
    | some name =>
      if name = ".eh_frame" then
        if s.found_eh_frame then none
        else
          sectionLoop L
            { s with eh_frame_addr := L.getSectionLoadAddress name,
                     eh_frame_size := sec.getSize, found_eh_frame := true } rest
      else if name = ".text" then
        if s.found_text then none
        else
          sectionLoop L
            { s with text_addr := L.getSectionLoadAddress name,
                     text_size := sec.getSize, found_text := true } rest
      else sectionLoop L s rest

/-- Method `TracebacksEventListener::NotifyObjectEmitted(Obj, L)`. The debug-line query
and the `printf` calls under `VERBOSITY()` touch nothing the model holds. The result is
`ok` with the state at the normal return, `error` with the state at the failed
assertion. -/
def NotifyObjectEmitted (mem : Memory) (st : EmissionState) (Obj : ObjectFile)
    (L : LoadedObjectInfo) : Except EmissionState EmissionState :=
  match st.g.cur_cf with
  | none => Except.error st
  | some _ =>
    match symbolLoop L st.g Obj.symbols with
    | Except.error g1 => Except.error { st with g := g1 }
    | Except.ok g1 =>
      let st1 : EmissionState := { st with g := g1 }
      match sectionLoop L {} Obj.sections with
      | none => Except.error st1
      | some scan =>
        if scan.found_text = false then Except.error st1
        else if scan.found_eh_frame = false then Except.error st1
        else
          match parseEhFrame mem scan.eh_frame_addr scan.eh_frame_size with
          | none => Except.error st1
          | some table =>
            let dyn_info : unw_dyn_info_t :=
              { start_ip := scan.text_addr
                end_ip := (scan.text_addr + scan.text_size) % U64
                segbase := scan.eh_frame_addr
                table := table }
            Except.ok { st1 with dyn_info_list := st1.dyn_info_list ++ [dyn_info] }

/-- A function symbol whose name and size the symbol loop can read: the symbols that reach
the stores of lines 142-144. -/
def SymbolRef.isReadableFunction (sym : SymbolRef) : Bool :=
  decide (sym.getType = some SymbolType.ST_Function) && sym.getName.isSome && sym.getSize.isSome

/-- What a run of the observer leaves of the active function `cf`: whether it returned
normally, `code_start`, `code_size` and the registry. -/
def emissionView (cf : CFPtr) (r : Except EmissionState EmissionState) :
    Bool × Nat × Nat × List CFPtr :=
  match r with
  | Except.ok st => (true, (st.g.heap cf).code_start, (st.g.heap cf).code_size,
      st.g.cf_registry.cfs)
  | Except.error st => (false, (st.g.heap cf).code_start, (st.g.heap cf).code_size,
      st.g.cf_registry.cfs)

/-- An emitted object with the function symbol `f` of 16 bytes, a `.text` section of 64
bytes and an `.eh_frame` section of 40 bytes. -/
def emittedObject : ObjectFile :=
  { symbols := [⟨some SymbolType.ST_Data, some "d", some 8⟩,
                ⟨some SymbolType.ST_Function, some "f", some 16⟩]
    sections := [⟨some ".text", 64⟩, ⟨some ".data", 8⟩, ⟨some ".eh_frame", 40⟩] }

/-- Load addresses for the sample objects: `.text` at 12288, `.eh_frame` at 4096, the
function `f` 16 bytes into `.text`, at 12304. -/
def emittedLoaded : LoadedObjectInfo :=
  { getSymbolLoadAddress := fun n => if n = "f" then 12304 else 20480
    getSectionLoadAddress := fun n =>
      if n = ".text" then 12288 else if n = ".eh_frame" then 4096 else 16384 }

/-- An emitted object with both sections and no symbol. -/
def symbolFreeObject : ObjectFile :=
  { symbols := [], sections := [⟨some ".text", 64⟩, ⟨some ".eh_frame", 40⟩] }

/-- An emitted object with the function symbol `f` and an `.eh_frame` section, and no
`.text` section. -/
def textFreeObject : ObjectFile :=
  { symbols := [⟨some SymbolType.ST_Function, some "f", some 16⟩]
    sections := [⟨some ".eh_frame", 40⟩] }

/-- The state before the first emission: `freshGlobals`, nothing registered with the
unwinder. -/
def freshEmission : EmissionState := { g := freshGlobals, dyn_info_list := [] }

/-- A state whose active function 1 has been emitted already, at 4096 with 16 bytes. -/
def staleEmission : EmissionState :=
  { g := { emittedOne with cur_cf := some 1 }, dyn_info_list := [] }

/-- A state with no active function. -/
def idleEmission : EmissionState :=
  { g := { freshGlobals with cur_cf := none }, dyn_info_list := [] }


/-- The state a run of the observer ends in, at its return or at its failed assertion. -/
def emissionState (r : Except EmissionState EmissionState) : EmissionState :=
  match r with
  | Except.ok st => st
  | Except.error st => st

/-- The state after the observer has run on `emittedObject` from `freshEmission`. -/
def emittedState : EmissionState :=
  emissionState (NotifyObjectEmitted ehFrameOk freshEmission emittedObject emittedLoaded)

/-- The state in which the observer stops on `textFreeObject` from `freshEmission`. -/
def textFreeState : EmissionState :=
  emissionState (NotifyObjectEmitted ehFrameOk freshEmission textFreeObject emittedLoaded)


/-! ## Call sequences of `getTracebackEntries` -/

/-- The surroundings of one call of `getTracebackEntries()`: the globals, the runtime, the
memory and the native stack it is made on. -/
structure TracebackCall where
  g : Globals
  rt : Runtime
  mem : Memory
  stack : List NativeFrame

/-- Successive calls of `getTracebackEntries()`, one per element of the list, with the
static flag and `stderr` carried from each call to the next: the vectors returned, in call
order, and the final state. -/
def tracebackCalls (ENABLE_FRAME_INTROSPECTION : Bool) :
    List TracebackCall → TracebackState → Option (List (List LineInfo) × TracebackState)
  | [], st => some ([], st)
  | c :: rest, st =>
    match getTracebackEntries ENABLE_FRAME_INTROSPECTION c.g c.rt c.mem c.stack st with
    | none => none
    | some (entries, st1) =>
      match tracebackCalls ENABLE_FRAME_INTROSPECTION rest st1 with
      | none => none
      | some (results, st2) => some (entries :: results, st2)

/-- A call of `getTracebackEntries()` on the traceback sample. -/
def sampleTracebackCall : TracebackCall :=
  { g := tracebackGlobals, rt := tracebackRuntime, mem := zeroMemory, stack := tracebackStack }


/-! ## Queries on the top frame -/

/-- Function `getTopCompiledFunction()`: `getTopPythonFrame()->getCF()`. -/
def getTopCompiledFunction (g : Globals) (rt : Runtime) (stack : List NativeFrame) :
    Option CFPtr :=
  match getTopPythonFrame g rt stack with
  | none => none
  | some fr => fr.getCF

/-- A native stack of two foreign frames. -/
def foreignStack : List NativeFrame :=
  [nativeFrame 50 2 40, nativeFrame 70 3 60]


/-- A native stack, top first: two frames of the OSR continuation function 2, then two
frames of function 1. -/
def doubleOsrStack : List NativeFrame :=
  [nativeFrame 8200 1 8192, nativeFrame 8204 2 8192, nativeFrame 4100 3 4096,
   nativeFrame 4104 4 4096]

/-- The Python frames of `doubleOsrStack`. -/
def doubleOsrFrames : List PythonFrameIterator :=
  (pythonFramesOf walkGlobals walkRuntime doubleOsrStack).getD []


/-! ## StackWalker with the calls of `unw_step` recorded -/

/-- The loop of `incr()` exactly as in `incrLoop`, together with the results of its calls of
`unw_step` in call order: `true` for a result `> 0`, `false` for a result `<= 0`. The calls
made by the nested `return incr()` are part of the record. -/
def PythonFrameIterator.incrLoopSteps (g : Globals) (rt : Runtime) :
    Bool → PythonFrameIterator → List NativeFrame →
      List Bool × Option (Bool × PythonFrameIterator)
  | _, it, [] => ([false], some (false, it))
  | was_osr, it, f :: rest =>
    let it1 : PythonFrameIterator := { it with cursor := { regs := f.regs, outer := rest } }
    let ip := f.ip
    match getCFForAddress g ip with
    | some cf =>
      let it2 : PythonFrameIterator :=
        { it1 with cf := some cf, id := ⟨FrameType.COMPILED, ip⟩,
                   cur_is_osr := (g.heap cf).entry_descriptor }
      if was_osr then
        (true :: (PythonFrameIterator.incrLoopSteps g rt it2.cur_is_osr it2 rest).1,
         (PythonFrameIterator.incrLoopSteps g rt it2.cur_is_osr it2 rest).2)
      else ([true], some (true, it2))
    | none =>
      let it2 : PythonFrameIterator := { it1 with cf := none }
      match f.proc_start with
      | none => ([true], none)
      | some start_ip =>
        if start_ip = rt.interpreter_instr_addr then
          let bp := f.bp
          match rt.getCFForInterpretedFrame bp with
          | none => ([true], none)
          | some cf =>
            let it3 : PythonFrameIterator :=
              { it2 with id := ⟨FrameType.INTERPRETED, bp⟩, cf := some cf,
                         cur_is_osr := (g.heap cf).entry_descriptor }
            if was_osr then
              (true :: (PythonFrameIterator.incrLoopSteps g rt it3.cur_is_osr it3 rest).1,
               (PythonFrameIterator.incrLoopSteps g rt it3.cur_is_osr it3 rest).2)
            else ([true], some (true, it3))
        else
          (true :: (PythonFrameIterator.incrLoopSteps g rt was_osr it2 rest).1,
           (PythonFrameIterator.incrLoopSteps g rt was_osr it2 rest).2)

/-- Method `incr()` with its calls of `unw_step` recorded. -/
def PythonFrameIterator.incrSteps (g : Globals) (rt : Runtime) (it : PythonFrameIterator) :
    List Bool × Option (Bool × PythonFrameIterator) :=
  PythonFrameIterator.incrLoopSteps g rt it.cur_is_osr it it.cursor.outer

/-- Static method `begin()` with the calls of `unw_step` recorded. -/
def PythonFrameIterator.beginSteps (g : Globals) (rt : Runtime) (stack : List NativeFrame) :
    List Bool × Option (Option PythonFrameIterator) :=
  let rtn : PythonFrameIterator :=
    { id := ⟨FrameType.COMPILED, 0⟩, cursor := { regs := fun _ => none, outer := stack },
      cf := none, cur_is_osr := false }
  match (rtn.incrSteps g rt).2 with
  | none => ((rtn.incrSteps g rt).1, none)
  | some (found, it) =>
    ((rtn.incrSteps g rt).1, if found = false then some none else some (some it))

/-- The loop `for (... : unwindPythonFrames())` as in `forPythonFrames`, with the calls of
`unw_step` that its `operator++` makes recorded. -/
def forPythonFramesSteps {σ : Type} (g : Globals) (rt : Runtime)
    (body : σ → PythonFrameIterator → Option (LoopControl σ)) :
    Nat → Option PythonFrameIterator → σ → List Bool × Option σ
  | _, none, s => ([], some s)
  | 0, some _, _ => ([], none)
  | fuel + 1, some it, s =>
    match body s it with
    | none => ([], none)
    | some (LoopControl.stop s2) => ([], some s2)
    | some (LoopControl.next s2) =>
      match (it.incrSteps g rt).2 with
      | none => ((it.incrSteps g rt).1, none)
      | some (found, it2) =>
        ((it.incrSteps g rt).1 ++
           (forPythonFramesSteps g rt body fuel (if found then some it2 else none) s2).1,
         (forPythonFramesSteps g rt body fuel (if found then some it2 else none) s2).2)

/-- A range-for over `unwindPythonFrames()` as in `unwindLoop`, with every call of
`unw_step` of the walk recorded, those of `begin()` first. -/
def unwindLoopSteps {σ : Type} (g : Globals) (rt : Runtime) (stack : List NativeFrame)
    (body : σ → PythonFrameIterator → Option (LoopControl σ)) (s : σ) :
    List Bool × Option σ :=
  match (PythonFrameIterator.beginSteps g rt stack).2 with
  | none => ((PythonFrameIterator.beginSteps g rt stack).1, none)
  | some it =>
    ((PythonFrameIterator.beginSteps g rt stack).1 ++
       (forPythonFramesSteps g rt body stack.length it s).1,
     (forPythonFramesSteps g rt body stack.length it s).2)

/-- The complete walk of `unwindPythonFrames` with every call of `unw_step` recorded. -/
def unwindPythonFramesSteps (g : Globals) (rt : Runtime) (stack : List NativeFrame) :
    List Bool × Option (List PythonFrameIterator) :=
  unwindLoopSteps g rt stack (fun frames it => some (LoopControl.next (frames ++ [it]))) []

/-- A record of step results that fits a stack of `m` frames: results `> 0` for at most `m`
steps, or for exactly `m` steps followed by the one result `<= 0`. -/
def stepsWithin (m : Nat) (log : List Bool) : Prop :=
  (∃ k, k ≤ m ∧ log = List.replicate k true) ∨ log = List.replicate m true ++ [false]


/-! ## `_Py_HashPointer` (runtime/capi.cpp) -/

/-- Function `_Py_HashPointer(p)`, for a target whose pointers, `size_t` and `long` have
`8 * SIZEOF_VOID_P` bits; the macro `SIZEOF_VOID_P` is a parameter. `y` is the pointer as
an unsigned word, the shifts are those of the source with the left one reduced to the
word, `x = (long)y` is the two's complement reading. -/
def _Py_HashPointer (SIZEOF_VOID_P : Nat) (p : Nat) : Int :=
  let word : Nat := 2 ^ (8 * SIZEOF_VOID_P)
  let y : Nat := p % word
  let y : Nat := (y >>> 4) ||| ((y <<< (8 * SIZEOF_VOID_P - 4)) % word)
  let x : Int := if y < word / 2 then (y : Int) else (y : Int) - (word : Int)
  if x = -1 then -2 else x

/-- The 64-bit word `p` rotated right by 4 bits: the low 4 bits become the high 4 bits. -/
def rotateRight4 (p : Nat) : Nat :=
  p / 16 + (p % 16) * 2 ^ 60

/-- A 64-bit word reinterpreted as a signed 64-bit integer. -/
def asSigned64 (w : Nat) : Int :=
  if w < 2 ^ 63 then (w : Int) else (w : Int) - 2 ^ 64


/-! ## `property_copy` and the property getter, setter, deleter (runtime/descr.cpp) -/

/-- Modelled from the spec: the record `BoxedProperty` and its constructor, whose
declarations (`runtime/types.h`) are not among the source files. The members are the class
pointer `cls` and the four `Box*` members `prop_get`, `prop_set`, `prop_del`, `prop_doc`
that `propertyInit` assigns, `none` being `NULL`; `new BoxedProperty(get, set, del, doc)`
is taken to store its arguments in these members, in this order, with `cls` set to
`property_cls`. -/
structure BoxedProperty where
  cls : Nat
  prop_get : Option Nat
  prop_set : Option Nat
  prop_del : Option Nat
  prop_doc : Option Nat
  deriving DecidableEq, Repr

/-- The objects in memory, by address: the object at address `a` is the element `a` of the
list, and `new` places its object behind the last one. -/
abbrev PropertyHeap := List BoxedProperty

/-- Function `property_copy(old, get, set, del)`: the `RELEASE_ASSERT` on the class of
`old`, the three defaults, and the new object; the result is the pointer returned and the
memory after the allocation. `none` is the failed assertion or a pointer `old` to no
object. -/
def property_copy (property_cls : Nat) (heap : PropertyHeap) (old : Nat)
    (get set del : Option Nat) : Option (Nat × PropertyHeap) :=
  match heap[old]? with
  | none => none
  | some o =>
    if o.cls ≠ property_cls then none
    else
      let get := if get = none then o.prop_get else get
      let set := if set = none then o.prop_set else set
      let del := if del = none then o.prop_del else del
      some (heap.length,
        heap ++ [{ cls := property_cls, prop_get := get, prop_set := set, prop_del := del,
                   prop_doc := o.prop_doc }])

/-- Function `propertyGetter(self, obj)`. -/
def propertyGetter (property_cls : Nat) (heap : PropertyHeap) (self : Nat)
    (obj : Option Nat) : Option (Nat × PropertyHeap) :=
  match heap[self]? with
  | none => none
  | some s =>
    if s.cls ≠ property_cls then none
    else property_copy property_cls heap self obj none none

/-- Function `propertySetter(self, obj)`. -/
def propertySetter (property_cls : Nat) (heap : PropertyHeap) (self : Nat)
    (obj : Option Nat) : Option (Nat × PropertyHeap) :=
  match heap[self]? with
  | none => none
  | some s =>
    if s.cls ≠ property_cls then none
    else property_copy property_cls heap self none obj none

/-- Function `propertyDeleter(self, obj)`. -/
def propertyDeleter (property_cls : Nat) (heap : PropertyHeap) (self : Nat)
    (obj : Option Nat) : Option (Nat × PropertyHeap) :=
  match heap[self]? with
  | none => none
  | some s =>
    if s.cls ≠ property_cls then none
    else property_copy property_cls heap self none none obj

/-- What a call that returns the property `r.1` in the memory `r.2` leaves behind: the new
object and the object at address `old`. -/
def propertyView (old : Nat) (r : Option (Nat × PropertyHeap)) :
    Option (Option BoxedProperty × Option BoxedProperty) :=
  r.map fun p => (p.2[p.1]?, p.2[old]?)

/-- A memory with one property object of class 7 at address 0 (getter 10, doc 20) and an
object of class 3 at address 1. -/
def sampleProperties : PropertyHeap :=
  [⟨7, some 10, none, none, some 20⟩, ⟨3, none, none, none, none⟩]


/-! ## Theorems: registry -/

theorem getCFForAddressLoop_some (heap : CFHeap) (cfs : List CFPtr) (p : Nat) (f : CFPtr)
    (h : getCFForAddressLoop heap cfs p = some f) :
    ∃ pre post, cfs = pre ++ f :: post ∧ addrInCF (heap f) p = true ∧
      ∀ g ∈ pre, addrInCF (heap g) p = false := by
  induction cfs with
  | nil => simp [getCFForAddressLoop] at h
  | cons c rest ih =>
    unfold getCFForAddressLoop at h
    by_cases hc : addrInCF (heap c) p = true
    · rw [if_pos hc] at h
      cases h
      exact ⟨[], rest, rfl, hc, by simp⟩
    · rw [if_neg hc] at h
      obtain ⟨pre, post, hsplit, hin, hpre⟩ := ih h
      refine ⟨c :: pre, post, by simp [hsplit], hin, ?_⟩
      intro g hg
      rcases List.mem_cons.mp hg with rfl | hg
      · simpa using hc
      · exact hpre g hg

theorem getCFForAddressLoop_none (heap : CFHeap) (cfs : List CFPtr) (p : Nat) :
    getCFForAddressLoop heap cfs p = none ↔ ∀ g ∈ cfs, addrInCF (heap g) p = false := by
  induction cfs with
  | nil => simp [getCFForAddressLoop]
  | cons c rest ih =>
    unfold getCFForAddressLoop
    by_cases hc : addrInCF (heap c) p = true
    · simp [hc]
    · simp only [if_neg hc, ih, List.mem_cons, forall_eq_or_imp]
      simp at hc
      simp [hc]

theorem addrInCF_iff (cf : CompiledFunction) (p : Nat) :
    addrInCF cf p = true ↔ cf.code_start < p ∧ p ≤ codeEnd cf := by
  simp [addrInCF]

theorem codeEnd_of_lt (cf : CompiledFunction) (h : cf.code_start + cf.code_size < 2 ^ 64) :
    codeEnd cf = cf.code_start + cf.code_size := by
  unfold codeEnd U64
  exact Nat.mod_eq_of_lt h

theorem addrInCF_iff_mod (cf : CompiledFunction) (p : Nat) :
    addrInCF cf p = true ↔ cf.code_start < p ∧ p ≤ (cf.code_start + cf.code_size) % 2 ^ 64 := by
  simp [addrInCF, codeEnd, U64]

theorem addrInCF_false_iff_mod (cf : CompiledFunction) (p : Nat) :
    addrInCF cf p = false ↔
      ¬ (cf.code_start < p ∧ p ≤ (cf.code_start + cf.code_size) % 2 ^ 64) := by
  rw [← addrInCF_iff_mod]
  simp

/-- C1: `getCFForAddress(p)` returns the first registered function `f`, in registration
order, with `f.code_start < p <= f.code_start + f.code_size` (the sum being the 64-bit
sum the code computes, which never exceeds the exact sum), it returns one whenever some
registered function satisfies the condition, it returns NULL exactly when none does, and
`p == f.code_start` is not inside `f`. -/
theorem getCFForAddress_first_match (heap : CFHeap) (r : CFRegistry) (p : Nat) :
    (∀ f, r.getCFForAddress heap p = some f →
        f ∈ r.cfs ∧
        (heap f).code_start < p ∧ p ≤ ((heap f).code_start + (heap f).code_size) % 2 ^ 64 ∧
        p ≤ (heap f).code_start + (heap f).code_size ∧
        ∃ pre post, r.cfs = pre ++ f :: post ∧
          ∀ g ∈ pre, ¬ ((heap g).code_start < p ∧
            p ≤ ((heap g).code_start + (heap g).code_size) % 2 ^ 64)) ∧
    ((∃ g ∈ r.cfs, (heap g).code_start < p ∧
          p ≤ ((heap g).code_start + (heap g).code_size) % 2 ^ 64) →
        ∃ f, r.getCFForAddress heap p = some f) ∧
    (r.getCFForAddress heap p = none ↔
        ∀ g ∈ r.cfs, ¬ ((heap g).code_start < p ∧
          p ≤ ((heap g).code_start + (heap g).code_size) % 2 ^ 64)) ∧
    (∀ f, CFRegistry.getCFForAddress heap ⟨[f]⟩ (heap f).code_start = none) := by
  have hnone : r.getCFForAddress heap p = none ↔
      ∀ g ∈ r.cfs, ¬ ((heap g).code_start < p ∧
        p ≤ ((heap g).code_start + (heap g).code_size) % 2 ^ 64) := by
    unfold CFRegistry.getCFForAddress
    rw [getCFForAddressLoop_none]
    constructor
    · intro h g hg
      exact (addrInCF_false_iff_mod _ _).mp (h g hg)
    · intro h g hg
      exact (addrInCF_false_iff_mod _ _).mpr (h g hg)
  refine ⟨?_, ?_, hnone, ?_⟩
  · intro f hf
    obtain ⟨pre, post, hsplit, hin, hpre⟩ := getCFForAddressLoop_some heap r.cfs p f hf
    have hin2 := (addrInCF_iff_mod _ _).mp hin
    refine ⟨by rw [hsplit]; simp, hin2.1, hin2.2,
      le_trans hin2.2 (Nat.mod_le _ _), pre, post, hsplit, ?_⟩
    intro g hg
    exact (addrInCF_false_iff_mod _ _).mp (hpre g hg)
  · intro hex
    cases hres : r.getCFForAddress heap p with
    | some f => exact ⟨f, rfl⟩
    | none =>
      obtain ⟨g, hg, hin⟩ := hex
      exact absurd hin (hnone.mp hres g hg)
  · intro f
    simp [CFRegistry.getCFForAddress, getCFForAddressLoop, addrInCF]

/-- Instance of C1: in the registry `[1, 2]` of the sample heap no function contains the
address 4096, the `code_start` of function 1, and the lookup returns NULL. -/
theorem getCFForAddress_first_match_witness :
    CFRegistry.getCFForAddress sampleHeap ⟨[1, 2]⟩ 4096 = none :=
  (getCFForAddress_first_match sampleHeap ⟨[1, 2]⟩ 4096).2.2.1.mpr (by decide)

/-- C2 fails as stated: a registered function of code size 0 does not contain the address
`code_start + code_size`; the lookup returns NULL although the function is the only
registered one. -/
theorem getCFForAddress_code_end_zero_size :
    (1 : CFPtr) ∈ (⟨[1]⟩ : CFRegistry).cfs ∧
    CFRegistry.getCFForAddress emptyCodeHeap ⟨[1]⟩
      ((emptyCodeHeap 1).code_start + (emptyCodeHeap 1).code_size) = none := by
  decide

/-- C2 (amended): for a registered function `f` with `code_size > 0` whose end
`code_start + code_size` fits in 64 bits, the lookup of the address
`code_start + code_size` returns a function, and it returns `f` itself when `f` is the
only registered function. -/
theorem getCFForAddress_code_end (heap : CFHeap) (r : CFRegistry) (f : CFPtr)
    (hf : f ∈ r.cfs) (hsize : 0 < (heap f).code_size)
    (hfit : (heap f).code_start + (heap f).code_size < 2 ^ 64) :
    (∃ g, r.getCFForAddress heap ((heap f).code_start + (heap f).code_size) = some g) ∧
    (r.cfs = [f] →
      r.getCFForAddress heap ((heap f).code_start + (heap f).code_size) = some f) := by
  have hin : addrInCF (heap f) ((heap f).code_start + (heap f).code_size) = true := by
    rw [addrInCF_iff, codeEnd_of_lt _ hfit]
    omega
  constructor
  · cases hres : r.getCFForAddress heap ((heap f).code_start + (heap f).code_size) with
    | some g => exact ⟨g, rfl⟩
    | none =>
      unfold CFRegistry.getCFForAddress at hres
      have := (getCFForAddressLoop_none heap r.cfs _).mp hres f hf
      rw [hin] at this
      cases this
  · intro hone
    unfold CFRegistry.getCFForAddress
    rw [hone]
    simp [getCFForAddressLoop, hin]

/-- Instance of C2 (amended): sample function 1 has 16 bytes of code at 4096, and the
lookup of 4096 + 16 in the registry `[1]` returns it. -/
theorem getCFForAddress_code_end_witness :
    CFRegistry.getCFForAddress sampleHeap ⟨[1]⟩
      ((sampleHeap 1).code_start + (sampleHeap 1).code_size) = some 1 :=
  (getCFForAddress_code_end sampleHeap ⟨[1]⟩ 1 (by decide) (by decide) (by decide)).2 rfl

theorem setCode_other (heap : CFHeap) (cf q : CFPtr) (a s : Nat) (h : q ≠ cf) :
    setCode heap cf a s q = heap q := by
  simp [setCode, h]

theorem setCode_self (heap : CFHeap) (cf : CFPtr) (a s : Nat) :
    (setCode heap cf a s cf).code_start = a ∧ (setCode heap cf a s cf).code_size = s := by
  simp [setCode]

theorem rangesDisjoint_symm (f g : CompiledFunction) (h : rangesDisjoint f g) :
    rangesDisjoint g f := by
  unfold rangesDisjoint at *
  exact h.symm

theorem notifyFunctionSymbol_some (g g2 : Globals) (Addr Size : Nat)
    (h : notifyFunctionSymbol g Addr Size = some g2) :
    ∃ cf, g.cur_cf = some cf ∧ Addr ≠ 0 ∧ (g.heap cf).code_start = 0 ∧
      g2.heap = setCode g.heap cf Addr Size ∧ g2.cur_cf = g.cur_cf ∧
      g2.cf_registry = g.cf_registry.registerCF cf := by
  unfold notifyFunctionSymbol at h
  cases hcur : g.cur_cf with
  | none => rw [hcur] at h; cases h
  | some cf =>
    rw [hcur] at h
    simp only at h
    by_cases ha : Addr = 0
    · simp [ha] at h
    · by_cases hs : (g.heap cf).code_start = 0
      · simp [ha, hs] at h
        subst h
        exact ⟨cf, rfl, ha, hs, rfl, hcur.symm ▸ rfl, rfl⟩
      · simp [ha, hs] at h

/-- C3 fails as stated: after two successful emissions, of function 1 at 4096 with 16 bytes
and of function 2 right behind it at 4112, the registry holds two different records whose
closed ranges `[4096, 4112]` and `[4112, 4128]` share the address 4112. -/
theorem registry_adjacent_ranges_overlap :
    adjacentEmissions = some adjacentGlobals ∧
    adjacentGlobals.cf_registry.cfs = [1, 2] ∧
    (adjacentGlobals.heap 1).code_start + (adjacentGlobals.heap 1).code_size = 4112 ∧
    (adjacentGlobals.heap 2).code_start = 4112 ∧
    ¬ RegistryDisjoint adjacentGlobals.heap adjacentGlobals.cf_registry := by
  refine ⟨rfl, rfl, by decide, by decide, by decide⟩

theorem registerCF_disjoint (heap : CFHeap) (r : CFRegistry) (cf : CFPtr)
    (hinv : RegistryDisjoint heap r)
    (hnew : ∀ q ∈ r.cfs, q = cf ∨ rangesDisjoint (heap cf) (heap q)) :
    RegistryDisjoint heap (r.registerCF cf) := by
  intro f hf g hg
  simp only [CFRegistry.registerCF, List.mem_append, List.mem_singleton] at hf hg
  rcases hf with hf | rfl
  · rcases hg with hg | rfl
    · exact hinv f hf g hg
    · rcases hnew f hf with h | h
      · exact Or.inl h
      · exact Or.inr (rangesDisjoint_symm _ _ h)
  · rcases hg with hg | rfl
    · rcases hnew g hg with h | h
      · exact Or.inl h.symm
      · exact Or.inr h
    · exact Or.inl rfl

theorem notifyFunctionSymbol_disjoint (g g2 : Globals) (Addr Size : Nat) (cf : CFPtr)
    (hcur : g.cur_cf = some cf) (hstep : notifyFunctionSymbol g Addr Size = some g2)
    (hinv : RegistryDisjoint g.heap g.cf_registry)
    (hnew : ∀ q ∈ g.cf_registry.cfs, q = cf ∨
      Addr + Size < (g.heap q).code_start ∨
      (g.heap q).code_start + (g.heap q).code_size < Addr) :
    RegistryDisjoint g2.heap g2.cf_registry := by
  obtain ⟨cf2, hcur2, -, -, hheap, -, hreg⟩ := notifyFunctionSymbol_some g g2 Addr Size hstep
  rw [hcur] at hcur2
  cases hcur2
  rw [hheap, hreg]
  have hold : RegistryDisjoint (setCode g.heap cf Addr Size) g.cf_registry := by
    intro f hf q hq
    by_cases hfq : f = q
    · exact Or.inl hfq
    · right
      by_cases hfc : f = cf
      · subst hfc
        have hq2 : q ≠ f := fun h => hfq h.symm
        rcases hnew q hq with h | h
        · exact absurd h hq2
        · unfold rangesDisjoint
          rw [setCode_other _ _ _ _ _ hq2, (setCode_self _ _ _ _).1, (setCode_self _ _ _ _).2]
          exact h
      · by_cases hqc : q = cf
        · subst hqc
          rcases hnew f hf with h | h
          · exact absurd h hfc
          · unfold rangesDisjoint
            rw [setCode_other _ _ _ _ _ hfc, (setCode_self _ _ _ _).1,
              (setCode_self _ _ _ _).2]
            exact h.symm
        · rw [setCode_other _ _ _ _ _ hfc, setCode_other _ _ _ _ _ hqc]
          rcases hinv f hf q hq with h | h
          · exact absurd h hfq
          · exact h
  apply registerCF_disjoint _ _ _ hold
  intro q hq
  by_cases hqc : q = cf
  · exact Or.inl hqc
  · right
    rcases hnew q hq with h | h
    · exact absurd h hqc
    · unfold rangesDisjoint
      rw [setCode_other _ _ _ _ _ hqc, (setCode_self _ _ _ _).1, (setCode_self _ _ _ _).2]
      exact h

/-- C3 (amended): the registry checks no range. The empty registry satisfies the
invariant "two registered functions are the same record or have disjoint ranges
`[code_start, code_start + code_size]`"; `registerCF` keeps it when the appended record
is already registered or disjoint from every registered one; a successful emission of the
active function at `[Addr, Addr + Size]` keeps it when that range is disjoint from the
range of every other registered function. -/
theorem registry_disjoint_preserved :
    (∀ heap : CFHeap, RegistryDisjoint heap CFRegistry.empty) ∧
    (∀ (heap : CFHeap) (r : CFRegistry) (cf : CFPtr),
      RegistryDisjoint heap r →
      (∀ q ∈ r.cfs, q = cf ∨ rangesDisjoint (heap cf) (heap q)) →
      RegistryDisjoint heap (r.registerCF cf)) ∧
    (∀ (g g2 : Globals) (Addr Size : Nat) (cf : CFPtr),
      g.cur_cf = some cf →
      notifyFunctionSymbol g Addr Size = some g2 →
      RegistryDisjoint g.heap g.cf_registry →
      (∀ q ∈ g.cf_registry.cfs, q = cf ∨
        Addr + Size < (g.heap q).code_start ∨
        (g.heap q).code_start + (g.heap q).code_size < Addr) →
      RegistryDisjoint g2.heap g2.cf_registry) := by
  refine ⟨?_, registerCF_disjoint, notifyFunctionSymbol_disjoint⟩
  intro heap f hf
  simp [CFRegistry.empty] at hf

/-- Instance of C3 (amended): with function 1 registered at 4096 with 16 bytes, emitting
function 2 at 4113, one byte beyond the end of function 1, succeeds and leaves a
registry whose ranges are disjoint. -/
theorem registry_disjoint_preserved_witness :
    notifyFunctionSymbol emittedOne 4113 16 = some emittedTwo ∧
      RegistryDisjoint emittedTwo.heap emittedTwo.cf_registry := by
  refine ⟨rfl, ?_⟩
  refine registry_disjoint_preserved.2.2 emittedOne emittedTwo 4113 16 2 rfl rfl ?_ ?_
  · intro f hf g hg
    simp only [emittedOne, List.mem_singleton] at hf hg
    left; rw [hf, hg]
  · intro q hq
    simp only [emittedOne, List.mem_singleton] at hq
    subst hq
    right; right
    decide

/-! ## Theorems: parseEhFrame -/

theorem read32_lt (mem : Memory) (a : Nat) : read32 mem a < 2 ^ 32 := by
  unfold read32
  omega

theorem toInt32_of_lt (w : Nat) (h : w < 2 ^ 31) : toInt32 w = (w : Int) := by
  unfold toInt32 U32
  have h2 : w % 2 ^ 32 = w := Nat.mod_eq_of_lt (by omega)
  rw [h2, if_pos h]

theorem toInt32_bounds (w : Nat) : -(2 ^ 31) ≤ toInt32 w ∧ toInt32 w < 2 ^ 31 := by
  unfold toInt32 U32
  split <;> omega

theorem toInt32_nonneg_iff (w : Nat) (hw : w < 2 ^ 32) : 0 ≤ toInt32 w ↔ w < 2 ^ 31 := by
  unfold toInt32 U32
  have h2 : w % 2 ^ 32 = w := Nat.mod_eq_of_lt hw
  rw [h2]
  split <;> omega

theorem wrapInt32_of_bounds (x : Int) (h1 : -(2 ^ 31) ≤ x) (h2 : x < 2 ^ 31) :
    wrapInt32 x = x := by
  unfold wrapInt32
  omega

theorem wrapInt32_bounds (x : Int) : -(2 ^ 31) ≤ wrapInt32 x ∧ wrapInt32 x < 2 ^ 31 := by
  unfold wrapInt32
  omega

theorem wrapInt32_add_wrap (x y : Int) : wrapInt32 (wrapInt32 x + y) = wrapInt32 (x + y) := by
  unfold wrapInt32
  omega

theorem toU64_of_nonneg (x : Int) (h1 : 0 ≤ x) (h2 : x < 2 ^ 64) : (toU64 x : Int) = x := by
  unfold toU64 U64
  omega

theorem toU64_of_neg (x : Int) (h1 : x < 0) (h2 : -(2 ^ 64) ≤ x) :
    (toU64 x : Int) = x + 2 ^ 64 := by
  unfold toU64 U64
  omega

theorem toU64_lt (x : Int) : toU64 x < 2 ^ 64 := by
  unfold toU64 U64
  omega

theorem sizeAssertion_iff (mem : Memory) (start_addr size : Nat) :
    sizeAssertion mem start_addr size = true ↔
      toU64 (wrapInt32 (cieLength mem start_addr + fdeLength mem start_addr + 8)) = size := by
  unfold sizeAssertion
  rw [wrapInt32_add_wrap]
  simp

theorem parseEhFrame_eq_some_iff (mem : Memory) (start_addr size : Nat) (t : EhFrameTable) :
    parseEhFrame mem start_addr size = some t ↔
      read32 mem (cieIdAddr start_addr) = 0 ∧ sizeAssertion mem start_addr size = true ∧
      t = ⟨[⟨0, wrapInt32 (4 + cieLength mem start_addr)⟩], 1⟩ := by
  unfold parseEhFrame
  by_cases h1 : read32 mem (cieIdAddr start_addr) = 0
  · by_cases h2 : sizeAssertion mem start_addr size = true
    · simp [h1, h2, eq_comm]
    · simp [h1, h2]
  · simp [h1]

theorem parseEhFrame_isSome_iff (mem : Memory) (start_addr size : Nat) :
    (parseEhFrame mem start_addr size).isSome = true ↔
      read32 mem (cieIdAddr start_addr) = 0 ∧ sizeAssertion mem start_addr size = true := by
  rw [Option.isSome_iff_exists]
  constructor
  · rintro ⟨t, ht⟩
    have := (parseEhFrame_eq_some_iff mem start_addr size t).mp ht
    exact ⟨this.1, this.2.1⟩
  · rintro ⟨h1, h2⟩
    exact ⟨_, (parseEhFrame_eq_some_iff mem start_addr size _).mpr ⟨h1, h2, rfl⟩⟩

/-- C4: every section `parseEhFrame` accepts yields a table of exactly one entry
(`out_len == 1`) with `start_ip_offset == 0` and `fde_offset == 4 + cie_length`, where
`cie_length` is the 32-bit word at byte 0 held in the `int` of the code; when that word is
below `2^31 - 4` the offset is the plain sum `4 + word`. -/
theorem parseEhFrame_table (mem : Memory) (start_addr size : Nat) (t : EhFrameTable)
    (h : parseEhFrame mem start_addr size = some t) :
    t.out_len = 1 ∧ t.table_data.length = 1 ∧
    ∃ e, t.table_data = [e] ∧ e.start_ip_offset = 0 ∧
      e.fde_offset = wrapInt32 (4 + toInt32 (read32 mem start_addr)) ∧
      (read32 mem start_addr < 2 ^ 31 - 4 →
        e.fde_offset = 4 + (read32 mem start_addr : Int)) := by
  obtain ⟨-, -, rfl⟩ := (parseEhFrame_eq_some_iff mem start_addr size t).mp h
  refine ⟨rfl, rfl, _, rfl, rfl, rfl, ?_⟩
  intro hw
  show wrapInt32 (4 + cieLength mem start_addr) = _
  unfold cieLength
  rw [toInt32_of_lt _ (by omega), wrapInt32_of_bounds _ (by omega) (by omega)]

/-- Instance of C4: the 40-byte section with a CIE of length 16 and an FDE of length 16 is
accepted, with one table entry and `fde_offset` 20. -/
theorem parseEhFrame_table_witness :
    parseEhFrame ehFrameOk 4096 40 = some ⟨[⟨0, 20⟩], 1⟩ ∧
    (⟨[⟨0, 20⟩], 1⟩ : EhFrameTable).out_len = 1 :=
  ⟨by decide, (parseEhFrame_table ehFrameOk 4096 40 ⟨[⟨0, 20⟩], 1⟩ (by decide)).1⟩

/-- C5: `parseEhFrame` succeeds if and only if the CIE id word at byte 4 is zero and
`cie_length + fde_length + 8 == section_size`, with `cie_length` the word at byte 0 and
`fde_length` the word at byte offset `4 + cie_length`, both held in `int` and the sum
converted to `uint64_t` as the code does; otherwise it fails. For length words whose sum
with 8 stays below `2^31` the condition is the plain equation on the two words. -/
theorem parseEhFrame_succeeds_iff (mem : Memory) (start_addr size : Nat) :
    ((parseEhFrame mem start_addr size).isSome = true ↔
      read32 mem ((start_addr + 4) % 2 ^ 64) = 0 ∧
      toU64 (wrapInt32 (cieLength mem start_addr + fdeLength mem start_addr + 8)) = size) ∧
    (parseEhFrame mem start_addr size = none ↔
      ¬ (read32 mem ((start_addr + 4) % 2 ^ 64) = 0 ∧
        toU64 (wrapInt32 (cieLength mem start_addr + fdeLength mem start_addr + 8)) = size)) ∧
    (∀ w0 w1 : Nat, read32 mem start_addr = w0 → read32 mem (start_addr + 4 + w0) = w1 →
      start_addr + 4 + w0 < 2 ^ 64 → w0 + w1 + 8 < 2 ^ 31 →
      ((parseEhFrame mem start_addr size).isSome = true ↔
        read32 mem (start_addr + 4) = 0 ∧ w0 + w1 + 8 = size)) := by
  have hmain : (parseEhFrame mem start_addr size).isSome = true ↔
      read32 mem ((start_addr + 4) % 2 ^ 64) = 0 ∧
      toU64 (wrapInt32 (cieLength mem start_addr + fdeLength mem start_addr + 8)) = size := by
    rw [parseEhFrame_isSome_iff, sizeAssertion_iff]
    rfl
  refine ⟨hmain, ?_, ?_⟩
  · rw [← hmain]
    cases parseEhFrame mem start_addr size <;> simp
  · intro w0 w1 hw0 hw1 hfit hsum
    rw [hmain]
    have hc : cieLength mem start_addr = (w0 : Int) := by
      unfold cieLength
      rw [hw0, toInt32_of_lt _ (by omega)]
    have haddr4 : (start_addr + 4) % 2 ^ 64 = start_addr + 4 := Nat.mod_eq_of_lt (by omega)
    have haddr : fdeLengthAddr mem start_addr = start_addr + 4 + w0 := by
      unfold fdeLengthAddr cieIdAddr U64
      rw [hc, haddr4]
      have := toU64_of_nonneg (((start_addr + 4 : Nat) : Int) + (w0 : Int)) (by omega) (by omega)
      omega
    have hf : fdeLength mem start_addr = (w1 : Int) := by
      unfold fdeLength
      rw [haddr, hw1, toInt32_of_lt _ (by omega)]
    rw [hc, hf, haddr4, wrapInt32_of_bounds _ (by omega) (by omega)]
    have := toU64_of_nonneg ((w0 : Int) + (w1 : Int) + 8) (by omega) (by omega)
    constructor
    · rintro ⟨h1, h2⟩
      exact ⟨h1, by omega⟩
    · rintro ⟨h1, h2⟩
      exact ⟨h1, by omega⟩

/-- Instance of C5: for the 40-byte section (CIE length 16, FDE length 16, id 0) the plain
equation 16 + 16 + 8 = 40 holds and the section is accepted. -/
theorem parseEhFrame_succeeds_iff_witness :
    (parseEhFrame ehFrameOk 4096 40).isSome = true :=
  ((parseEhFrame_succeeds_iff ehFrameOk 4096 40).2.2 16 16 (by decide) (by decide)
    (by decide) (by decide)).mpr ⟨by decide, by decide⟩

theorem sizeAssertion_two_fdes (mem : Memory) (start_addr size cie fde1 fde2 more : Nat)
    (hfit : start_addr + size ≤ 2 ^ 64)
    (hcie : read32 mem start_addr = cie)
    (hfde1 : read32 mem (start_addr + 4 + cie) = fde1)
    (hfde2 : fde2 < 2 ^ 32)
    (hmore : more < 2 ^ 63)
    (hsize : size = (4 + cie) + (4 + fde1) + (4 + fde2) + more) :
    sizeAssertion mem start_addr size = false := by
  cases hres : sizeAssertion mem start_addr size with
  | false => rfl
  | true =>
    exfalso
    rw [sizeAssertion_iff] at hres
    have hcie_lt : cie < 2 ^ 32 := hcie ▸ read32_lt mem start_addr
    have hfde1_lt : fde1 < 2 ^ 32 := hfde1 ▸ read32_lt mem _
    obtain ⟨hS1, hS2⟩ :=
      wrapInt32_bounds (cieLength mem start_addr + fdeLength mem start_addr + 8)
    by_cases hSneg :
        wrapInt32 (cieLength mem start_addr + fdeLength mem start_addr + 8) < 0
    · have := toU64_of_neg _ hSneg (by omega)
      omega
    · have hSval := toU64_of_nonneg _ (not_lt.mp hSneg) (by omega)
      have hsmall : size < 2 ^ 31 := by omega
      have hc : cieLength mem start_addr = (cie : Int) := by
        unfold cieLength
        rw [hcie, toInt32_of_lt _ (by omega)]
      have haddr : fdeLengthAddr mem start_addr = start_addr + 4 + cie := by
        unfold fdeLengthAddr cieIdAddr U64
        rw [hc, Nat.mod_eq_of_lt (by omega)]
        have := toU64_of_nonneg (((start_addr + 4 : Nat) : Int) + (cie : Int))
          (by omega) (by omega)
        omega
      have hf : fdeLength mem start_addr = (fde1 : Int) := by
        unfold fdeLength
        rw [haddr, hfde1, toInt32_of_lt _ (by omega)]
      rw [hc, hf, wrapInt32_of_bounds _ (by omega) (by omega)] at hres
      have := toU64_of_nonneg ((cie : Int) + (fde1 : Int) + 8) (by omega) (by omega)
      omega

/-- C6: a section laid out as one CIE followed by two FDEs (lengths `cie`, `fde1`,
`fde2`, and `more` bytes of further FDEs behind them, none for exactly two) is rejected:
the size assertion is false and `parseEhFrame` fails. -/
theorem parseEhFrame_two_fdes_rejected (mem : Memory)
    (start_addr size cie fde1 fde2 more : Nat)
    (hfit : start_addr + size ≤ 2 ^ 64)
    (hcie : read32 mem start_addr = cie)
    (hfde1 : read32 mem (start_addr + 4 + cie) = fde1)
    (hfde2 : read32 mem (start_addr + 4 + cie + 4 + fde1) = fde2)
    (hmore : more < 2 ^ 63)
    (hsize : size = (4 + cie) + (4 + fde1) + (4 + fde2) + more) :
    sizeAssertion mem start_addr size = false ∧ parseEhFrame mem start_addr size = none := by
  have hfde2_lt : fde2 < 2 ^ 32 := hfde2 ▸ read32_lt mem _
  have hsa := sizeAssertion_two_fdes mem start_addr size cie fde1 fde2 more hfit hcie hfde1
    hfde2_lt hmore hsize
  refine ⟨hsa, ?_⟩
  cases hp : parseEhFrame mem start_addr size with
  | none => rfl
  | some t =>
    have := ((parseEhFrame_eq_some_iff mem start_addr size t).mp hp).2.1
    rw [hsa] at this
    cases this

/-- Instance of C6: the 52-byte section with a CIE of length 16 and FDEs of lengths 16 and
8 is rejected. -/
theorem parseEhFrame_two_fdes_rejected_witness :
    parseEhFrame ehFrameTwoFdes 4096 52 = none :=
  (parseEhFrame_two_fdes_rejected ehFrameTwoFdes 4096 52 16 16 8 0 (by decide) (by decide)
    (by decide) (by decide) (by decide) (by decide)).2

/-- C7 fails as stated: the 262-byte section whose first length word is `0xFFFFFFFF` and
whose other bytes are zero is accepted; its `cie_length` is -1 and the FDE length word is
read at byte offset 3, inside the CIE header. -/
theorem parseEhFrame_accepts_top_bit_length :
    read32 ehFrameTopBit 4096 = 0xFFFFFFFF ∧
    parseEhFrame ehFrameTopBit 4096 262 = some ⟨[⟨0, 3⟩], 1⟩ ∧
    cieLength ehFrameTopBit 4096 = -1 ∧
    fdeLengthAddr ehFrameTopBit 4096 = 4096 + 3 := by
  decide

/-- C7 (amended): `parseEhFrame` checks the CIE id word and the size equation only. An
accepted section has a zero CIE id word, and when its lengths (the `int` values of the
code) satisfy `4 <= cie_length`, `0 <= fde_length` and `cie_length + fde_length + 8 < 2^31`
it has the shape of one CIE followed by one FDE: the FDE length word lies inside the
section at offset `4 + cie_length >= 8`, and `(4 + cie_length) + (4 + fde_length)` is the
section size. -/
theorem parseEhFrame_shape (mem : Memory) (start_addr size : Nat) (t : EhFrameTable)
    (h : parseEhFrame mem start_addr size = some t)
    (hcie : 4 ≤ cieLength mem start_addr)
    (hfde : 0 ≤ fdeLength mem start_addr)
    (hsum : cieLength mem start_addr + fdeLength mem start_addr + 8 < 2 ^ 31) :
    read32 mem ((start_addr + 4) % 2 ^ 64) = 0 ∧
    8 ≤ 4 + cieLength mem start_addr ∧
    4 + cieLength mem start_addr + 4 ≤ (size : Int) ∧
    (4 + cieLength mem start_addr) + (4 + fdeLength mem start_addr) = (size : Int) := by
  obtain ⟨hid, hsa, -⟩ := (parseEhFrame_eq_some_iff mem start_addr size t).mp h
  rw [sizeAssertion_iff, wrapInt32_of_bounds _ (by omega) hsum] at hsa
  have := toU64_of_nonneg (cieLength mem start_addr + fdeLength mem start_addr + 8)
    (by omega) (by omega)
  refine ⟨hid, by omega, by omega, by omega⟩

/-- Instance of C7 (amended): the accepted 40-byte section has `cie_length = 16` and
`fde_length = 16`, and (4 + 16) + (4 + 16) = 40. -/
theorem parseEhFrame_shape_witness :
    (4 + cieLength ehFrameOk 4096) + (4 + fdeLength ehFrameOk 4096) = ((40 : Nat) : Int) :=
  (parseEhFrame_shape ehFrameOk 4096 40 ⟨[⟨0, 20⟩], 1⟩ (by decide) (by decide) (by decide)
    (by decide)).2.2.2

/-! ## Theorems: location decoding -/

theorem getReg_eq (it : PythonFrameIterator) (regnum : Nat) :
    it.getReg (regnum : Int) = if regnum < 16 then it.cursor.regs regnum else none := by
  unfold PythonFrameIterator.getReg Cursor.unw_get_reg
  by_cases h : regnum < 16
  · have h2 : (0 : Int) ≤ (regnum : Int) ∧ (regnum : Int) < 16 := by omega
    rw [if_pos h, if_pos h2, Int.toNat_ofNat]
  · have h2 : ¬ ((0 : Int) ≤ (regnum : Int) ∧ (regnum : Int) < 16) := by omega
    rw [if_neg h, if_neg h2]

/-- C8: `readLocation` on each descriptor. Register: the content of register `regnum`.
Direct: register content plus the signed offset modulo `2^64`, whatever the memory holds.
Indirect: the 64-bit word stored at that address. Constant: the offset field, as a
`uint64_t`. ConstIndex: `constants[offset]` of the frame's location map. It fails for
any other tag, for Register/Direct/Indirect with `regnum` not below 16 (or a register the
unwinder cannot read), and for ConstIndex with an index outside `0 <= idx < size`. -/
theorem readLocation_cases (heap : CFHeap) (mem : Memory) (it : PythonFrameIterator)
    (flags regnum : Nat) (offset : Int) :
    it.readLocation heap mem ⟨LocationType.Register, flags, regnum, offset⟩ =
      (if regnum < 16 then it.cursor.regs regnum else none) ∧
    it.readLocation heap mem ⟨LocationType.Direct, flags, regnum, offset⟩ =
      (if regnum < 16 then
        (it.cursor.regs regnum).map (fun reg => (((reg : Int) + offset) % 2 ^ 64).toNat)
       else none) ∧
    (∀ mem2 : Memory,
      it.readLocation heap mem2 ⟨LocationType.Direct, flags, regnum, offset⟩ =
      it.readLocation heap mem ⟨LocationType.Direct, flags, regnum, offset⟩) ∧
    it.readLocation heap mem ⟨LocationType.Indirect, flags, regnum, offset⟩ =
      (if regnum < 16 then
        (it.cursor.regs regnum).map
          (fun reg => read64 mem (((reg : Int) + offset) % 2 ^ 64).toNat)
       else none) ∧
    it.readLocation heap mem ⟨LocationType.Constant, flags, regnum, offset⟩ =
      some ((offset % 2 ^ 64).toNat) ∧
    (0 ≤ offset → offset < 2 ^ 64 →
      it.readLocation heap mem ⟨LocationType.Constant, flags, regnum, offset⟩ =
        some offset.toNat) ∧
    (∀ (cf : CFPtr) (lm : LocationMap), it.cf = some cf → (heap cf).location_map = some lm →
      it.readLocation heap mem ⟨LocationType.ConstIndex, flags, regnum, offset⟩ =
        (if 0 ≤ offset ∧ offset < (lm.constants.length : Int)
         then lm.constants[offset.toNat]? else none)) ∧
    (∀ tag : Nat,
      it.readLocation heap mem ⟨LocationType.Other tag, flags, regnum, offset⟩ = none) := by
  refine ⟨?_, ?_, ?_, ?_, ?_, ?_, ?_, ?_⟩
  · simp only [PythonFrameIterator.readLocation, getReg_eq]
  · simp only [PythonFrameIterator.readLocation, getReg_eq]
    by_cases h : regnum < 16
    · simp only [if_pos h]
      cases it.cursor.regs regnum <;> rfl
    · simp only [if_neg h]
  · intro mem2
    simp only [PythonFrameIterator.readLocation]
  · simp only [PythonFrameIterator.readLocation, getReg_eq]
    by_cases h : regnum < 16
    · simp only [if_pos h]
      cases it.cursor.regs regnum <;> rfl
    · simp only [if_neg h]
  · rfl
  · intro h0 h1
    simp only [PythonFrameIterator.readLocation, toU64, U64]
    congr 1
    have : offset % ((2 ^ 64 : Nat) : Int) = offset := Int.emod_eq_of_lt h0 (by simpa using h1)
    rw [this]
  · intro cf lm hcf hlm
    simp only [PythonFrameIterator.readLocation, hcf, hlm]
    by_cases h0 : 0 ≤ offset
    · by_cases h1 : offset.toNat < lm.constants.length
      · have h2 : offset < (lm.constants.length : Int) := by omega
        simp [h0, h1, h2]
      · have h2 : ¬ offset < (lm.constants.length : Int) := by omega
        simp [h0, h1, h2]
    · simp [h0]
  · intro tag
    rfl

/-- Instance of C8: in the sample frame register 3 holds 103, so a Direct descriptor on
register 3 with offset -8 yields 95, and a ConstIndex descriptor with index 1 yields the
second constant of the pool. -/
theorem readLocation_cases_witness :
    sampleFrame.readLocation overlapHeap zeroMemory ⟨LocationType.Direct, 0, 3, -8⟩ = some 95 ∧
    sampleFrame.readLocation overlapHeap zeroMemory ⟨LocationType.ConstIndex, 0, 0, 1⟩ =
      some 9 :=
  ⟨(readLocation_cases overlapHeap zeroMemory sampleFrame 0 3 (-8)).2.1.trans (by decide),
   ((readLocation_cases overlapHeap zeroMemory sampleFrame 0 0 1).2.2.2.2.2.2.1 1 overlapMap
      rfl rfl).trans (by decide)⟩

theorem entryMatches_iff (e : LocationEntry) (off : Nat) :
    entryMatches e off = true ↔ e.offset < off ∧ off ≤ e.offset + e.length := by
  simp [entryMatches]

theorem entryMatches_false_iff (e : LocationEntry) (off : Nat) :
    entryMatches e off = false ↔ ¬ (e.offset < off ∧ off ≤ e.offset + e.length) := by
  rw [← entryMatches_iff]
  simp

theorem currentStatementLoop_none (heap : CFHeap) (mem : Memory) (it : PythonFrameIterator)
    (off : Nat) (entries : List LocationEntry)
    (h : ∀ x ∈ entries, entryMatches x off = false) :
    currentStatementLoop heap mem it off entries = none := by
  induction entries with
  | nil => rfl
  | cons e rest ih =>
    unfold currentStatementLoop
    rw [h e (by simp)]
    simpa using ih (fun x hx => h x (by simp [hx]))

theorem currentStatementLoop_first (heap : CFHeap) (mem : Memory) (it : PythonFrameIterator)
    (off : Nat) (pre : List LocationEntry) (e : LocationEntry) (post : List LocationEntry)
    (hpre : ∀ x ∈ pre, entryMatches x off = false) (he : entryMatches e off = true) :
    currentStatementLoop heap mem it off (pre ++ e :: post) =
      match e.locations with
      | [loc] => it.readLocation heap mem loc
      | _ => none := by
  induction pre with
  | nil =>
    simp only [List.nil_append]
    unfold currentStatementLoop
    rw [he]
    simp
  | cons p rest ih =>
    simp only [List.cons_append]
    unfold currentStatementLoop
    rw [hpre p (by simp)]
    simpa using ih (fun x hx => hpre x (by simp [hx]))

theorem getCurrentStatement_compiled_eq (rt : Runtime) (heap : CFHeap) (mem : Memory)
    (it : PythonFrameIterator) (cf : CFPtr) (lm : LocationMap)
    (hty : it.id.type = FrameType.COMPILED) (hcf : it.cf = some cf)
    (hlm : (heap cf).location_map = some lm) (hip : (heap cf).code_start < it.id.ip) :
    it.getCurrentStatement rt heap mem =
      currentStatementLoop heap mem it ((it.id.ip - (heap cf).code_start) % 2 ^ 32)
        (lookupTable lm.names "!current_stmt").locations := by
  unfold PythonFrameIterator.getCurrentStatement PythonFrameIterator.getCF
  simp only [hty, hcf, hlm]
  have hgt : it.id.ip > (heap cf).code_start := hip
  simp only [hgt, not_true_eq_false, if_false, pcOffset, U32]
  by_cases hlen : (lookupTable lm.names "!current_stmt").locations.length = 0
  · rw [if_pos hlen]
    have hnil := List.length_eq_zero.mp hlen
    rw [hnil]
    rfl
  · rw [if_neg hlen]

/-- C9: for a Compiled frame at return address `ip` in function `cf`,
`getCurrentStatement` fails if `ip <= cf.code_start`; otherwise, with `off` the value of
`unsigned offset = ip - cf->code_start`, it fails if no entry of the `!current_stmt` table
matches by `e.offset < off <= e.offset + e.length`, and it returns `readLocation` of the
single location of the matching entry (the first one in table order). -/
theorem getCurrentStatement_compiled (rt : Runtime) (heap : CFHeap) (mem : Memory)
    (it : PythonFrameIterator) (cf : CFPtr) (off : Nat)
    (hty : it.id.type = FrameType.COMPILED) (hcf : it.cf = some cf)
    (hoff : off = (it.id.ip - (heap cf).code_start) % 2 ^ 32) :
    (it.id.ip ≤ (heap cf).code_start → it.getCurrentStatement rt heap mem = none) ∧
    (∀ lm : LocationMap, (heap cf).location_map = some lm →
      (heap cf).code_start < it.id.ip →
      (∀ e ∈ (lookupTable lm.names "!current_stmt").locations,
        ¬ (e.offset < off ∧ off ≤ e.offset + e.length)) →
      it.getCurrentStatement rt heap mem = none) ∧
    (∀ (lm : LocationMap) (pre post : List LocationEntry) (e : LocationEntry) (loc : Location),
      (heap cf).location_map = some lm →
      (heap cf).code_start < it.id.ip →
      (lookupTable lm.names "!current_stmt").locations = pre ++ e :: post →
      (∀ x ∈ pre, ¬ (x.offset < off ∧ off ≤ x.offset + x.length)) →
      e.offset < off → off ≤ e.offset + e.length →
      e.locations = [loc] →
      it.getCurrentStatement rt heap mem = it.readLocation heap mem loc) := by
  refine ⟨?_, ?_, ?_⟩
  · intro hle
    unfold PythonFrameIterator.getCurrentStatement PythonFrameIterator.getCF
    simp only [hty, hcf]
    have : ¬ it.id.ip > (heap cf).code_start := by omega
    simp [this]
  · intro lm hlm hip hno
    rw [getCurrentStatement_compiled_eq rt heap mem it cf lm hty hcf hlm hip, ← hoff]
    apply currentStatementLoop_none
    intro x hx
    exact (entryMatches_false_iff x off).mpr (hno x hx)
  · intro lm pre post e loc hlm hip hsplit hpre h1 h2 hloc
    rw [getCurrentStatement_compiled_eq rt heap mem it cf lm hty hcf hlm hip, ← hoff, hsplit,
      currentStatementLoop_first heap mem it off pre e post
        (fun x hx => (entryMatches_false_iff x off).mpr (hpre x hx))
        ((entryMatches_iff e off).mpr ⟨h1, h2⟩), hloc]

/-- Instance of C9: at return address 4096 + 8 the second `!current_stmt` entry, with range
`(4, 16]`, is the matching one, and the statement is read from its register location. -/
theorem getCurrentStatement_compiled_witness :
    sampleFrame.getCurrentStatement sampleRuntime stmtHeap zeroMemory =
      sampleFrame.readLocation stmtHeap zeroMemory ⟨LocationType.Register, 0, 3, 0⟩ :=
  (getCurrentStatement_compiled sampleRuntime stmtHeap zeroMemory sampleFrame 1 8
    rfl rfl (by decide)).2.2 stmtMap
    [⟨0, 4, 0, [⟨LocationType.Constant, 0, 0, 10⟩]⟩] []
    ⟨4, 12, 0, [⟨LocationType.Register, 0, 3, 0⟩]⟩ ⟨LocationType.Register, 0, 3, 0⟩
    rfl (by decide) (by decide) (by decide) (by decide) (by decide) rfl

theorem localsEntryLoop_nomatch (rt : Runtime) (heap : CFHeap) (mem : Memory)
    (it : PythonFrameIterator) (name : String) (off : Nat) (d : BoxedDict)
    (entries : List LocationEntry) (h : ∀ x ∈ entries, entryMatches x off = false) :
    localsEntryLoop rt heap mem it name off d entries = some d := by
  induction entries with
  | nil => rfl
  | cons e rest ih =>
    unfold localsEntryLoop
    rw [h e (by simp)]
    simpa using ih (fun x hx => h x (by simp [hx]))

theorem localsEntryLoop_cons_some (rt : Runtime) (heap : CFHeap) (mem : Memory)
    (it : PythonFrameIterator) (name : String) (off : Nat) (d d2 : BoxedDict)
    (e : LocationEntry) (rest : List LocationEntry)
    (h : localsEntryLoop rt heap mem it name off d (e :: rest) = some d2) :
    (entryMatches e off = false ∧ localsEntryLoop rt heap mem it name off d rest = some d2) ∨
    (entryMatches e off = true ∧ ∃ vals, readLocations heap mem it e.locations = some vals ∧
      localsEntryLoop rt heap mem it name off
        (d.set name (rt.deserializeFromFrame e.type vals)) rest = some d2) := by
  unfold localsEntryLoop at h
  cases hm : entryMatches e off with
  | false =>
    rw [hm] at h
    exact Or.inl ⟨rfl, by simpa using h⟩
  | true =>
    rw [hm] at h
    simp only [if_true] at h
    cases hr : readLocations heap mem it e.locations with
    | none => rw [hr] at h; cases h
    | some vals =>
      rw [hr] at h
      simp only at h
      by_cases hv : rt.isValidGCObject (rt.deserializeFromFrame e.type vals) = false
      · rw [if_pos hv] at h; cases h
      · rw [if_neg hv] at h
        exact Or.inr ⟨rfl, vals, rfl, h⟩

theorem localsEntryLoop_other (rt : Runtime) (heap : CFHeap) (mem : Memory)
    (it : PythonFrameIterator) (name : String) (off : Nat) (k : String) (hk : k ≠ name)
    (entries : List LocationEntry) (d d2 : BoxedDict)
    (h : localsEntryLoop rt heap mem it name off d entries = some d2) :
    d2 k = d k := by
  induction entries generalizing d with
  | nil =>
    unfold localsEntryLoop at h
    cases h
    rfl
  | cons e rest ih =>
    rcases localsEntryLoop_cons_some rt heap mem it name off d d2 e rest h with
      ⟨-, h2⟩ | ⟨-, vals, -, h2⟩
    · exact ih d h2
    · rw [ih _ h2]
      simp [BoxedDict.set, hk]

theorem localsEntryLoop_last (rt : Runtime) (heap : CFHeap) (mem : Memory)
    (it : PythonFrameIterator) (name : String) (off : Nat)
    (pre : List LocationEntry) (e : LocationEntry) (post : List LocationEntry)
    (d d2 : BoxedDict)
    (h : localsEntryLoop rt heap mem it name off d (pre ++ e :: post) = some d2)
    (he : entryMatches e off = true) (hpost : ∀ x ∈ post, entryMatches x off = false) :
    ∃ vals, readLocations heap mem it e.locations = some vals ∧
      d2 name = some (rt.deserializeFromFrame e.type vals) := by
  induction pre generalizing d with
  | nil =>
    simp only [List.nil_append] at h
    rcases localsEntryLoop_cons_some rt heap mem it name off d d2 e post h with
      ⟨hm, -⟩ | ⟨-, vals, hr, h2⟩
    · rw [he] at hm; cases hm
    · rw [localsEntryLoop_nomatch rt heap mem it name off _ post hpost] at h2
      cases h2
      exact ⟨vals, hr, by simp [BoxedDict.set]⟩
  | cons p rest ih =>
    simp only [List.cons_append] at h
    rcases localsEntryLoop_cons_some rt heap mem it name off d d2 p _ h with
      ⟨-, h2⟩ | ⟨-, vals, -, h2⟩
    · exact ih d h2
    · exact ih _ h2

theorem localsNameLoop_cons_some (rt : Runtime) (heap : CFHeap) (mem : Memory)
    (it : PythonFrameIterator) (ouv : Bool) (off : Nat) (d d2 : BoxedDict)
    (p : String × LocationTable) (rest : List (String × LocationTable))
    (h : localsNameLoop rt heap mem it ouv off d (p :: rest) = some d2) :
    ((ouv && isSyntheticName p.1) = true ∧
      localsNameLoop rt heap mem it ouv off d rest = some d2) ∨
    ((ouv && isSyntheticName p.1) = false ∧
      ∃ d1, localsEntryLoop rt heap mem it p.1 off d p.2.locations = some d1 ∧
        localsNameLoop rt heap mem it ouv off d1 rest = some d2) := by
  unfold localsNameLoop at h
  cases hs : (ouv && isSyntheticName p.1) with
  | true =>
    rw [hs] at h
    exact Or.inl ⟨rfl, by simpa using h⟩
  | false =>
    rw [hs] at h
    simp only [Bool.false_eq_true, if_false] at h
    cases hr : localsEntryLoop rt heap mem it p.1 off d p.2.locations with
    | none => rw [hr] at h; cases h
    | some d1 =>
      rw [hr] at h
      exact Or.inr ⟨rfl, d1, rfl, h⟩

theorem localsNameLoop_other (rt : Runtime) (heap : CFHeap) (mem : Memory)
    (it : PythonFrameIterator) (ouv : Bool) (off : Nat) (k : String)
    (names : List (String × LocationTable)) (hk : ∀ p ∈ names, p.1 ≠ k)
    (d d2 : BoxedDict)
    (h : localsNameLoop rt heap mem it ouv off d names = some d2) :
    d2 k = d k := by
  induction names generalizing d with
  | nil =>
    unfold localsNameLoop at h
    cases h
    rfl
  | cons p rest ih =>
    have hrest : ∀ q ∈ rest, q.1 ≠ k := fun q hq => hk q (by simp [hq])
    rcases localsNameLoop_cons_some rt heap mem it ouv off d d2 p rest h with
      ⟨-, h2⟩ | ⟨-, d1, h1, h2⟩
    · exact ih hrest d h2
    · rw [ih hrest d1 h2]
      exact localsEntryLoop_other rt heap mem it p.1 off k (fun hkp => hk p (by simp) hkp.symm)
        _ d d1 h1

theorem localsNameLoop_last (rt : Runtime) (heap : CFHeap) (mem : Memory)
    (it : PythonFrameIterator) (ouv : Bool) (off : Nat)
    (name : String) (table : LocationTable)
    (pre : List LocationEntry) (e : LocationEntry) (post : List LocationEntry)
    (hvis : (ouv && isSyntheticName name) = false)
    (hsplit : table.locations = pre ++ e :: post)
    (he : entryMatches e off = true) (hpost : ∀ x ∈ post, entryMatches x off = false)
    (names : List (String × LocationTable)) (hnodup : (names.map Prod.fst).Nodup)
    (hmem : (name, table) ∈ names) (d d2 : BoxedDict)
    (h : localsNameLoop rt heap mem it ouv off d names = some d2) :
    ∃ vals, readLocations heap mem it e.locations = some vals ∧
      d2 name = some (rt.deserializeFromFrame e.type vals) := by
  induction names generalizing d with
  | nil => simp at hmem
  | cons p rest ih =>
    simp only [List.map_cons, List.nodup_cons] at hnodup
    rcases List.mem_cons.mp hmem with hp | hrest
    · subst hp
      rcases localsNameLoop_cons_some rt heap mem it ouv off d d2 _ rest h with
        ⟨hs, -⟩ | ⟨-, d1, h1, h2⟩
      · rw [hvis] at hs; cases hs
      · simp only at h1
        rw [hsplit] at h1
        obtain ⟨vals, hr, hd1⟩ :=
          localsEntryLoop_last rt heap mem it name off pre e post d d1 h1 he hpost
        refine ⟨vals, hr, ?_⟩
        rw [localsNameLoop_other rt heap mem it ouv off name rest ?_ d1 d2 h2, hd1]
        intro q hq hqn
        exact hnodup.1 (List.mem_map.mpr ⟨q, hq, hqn⟩)
    · rcases localsNameLoop_cons_some rt heap mem it ouv off d d2 p rest h with
        ⟨-, h2⟩ | ⟨-, d1, -, h2⟩
      · exact ih hnodup.2 hrest d h2
      · exact ih hnodup.2 hrest d1 h2

/-- C10 fails as stated: in the sample frame the PC offset is 8, two entries of the
`!current_stmt` table and two entries of `x` match it, and yet `getCurrentStatement`
returns a value (that of the first matching entry) and `getLocals` returns a mapping
(holding for `x` the value of the last matching entry). -/
theorem decode_two_matching_entries_returns :
    pcOffset sampleFrame.id.ip (overlapHeap 1).code_start = 8 ∧
    ((lookupTable overlapMap.names "!current_stmt").locations.filter
      (fun e => entryMatches e 8)).length = 2 ∧
    sampleFrame.getCurrentStatement sampleRuntime overlapHeap zeroMemory = some 1111 ∧
    ((lookupTable overlapMap.names "x").locations.filter
      (fun e => entryMatches e 8)).length = 2 ∧
    (getLocals sampleRuntime overlapHeap zeroMemory (some sampleFrame) true).map
      (fun d => d "x") = some (some 103) := by
  decide

/-- C10 (amended): the core does not assert that at most one entry matches. For a Compiled
frame at PC offset `off`, `getCurrentStatement` returns `readLocation` of the single
location of the first matching `!current_stmt` entry, whether or not later entries match
too; and when `getLocals` returns a mapping, the value it holds for a decoded name is the
one deserialized from the last matching entry of that name, whether or not earlier
entries match too. -/
theorem decode_with_several_matches (rt : Runtime) (heap : CFHeap) (mem : Memory)
    (it : PythonFrameIterator) (cf : CFPtr) (lm : LocationMap) (off : Nat)
    (hty : it.id.type = FrameType.COMPILED) (hcf : it.cf = some cf)
    (hlm : (heap cf).location_map = some lm)
    (hip : (heap cf).code_start < it.id.ip)
    (hoff : off = (it.id.ip - (heap cf).code_start) % 2 ^ 32) :
    (∀ (pre post : List LocationEntry) (e : LocationEntry) (loc : Location),
      (lookupTable lm.names "!current_stmt").locations = pre ++ e :: post →
      (∀ x ∈ pre, ¬ (x.offset < off ∧ off ≤ x.offset + x.length)) →
      e.offset < off → off ≤ e.offset + e.length →
      e.locations = [loc] →
      it.getCurrentStatement rt heap mem = it.readLocation heap mem loc) ∧
    (∀ (only_user_visible : Bool) (name : String) (table : LocationTable)
      (pre post : List LocationEntry) (e : LocationEntry) (d : BoxedDict),
      (lm.names.map Prod.fst).Nodup →
      (name, table) ∈ lm.names →
      (only_user_visible && isSyntheticName name) = false →
      table.locations = pre ++ e :: post →
      e.offset < off → off ≤ e.offset + e.length →
      (∀ x ∈ post, ¬ (x.offset < off ∧ off ≤ x.offset + x.length)) →
      getLocals rt heap mem (some it) only_user_visible = some d →
      ∃ vals, readLocations heap mem it e.locations = some vals ∧
        d name = some (rt.deserializeFromFrame e.type vals)) := by
  constructor
  · intro pre post e loc hsplit hpre h1 h2 hloc
    rw [getCurrentStatement_compiled_eq rt heap mem it cf lm hty hcf hlm hip, ← hoff, hsplit,
      currentStatementLoop_first heap mem it off pre e post
        (fun x hx => (entryMatches_false_iff x off).mpr (hpre x hx))
        ((entryMatches_iff e off).mpr ⟨h1, h2⟩), hloc]
  · intro ouv name table pre post e d hnodup hmem hvis hsplit h1 h2 hpost hget
    unfold getLocals PythonFrameIterator.getCF at hget
    simp only [hty, hcf, hlm] at hget
    have hgt : it.id.ip > (heap cf).code_start := hip
    simp only [hgt, not_true_eq_false, if_false, pcOffset, U32] at hget
    rw [← hoff] at hget
    exact localsNameLoop_last rt heap mem it ouv off name table pre e post hvis hsplit
      ((entryMatches_iff e off).mpr ⟨h1, h2⟩)
      (fun x hx => (entryMatches_false_iff x off).mpr (hpost x hx))
      lm.names hnodup hmem BoxedDict.empty d hget

/-- Instance of C10 (amended): in the sample frame both `!current_stmt` entries match the
PC offset 8, and the statement is read from the location of the first. -/
theorem decode_with_several_matches_witness :
    sampleFrame.getCurrentStatement sampleRuntime overlapHeap zeroMemory =
      sampleFrame.readLocation overlapHeap zeroMemory ⟨LocationType.Constant, 0, 0, 1111⟩ :=
  (decode_with_several_matches sampleRuntime overlapHeap zeroMemory sampleFrame 1 overlapMap 8
    rfl rfl rfl (by decide) (by decide)).1
    [] [⟨0, 100, 0, [⟨LocationType.Constant, 0, 0, 2222⟩]⟩]
    ⟨0, 100, 0, [⟨LocationType.Constant, 0, 0, 1111⟩]⟩ ⟨LocationType.Constant, 0, 0, 1111⟩
    (by decide) (by decide) (by decide) (by decide) rfl

/-! ## Theorems: getLocals -/

theorem isSyntheticName_iff (k : String) :
    isSyntheticName k = true ↔
      ∃ rest : List Char, k.toList = '#' :: rest ∨ k.toList = '!' :: rest := by
  unfold isSyntheticName
  cases hk : k.toList with
  | nil => simp
  | cons c rest =>
    simp only [Bool.or_eq_true, beq_iff_eq, List.cons.injEq]
    constructor
    · rintro (h | h)
      · exact ⟨rest, Or.inl ⟨h, rfl⟩⟩
      · exact ⟨rest, Or.inr ⟨h, rfl⟩⟩
    · rintro ⟨r, h | h⟩
      · exact Or.inl h.1
      · exact Or.inr h.1

theorem getLocals_compiled_some (rt : Runtime) (heap : CFHeap) (mem : Memory)
    (it : PythonFrameIterator) (ouv : Bool) (d : BoxedDict)
    (hty : it.id.type = FrameType.COMPILED)
    (h : getLocals rt heap mem (some it) ouv = some d) :
    ∃ cf lm, it.cf = some cf ∧ (heap cf).code_start < it.id.ip ∧
      (heap cf).location_map = some lm ∧
      localsNameLoop rt heap mem it ouv
        ((it.id.ip - (heap cf).code_start) % 2 ^ 32) BoxedDict.empty lm.names = some d := by
  unfold getLocals PythonFrameIterator.getCF at h
  simp only [hty] at h
  cases hcf : it.cf with
  | none => rw [hcf] at h; cases h
  | some cf =>
    rw [hcf] at h
    simp only at h
    by_cases hip : it.id.ip > (heap cf).code_start
    · simp only [hip, not_true_eq_false, if_false] at h
      cases hlm : (heap cf).location_map with
      | none => rw [hlm] at h; cases h
      | some lm =>
        rw [hlm] at h
        exact ⟨cf, lm, rfl, hip, hlm, by simpa [pcOffset, U32] using h⟩
    · simp [hip] at h

theorem getLocals_compiled_eq (rt : Runtime) (heap : CFHeap) (mem : Memory)
    (it : PythonFrameIterator) (ouv : Bool) (cf : CFPtr) (lm : LocationMap)
    (hty : it.id.type = FrameType.COMPILED) (hcf : it.cf = some cf)
    (hlm : (heap cf).location_map = some lm) (hip : (heap cf).code_start < it.id.ip) :
    getLocals rt heap mem (some it) ouv =
      localsNameLoop rt heap mem it ouv
        ((it.id.ip - (heap cf).code_start) % 2 ^ 32) BoxedDict.empty lm.names := by
  unfold getLocals PythonFrameIterator.getCF
  have hgt : it.id.ip > (heap cf).code_start := hip
  simp only [hty, hcf, hlm, hgt, not_true_eq_false, if_false, pcOffset, U32]

theorem localsNameLoop_true_synthetic (rt : Runtime) (heap : CFHeap) (mem : Memory)
    (it : PythonFrameIterator) (off : Nat) (k : String) (hk : isSyntheticName k = true)
    (names : List (String × LocationTable)) (d d2 : BoxedDict)
    (h : localsNameLoop rt heap mem it true off d names = some d2) :
    d2 k = d k := by
  induction names generalizing d with
  | nil =>
    unfold localsNameLoop at h
    cases h
    rfl
  | cons p rest ih =>
    rcases localsNameLoop_cons_some rt heap mem it true off d d2 p rest h with
      ⟨-, h2⟩ | ⟨hs, d1, h1, h2⟩
    · exact ih d h2
    · rw [ih d1 h2]
      apply localsEntryLoop_other rt heap mem it p.1 off k _ _ d d1 h1
      intro hkp
      rw [hkp] at hk
      simp [hk] at hs

/-- C11: the mapping `getLocals(true)` returns contains no key whose first character is
`#` or `!`. For a Compiled top frame this holds outright; for an Interpreted top frame the
mapping is the one `localsForInterpretedFrame(bp, true)` returns, so it holds as soon as
that accessor honours the flag. -/
theorem getLocals_user_visible_keys (rt : Runtime) (heap : CFHeap) (mem : Memory)
    (top : Option PythonFrameIterator) (d : BoxedDict) (k : String) (rest : List Char)
    (h : getLocals rt heap mem top true = some d)
    (hk : k.toList = '#' :: rest ∨ k.toList = '!' :: rest) :
    (∀ it, top = some it → it.id.type = FrameType.COMPILED → d k = none) ∧
    (∀ it, top = some it → it.id.type = FrameType.INTERPRETED →
      rt.localsForInterpretedFrame it.id.bp true = some d) ∧
    ((∀ bp d2, rt.localsForInterpretedFrame bp true = some d2 → d2 k = none) → d k = none) := by
  have hsyn : isSyntheticName k = true := (isSyntheticName_iff k).mpr ⟨rest, hk⟩
  have hcomp : ∀ it, top = some it → it.id.type = FrameType.COMPILED → d k = none := by
    intro it htop hty
    subst htop
    obtain ⟨cf, lm, -, -, -, hloop⟩ := getLocals_compiled_some rt heap mem it true d hty h
    rw [localsNameLoop_true_synthetic rt heap mem it _ k hsyn lm.names _ d hloop]
    rfl
  have hint : ∀ it, top = some it → it.id.type = FrameType.INTERPRETED →
      rt.localsForInterpretedFrame it.id.bp true = some d := by
    intro it htop hty
    subst htop
    unfold getLocals at h
    simpa only [hty] using h
  refine ⟨hcomp, hint, ?_⟩
  intro hacc
  cases top with
  | none => unfold getLocals at h; cases h
  | some it =>
    cases hty : it.id.type with
    | COMPILED => exact hcomp it rfl hty
    | INTERPRETED => exact hacc _ d (hint it rfl hty)

/-- Instance of C11: the user-visible locals of the sample frame hold no `!current_stmt`. -/
theorem getLocals_user_visible_keys_witness :
    (getLocals sampleRuntime overlapHeap zeroMemory (some sampleFrame) true).map
      (fun d => d "!current_stmt") = some none := by
  have hs : (getLocals sampleRuntime overlapHeap zeroMemory (some sampleFrame) true).isSome
      = true := by decide
  obtain ⟨d, h⟩ := Option.isSome_iff_exists.mp hs
  have := (getLocals_user_visible_keys sampleRuntime overlapHeap zeroMemory (some sampleFrame)
    d "!current_stmt" "current_stmt".toList h (Or.inr (by decide))).1 sampleFrame rfl rfl
  simp [h, this]


theorem localsEntryLoop_transfer (rt : Runtime) (heap : CFHeap) (mem : Memory)
    (it : PythonFrameIterator) (name : String) (off : Nat)
    (entries : List LocationEntry) (d d2 e : BoxedDict)
    (h : localsEntryLoop rt heap mem it name off d entries = some d2) :
    ∃ e2, localsEntryLoop rt heap mem it name off e entries = some e2 ∧
      ∀ k, d k = e k → d2 k = e2 k := by
  induction entries generalizing d e with
  | nil =>
    unfold localsEntryLoop at h
    cases h
    exact ⟨e, by unfold localsEntryLoop; rfl, fun k hk => hk⟩
  | cons x rest ih =>
    unfold localsEntryLoop at h ⊢
    cases hm : entryMatches x off with
    | false =>
      rw [hm] at h
      simp only [Bool.false_eq_true, if_false] at h ⊢
      exact ih d e h
    | true =>
      rw [hm] at h
      simp only [if_true] at h ⊢
      cases hr : readLocations heap mem it x.locations with
      | none => rw [hr] at h; cases h
      | some vals =>
        rw [hr] at h
        simp only at h ⊢
        by_cases hv : rt.isValidGCObject (rt.deserializeFromFrame x.type vals) = false
        · rw [if_pos hv] at h; cases h
        · rw [if_neg hv] at h ⊢
          obtain ⟨e2, he2, hrel⟩ := ih _ (e.set name (rt.deserializeFromFrame x.type vals)) h
          refine ⟨e2, he2, ?_⟩
          intro k hk
          apply hrel
          unfold BoxedDict.set
          by_cases hkn : k = name
          · simp [hkn]
          · simp [hkn, hk]

theorem localsNameLoop_transfer (rt : Runtime) (heap : CFHeap) (mem : Memory)
    (it : PythonFrameIterator) (off : Nat)
    (names : List (String × LocationTable)) (d1 d2 d2f : BoxedDict)
    (h : localsNameLoop rt heap mem it false off d2 names = some d2f)
    (hrel : ∀ k, isSyntheticName k = false → d1 k = d2 k) :
    ∃ d1f, localsNameLoop rt heap mem it true off d1 names = some d1f ∧
      ∀ k, isSyntheticName k = false → d1f k = d2f k := by
  induction names generalizing d1 d2 with
  | nil =>
    unfold localsNameLoop at h
    cases h
    exact ⟨d1, by unfold localsNameLoop; rfl, hrel⟩
  | cons p rest ih =>
    rcases localsNameLoop_cons_some rt heap mem it false off d2 d2f p rest h with
      ⟨hs, -⟩ | ⟨-, dm2, h1, h2⟩
    · simp at hs
    · cases hsyn : isSyntheticName p.1 with
      | true =>
        have hrel2 : ∀ k, isSyntheticName k = false → d1 k = dm2 k := by
          intro k hk
          rw [hrel k hk]
          symm
          apply localsEntryLoop_other rt heap mem it p.1 off k _ _ d2 dm2 h1
          intro hkp
          rw [hkp, hsyn] at hk
          cases hk
        obtain ⟨d1f, hd1f, hfin⟩ := ih d1 dm2 h2 hrel2
        refine ⟨d1f, ?_, hfin⟩
        unfold localsNameLoop
        simpa [hsyn] using hd1f
      | false =>
        obtain ⟨dm1, hdm1, hk1⟩ :=
          localsEntryLoop_transfer rt heap mem it p.1 off p.2.locations d2 dm2 d1 h1
        have hrel2 : ∀ k, isSyntheticName k = false → dm1 k = dm2 k := by
          intro k hk
          exact (hk1 k (hrel k hk).symm).symm
        obtain ⟨d1f, hd1f, hfin⟩ := ih dm1 dm2 h2 hrel2
        refine ⟨d1f, ?_, hfin⟩
        unfold localsNameLoop
        simp only [hsyn, Bool.and_false, Bool.false_eq_true, if_false, hdm1]
        exact hd1f

theorem localsEntryLoop_origin (rt : Runtime) (heap : CFHeap) (mem : Memory)
    (it : PythonFrameIterator) (name : String) (off : Nat)
    (entries : List LocationEntry) (d d2 : BoxedDict)
    (h : localsEntryLoop rt heap mem it name off d entries = some d2) :
    d2 name = d name ∨
    ∃ e ∈ entries, entryMatches e off = true ∧
      ∃ vals, readLocations heap mem it e.locations = some vals ∧
        d2 name = some (rt.deserializeFromFrame e.type vals) := by
  induction entries generalizing d with
  | nil =>
    unfold localsEntryLoop at h
    cases h
    exact Or.inl rfl
  | cons x rest ih =>
    rcases localsEntryLoop_cons_some rt heap mem it name off d d2 x rest h with
      ⟨-, h2⟩ | ⟨hm, vals, hr, h2⟩
    · rcases ih d h2 with h3 | ⟨e, he, hme, v, hv, hd⟩
      · exact Or.inl h3
      · exact Or.inr ⟨e, by simp [he], hme, v, hv, hd⟩
    · rcases ih _ h2 with h3 | ⟨e, he, hme, v, hv, hd⟩
      · right
        refine ⟨x, by simp, hm, vals, hr, ?_⟩
        rw [h3]
        simp [BoxedDict.set]
      · exact Or.inr ⟨e, by simp [he], hme, v, hv, hd⟩

theorem localsNameLoop_origin (rt : Runtime) (heap : CFHeap) (mem : Memory)
    (it : PythonFrameIterator) (ouv : Bool) (off : Nat) (k : String)
    (names : List (String × LocationTable)) (d d2 : BoxedDict)
    (h : localsNameLoop rt heap mem it ouv off d names = some d2) :
    d2 k = d k ∨
    ∃ table, (k, table) ∈ names ∧ (ouv && isSyntheticName k) = false ∧
      ∃ e ∈ table.locations, entryMatches e off = true ∧
        ∃ vals, readLocations heap mem it e.locations = some vals ∧
          d2 k = some (rt.deserializeFromFrame e.type vals) := by
  induction names generalizing d with
  | nil =>
    unfold localsNameLoop at h
    cases h
    exact Or.inl rfl
  | cons p rest ih =>
    have lift : (∃ table, (k, table) ∈ rest ∧ (ouv && isSyntheticName k) = false ∧
        ∃ e ∈ table.locations, entryMatches e off = true ∧
          ∃ vals, readLocations heap mem it e.locations = some vals ∧
            d2 k = some (rt.deserializeFromFrame e.type vals)) →
        ∃ table, (k, table) ∈ p :: rest ∧ (ouv && isSyntheticName k) = false ∧
        ∃ e ∈ table.locations, entryMatches e off = true ∧
          ∃ vals, readLocations heap mem it e.locations = some vals ∧
            d2 k = some (rt.deserializeFromFrame e.type vals) := by
      rintro ⟨t, ht, rest2⟩
      exact ⟨t, by simp [ht], rest2⟩
    rcases localsNameLoop_cons_some rt heap mem it ouv off d d2 p rest h with
      ⟨-, h2⟩ | ⟨hs, d1, h1, h2⟩
    · rcases ih d h2 with h3 | h3
      · exact Or.inl h3
      · exact Or.inr (lift h3)
    · rcases ih d1 h2 with h3 | h3
      · by_cases hkp : k = p.1
        · subst hkp
          rcases localsEntryLoop_origin rt heap mem it p.1 off p.2.locations d d1 h1 with
            h4 | ⟨e, he, hme, v, hv, hd⟩
          · exact Or.inl (h3.trans h4)
          · right
            refine ⟨p.2, by simp, hs, e, he, hme, v, hv, ?_⟩
            rw [h3, hd]
        · left
          rw [h3]
          exact localsEntryLoop_other rt heap mem it p.1 off k hkp _ d d1 h1
      · exact Or.inr (lift h3)

theorem exists_last_match (off : Nat) (entries : List LocationEntry)
    (h : ∃ e ∈ entries, entryMatches e off = true) :
    ∃ pre e post, entries = pre ++ e :: post ∧ entryMatches e off = true ∧
      ∀ x ∈ post, entryMatches x off = false := by
  induction entries with
  | nil => simp at h
  | cons x rest ih =>
    by_cases hrest : ∃ e ∈ rest, entryMatches e off = true
    · obtain ⟨pre, e, post, hsplit, he, hpost⟩ := ih hrest
      exact ⟨x :: pre, e, post, by simp [hsplit], he, hpost⟩
    · obtain ⟨e, he, hme⟩ := h
      rcases List.mem_cons.mp he with rfl | he2
      · refine ⟨[], e, rest, rfl, hme, ?_⟩
        intro y hy
        cases hy2 : entryMatches y off with
        | false => rfl
        | true => exact absurd ⟨y, hy, hy2⟩ hrest
      · exact absurd ⟨e, he2, hme⟩ hrest

theorem names_table_unique (names : List (String × LocationTable))
    (hnodup : (names.map Prod.fst).Nodup) (k : String) (t1 t2 : LocationTable)
    (h1 : (k, t1) ∈ names) (h2 : (k, t2) ∈ names) : t1 = t2 := by
  induction names with
  | nil => simp at h1
  | cons p rest ih =>
    simp only [List.map_cons, List.nodup_cons] at hnodup
    rcases List.mem_cons.mp h1 with e1 | m1
    · rcases List.mem_cons.mp h2 with e2 | m2
      · rw [← e1] at e2
        exact (Prod.mk.inj e2).2.symm ▸ rfl
      · exfalso
        apply hnodup.1
        rw [← e1]
        exact List.mem_map.mpr ⟨(k, t2), m2, rfl⟩
    · rcases List.mem_cons.mp h2 with e2 | m2
      · exfalso
        apply hnodup.1
        rw [← e2]
        exact List.mem_map.mpr ⟨(k, t1), m1, rfl⟩
      · exact ih hnodup.2 m1 m2


/-- C12: for a Compiled top frame, whenever `getLocals(false)` returns a mapping so does
`getLocals(true)`, and every key of `getLocals(true)` is a key of `getLocals(false)` with
the same value, deserialized from the raw values of one matching entry of that name. -/
theorem getLocals_all_superset (rt : Runtime) (heap : CFHeap) (mem : Memory)
    (it : PythonFrameIterator) (hty : it.id.type = FrameType.COMPILED) :
    (∀ d2, getLocals rt heap mem (some it) false = some d2 →
      ∃ d1, getLocals rt heap mem (some it) true = some d1) ∧
    (∀ (d1 d2 : BoxedDict) (k : String) (v : Nat),
      getLocals rt heap mem (some it) true = some d1 →
      getLocals rt heap mem (some it) false = some d2 →
      d1 k = some v →
      d2 k = some v ∧
      ∃ cf lm table e vals, it.cf = some cf ∧ (heap cf).location_map = some lm ∧
        (k, table) ∈ lm.names ∧ e ∈ table.locations ∧
        e.offset < (it.id.ip - (heap cf).code_start) % 2 ^ 32 ∧
        (it.id.ip - (heap cf).code_start) % 2 ^ 32 ≤ e.offset + e.length ∧
        readLocations heap mem it e.locations = some vals ∧
        v = rt.deserializeFromFrame e.type vals) := by
  have key : ∀ d2, getLocals rt heap mem (some it) false = some d2 →
      ∃ d1, getLocals rt heap mem (some it) true = some d1 ∧
        ∀ k, isSyntheticName k = false → d1 k = d2 k := by
    intro d2 h2
    obtain ⟨cf, lm, hcf, hip, hlm, hloop⟩ := getLocals_compiled_some rt heap mem it false d2 hty h2
    obtain ⟨d1, hd1, hrel⟩ := localsNameLoop_transfer rt heap mem it _ lm.names
      BoxedDict.empty BoxedDict.empty d2 hloop (fun _ _ => rfl)
    exact ⟨d1, by rw [getLocals_compiled_eq rt heap mem it true cf lm hty hcf hlm hip]; exact hd1,
      hrel⟩
  constructor
  · intro d2 h2
    obtain ⟨d1, hd1, -⟩ := key d2 h2
    exact ⟨d1, hd1⟩
  · intro d1 d2 k v h1 h2 hk
    obtain ⟨d1b, hd1b, hrel⟩ := key d2 h2
    rw [h1] at hd1b
    cases hd1b
    obtain ⟨cf, lm, hcf, hip, hlm, hloop⟩ := getLocals_compiled_some rt heap mem it true d1 hty h1
    have hsyn : isSyntheticName k = false := by
      cases hs : isSyntheticName k with
      | false => rfl
      | true =>
        have := localsNameLoop_true_synthetic rt heap mem it _ k hs lm.names _ d1 hloop
        rw [hk] at this
        cases this
    refine ⟨by rw [← hrel k hsyn]; exact hk, ?_⟩
    rcases localsNameLoop_origin rt heap mem it true _ k lm.names _ d1 hloop with
      h0 | ⟨table, hmem, -, e, he, hme, vals, hr, hd⟩
    · rw [hk] at h0
      cases h0
    · have hm := (entryMatches_iff e _).mp hme
      rw [hk] at hd
      exact ⟨cf, lm, table, e, vals, hcf, hlm, hmem, he, hm.1, hm.2, hr, Option.some.inj hd⟩

/-- Instance of C12: in the sample frame `x` is a user-visible local with value 103, and
the mapping of all locals holds the same value for it. -/
theorem getLocals_all_superset_witness :
    (getLocals sampleRuntime overlapHeap zeroMemory (some sampleFrame) false).map
      (fun d => d "x") = some (some 103) := by
  have hs1 : (getLocals sampleRuntime overlapHeap zeroMemory (some sampleFrame) true).isSome
      = true := by decide
  have hs2 : (getLocals sampleRuntime overlapHeap zeroMemory (some sampleFrame) false).isSome
      = true := by decide
  obtain ⟨d1, h1⟩ := Option.isSome_iff_exists.mp hs1
  obtain ⟨d2, h2⟩ := Option.isSome_iff_exists.mp hs2
  have hx : (getLocals sampleRuntime overlapHeap zeroMemory (some sampleFrame) true).map
      (fun d => d "x") = some (some 103) := by decide
  rw [h1] at hx
  have hx1 : d1 "x" = some 103 := by simpa using hx
  have := ((getLocals_all_superset sampleRuntime overlapHeap zeroMemory sampleFrame rfl).2
    d1 d2 "x" 103 h1 h2 hx1).1
  simp [h2, this]

/-- C13 fails as stated: at PC offset 8 the user name `a` of the sample map has no matching
entry (its only entry covers `(0, 4]`), and `getLocals` returns a mapping that holds `b`
and simply lacks `a`. -/
theorem getLocals_omits_unmatched_name :
    pcOffset sampleFrame.id.ip (partialHeap 1).code_start = 8 ∧
    isSyntheticName "a" = false ∧
    ((lookupTable partialMap.names "a").locations.filter
      (fun e => entryMatches e 8)).length = 0 ∧
    (getLocals sampleRuntime partialHeap zeroMemory (some sampleFrame) true).map
      (fun d => (d "a", d "b")) = some (none, some 2) := by
  decide

/-- C13 (amended): for a Compiled top frame whose location map has distinct names, the
mapping `getLocals` returns holds exactly the non-skipped names that have a LocationEntry
matching the PC; a non-skipped name without a matching entry is left out, and the call
does not fail on its account. -/
theorem getLocals_keys_are_matching_names (rt : Runtime) (heap : CFHeap) (mem : Memory)
    (it : PythonFrameIterator) (cf : CFPtr) (lm : LocationMap) (off : Nat)
    (only_user_visible : Bool) (d : BoxedDict)
    (hty : it.id.type = FrameType.COMPILED) (hcf : it.cf = some cf)
    (hlm : (heap cf).location_map = some lm)
    (hoff : off = (it.id.ip - (heap cf).code_start) % 2 ^ 32)
    (hnodup : (lm.names.map Prod.fst).Nodup)
    (hget : getLocals rt heap mem (some it) only_user_visible = some d) :
    ∀ name table, (name, table) ∈ lm.names →
      (only_user_visible && isSyntheticName name) = false →
      ((∃ e ∈ table.locations, e.offset < off ∧ off ≤ e.offset + e.length) ↔
        d name ≠ none) := by
  intro name table hmem hvis
  obtain ⟨cf2, lm2, hcf2, -, hlm2, hloop⟩ :=
    getLocals_compiled_some rt heap mem it only_user_visible d hty hget
  rw [hcf] at hcf2
  cases hcf2
  rw [hlm] at hlm2
  cases hlm2
  rw [← hoff] at hloop
  constructor
  · rintro ⟨e, he, h1, h2⟩
    obtain ⟨pre, e2, post, hsplit, he2, hpost⟩ :=
      exists_last_match off table.locations ⟨e, he, (entryMatches_iff e off).mpr ⟨h1, h2⟩⟩
    obtain ⟨vals, -, hd⟩ := localsNameLoop_last rt heap mem it only_user_visible off name table
      pre e2 post hvis hsplit he2 hpost lm.names hnodup hmem BoxedDict.empty d hloop
    rw [hd]
    simp
  · intro hne
    rcases localsNameLoop_origin rt heap mem it only_user_visible off name lm.names _ d hloop with
      h0 | ⟨t2, hmem2, -, e, he, hme, -⟩
    · exact absurd h0 hne
    · have ht : table = t2 := names_table_unique lm.names hnodup name table t2 hmem hmem2
      subst ht
      have hm := (entryMatches_iff e off).mp hme
      exact ⟨e, he, hm.1, hm.2⟩

/-- Instance of C13 (amended): at PC offset 8 the name `a` of the sample map has no
matching entry, so the returned mapping has no key `a`. -/
theorem getLocals_keys_are_matching_names_witness :
    (getLocals sampleRuntime partialHeap zeroMemory (some sampleFrame) true).map
      (fun d => (d "a").isSome) = some false := by
  have hs : (getLocals sampleRuntime partialHeap zeroMemory (some sampleFrame) true).isSome
      = true := by decide
  obtain ⟨d, h⟩ := Option.isSome_iff_exists.mp hs
  have hiff := getLocals_keys_are_matching_names sampleRuntime partialHeap zeroMemory
    sampleFrame 1 partialMap 8 true d rfl rfl rfl (by decide) (by decide) h
    "a" ⟨[⟨0, 4, 0, [⟨LocationType.Constant, 0, 0, 1⟩]⟩]⟩ (by decide) (by decide)
  have ha : d "a" = none := by
    by_contra hne
    obtain ⟨e, he, h1, h2⟩ := hiff.mpr hne
    simp only [List.mem_singleton] at he
    subst he
    exact absurd h2 (by decide)
  simp [h, ha]


/-! ## Theorems: stack walker -/

theorem incrLoop_cons (g : Globals) (rt : Runtime) (w : Bool) (it : PythonFrameIterator)
    (f : NativeFrame) (rest : List NativeFrame) :
    PythonFrameIterator.incrLoop g rt w it (f :: rest) =
      match frameIterator g rt f rest with
      | none => none
      | some none =>
        PythonFrameIterator.incrLoop g rt w
          { it with cursor := { regs := f.regs, outer := rest }, cf := none } rest
      | some (some it2) =>
        if w then PythonFrameIterator.incrLoop g rt it2.cur_is_osr it2 rest
        else some (true, it2) := by
  unfold frameIterator
  rw [PythonFrameIterator.incrLoop]
  cases hcf : getCFForAddress g f.ip with
  | some cf => rfl
  | none =>
    simp only
    cases hp : f.proc_start with
    | none => rfl
    | some start_ip =>
      simp only
      by_cases hs : start_ip = rt.interpreter_instr_addr
      · simp only [hs, if_true]
        cases hi : rt.getCFForInterpretedFrame f.bp with
        | none => rfl
        | some cf => rfl
      · simp only [hs, if_false]

theorem walkTrace_cons (g : Globals) (rt : Runtime) (w : Bool) (f : NativeFrame)
    (rest : List NativeFrame) :
    walkTrace g rt w (f :: rest) =
      match frameIterator g rt f rest with
      | none => ([], true)
      | some none => walkTrace g rt w rest
      | some (some it) =>
        if w then walkTrace g rt it.cur_is_osr rest
        else (it :: (walkTrace g rt it.cur_is_osr rest).1,
              (walkTrace g rt it.cur_is_osr rest).2) := by
  rw [walkTrace]

theorem frameIterator_outer (g : Globals) (rt : Runtime) (f : NativeFrame)
    (rest : List NativeFrame) (it : PythonFrameIterator)
    (h : frameIterator g rt f rest = some (some it)) : it.cursor.outer = rest := by
  unfold frameIterator at h
  cases hcf : getCFForAddress g f.ip with
  | some cf =>
    rw [hcf] at h
    simp only [Option.some.injEq] at h
    rw [← h]
  | none =>
    rw [hcf] at h
    simp only at h
    cases hp : f.proc_start with
    | none => rw [hp] at h; cases h
    | some start_ip =>
      rw [hp] at h
      simp only at h
      by_cases hs : start_ip = rt.interpreter_instr_addr
      · simp only [hs, if_true] at h
        cases hi : rt.getCFForInterpretedFrame f.bp with
        | none => rw [hi] at h; cases h
        | some cf =>
          rw [hi] at h
          simp only [Option.some.injEq] at h
          rw [← h]
      · simp [hs] at h

theorem incrLoop_trace (g : Globals) (rt : Runtime) (stack : List NativeFrame) :
    ∀ (w : Bool) (it : PythonFrameIterator),
      (walkTrace g rt w stack = ([], true) →
        PythonFrameIterator.incrLoop g rt w it stack = none) ∧
      (walkTrace g rt w stack = ([], false) →
        ∃ it2, PythonFrameIterator.incrLoop g rt w it stack = some (false, it2)) ∧
      (∀ it2 fs a, walkTrace g rt w stack = (it2 :: fs, a) →
        PythonFrameIterator.incrLoop g rt w it stack = some (true, it2) ∧
        it2.cursor.outer.length < stack.length ∧
        walkTrace g rt it2.cur_is_osr it2.cursor.outer = (fs, a)) := by
  induction stack with
  | nil =>
    intro w it
    refine ⟨?_, ?_, ?_⟩
    · intro h; simp [walkTrace] at h
    · intro _; exact ⟨it, by rw [PythonFrameIterator.incrLoop]⟩
    · intro it2 fs a h; simp [walkTrace] at h
  | cons f rest ih =>
    intro w it
    rw [incrLoop_cons, walkTrace_cons]
    cases hfi : frameIterator g rt f rest with
    | none => simp
    | some o =>
      cases o with
      | none =>
        simp only
        obtain ⟨h1, h2, h3⟩ :=
          ih w { it with cursor := { regs := f.regs, outer := rest }, cf := none }
        exact ⟨h1, h2, fun it2 fs a h =>
          ⟨(h3 it2 fs a h).1, Nat.lt_succ_of_lt (h3 it2 fs a h).2.1, (h3 it2 fs a h).2.2⟩⟩
      | some itf =>
        simp only
        cases w with
        | true =>
          simp only [if_true]
          obtain ⟨h1, h2, h3⟩ := ih itf.cur_is_osr itf
          exact ⟨h1, h2, fun it2 fs a h =>
            ⟨(h3 it2 fs a h).1, Nat.lt_succ_of_lt (h3 it2 fs a h).2.1, (h3 it2 fs a h).2.2⟩⟩
        | false =>
          simp only [Bool.false_eq_true, if_false]
          refine ⟨fun h => by simp at h, fun h => by simp at h, ?_⟩
          intro it2 fs a h
          simp only [Prod.mk.injEq, List.cons.injEq] at h
          obtain ⟨⟨h1, h2⟩, h3⟩ := h
          subst h1
          have hout : itf.cursor.outer = rest := frameIterator_outer g rt f rest itf hfi
          refine ⟨rfl, by rw [hout]; simp, ?_⟩
          rw [hout]
          exact Prod.ext h2 h3


theorem forPythonFrames_none {σ : Type} (g : Globals) (rt : Runtime)
    (body : σ → PythonFrameIterator → Option (LoopControl σ)) (fuel : Nat) (s : σ) :
    forPythonFrames g rt body fuel none s = some s := by
  cases fuel <;> rw [forPythonFrames]

theorem forPythonFrames_trace {σ : Type} (g : Globals) (rt : Runtime)
    (body : σ → PythonFrameIterator → Option (LoopControl σ)) (fuel : Nat) :
    ∀ (it : PythonFrameIterator) (s : σ), it.cursor.outer.length < fuel →
      forPythonFrames g rt body fuel (some it) s =
        foldTrace body (it :: (walkTrace g rt it.cur_is_osr it.cursor.outer).1)
          (walkTrace g rt it.cur_is_osr it.cursor.outer).2 s := by
  induction fuel with
  | zero => intro it s h; omega
  | succ n ih =>
    intro it s hfuel
    rw [forPythonFrames, foldTrace]
    cases hb : body s it with
    | none => rfl
    | some c =>
      cases c with
      | stop s2 => rfl
      | next s2 =>
        simp only
        unfold PythonFrameIterator.incr
        obtain ⟨h1, h2, h3⟩ := incrLoop_trace g rt it.cursor.outer it.cur_is_osr it
        cases hw : walkTrace g rt it.cur_is_osr it.cursor.outer with
        | mk frames a =>
          cases frames with
          | nil =>
            cases a with
            | true =>
              rw [h1 hw]
              simp [foldTrace]
            | false =>
              obtain ⟨it2, hit2⟩ := h2 hw
              rw [hit2]
              simp [foldTrace, forPythonFrames_none]
          | cons it2 fs =>
            obtain ⟨hinc, hlen, hrest⟩ := h3 it2 fs a hw
            rw [hinc]
            simp only [if_true]
            rw [ih it2 s2 (by omega), hrest]

theorem unwindLoop_trace {σ : Type} (g : Globals) (rt : Runtime) (stack : List NativeFrame)
    (body : σ → PythonFrameIterator → Option (LoopControl σ)) (s : σ) :
    unwindLoop g rt stack body s =
      foldTrace body (walkTrace g rt false stack).1 (walkTrace g rt false stack).2 s := by
  unfold unwindLoop PythonFrameIterator.begin PythonFrameIterator.incr
  simp only
  obtain ⟨h1, h2, h3⟩ := incrLoop_trace g rt stack false
    { id := ⟨FrameType.COMPILED, 0⟩, cursor := { regs := fun _ => none, outer := stack },
      cf := none, cur_is_osr := false }
  cases hw : walkTrace g rt false stack with
  | mk frames a =>
    cases frames with
    | nil =>
      cases a with
      | true =>
        rw [h1 hw]
        simp [foldTrace]
      | false =>
        obtain ⟨it2, hit2⟩ := h2 hw
        rw [hit2]
        simp [foldTrace, forPythonFrames_none]
    | cons it2 fs =>
      obtain ⟨hinc, hlen, hrest⟩ := h3 it2 fs a hw
      rw [hinc]
      simp only [Bool.true_eq_false, if_false]
      rw [forPythonFrames_trace g rt body stack.length it2 s hlen, hrest]

theorem foldTrace_collect (frames : List PythonFrameIterator) (a : Bool) :
    ∀ acc : List PythonFrameIterator,
      foldTrace (fun fs it => some (LoopControl.next (fs ++ [it]))) frames a acc =
        if a then none else some (acc ++ frames) := by
  induction frames with
  | nil => intro acc; simp [foldTrace]
  | cons it rest ih =>
    intro acc
    rw [foldTrace]
    simp only
    rw [ih]
    simp

theorem unwindPythonFrames_eq (g : Globals) (rt : Runtime) (stack : List NativeFrame) :
    unwindPythonFrames g rt stack =
      if (walkTrace g rt false stack).2 then none else some (walkTrace g rt false stack).1 := by
  unfold unwindPythonFrames
  rw [unwindLoop_trace, foldTrace_collect]
  simp

theorem unwindPythonFrames_some (g : Globals) (rt : Runtime) (stack : List NativeFrame)
    (frames : List PythonFrameIterator) (h : unwindPythonFrames g rt stack = some frames) :
    walkTrace g rt false stack = (frames, false) := by
  rw [unwindPythonFrames_eq] at h
  cases hw : walkTrace g rt false stack with
  | mk fs a =>
    rw [hw] at h
    cases a with
    | true => simp at h
    | false =>
      simp only [Bool.false_eq_true, if_false, Option.some.injEq] at h
      rw [h]

theorem unwindLoop_of_frames {σ : Type} (g : Globals) (rt : Runtime) (stack : List NativeFrame)
    (frames : List PythonFrameIterator) (h : unwindPythonFrames g rt stack = some frames)
    (body : σ → PythonFrameIterator → Option (LoopControl σ)) (s : σ) :
    unwindLoop g rt stack body s = foldTrace body frames false s := by
  rw [unwindLoop_trace, unwindPythonFrames_some g rt stack frames h]


theorem pythonFramesOf_cons (g : Globals) (rt : Runtime) (f : NativeFrame)
    (rest : List NativeFrame) :
    pythonFramesOf g rt (f :: rest) =
      match frameIterator g rt f rest with
      | none => none
      | some none => pythonFramesOf g rt rest
      | some (some it) =>
        match pythonFramesOf g rt rest with
        | none => none
        | some frames => some (it :: frames) := by
  rw [pythonFramesOf]

theorem walkTrace_of_pythonFrames (g : Globals) (rt : Runtime) (stack : List NativeFrame) :
    ∀ (ps : List PythonFrameIterator) (w : Bool), pythonFramesOf g rt stack = some ps →
      walkTrace g rt w stack = (coalesceFrom w ps, false) := by
  induction stack with
  | nil =>
    intro ps w h
    rw [pythonFramesOf] at h
    cases h
    rfl
  | cons f rest ih =>
    intro ps w h
    rw [pythonFramesOf_cons] at h
    rw [walkTrace_cons]
    cases hfi : frameIterator g rt f rest with
    | none => rw [hfi] at h; cases h
    | some o =>
      rw [hfi] at h
      cases o with
      | none => exact ih ps w h
      | some it =>
        simp only at h ⊢
        cases hrest : pythonFramesOf g rt rest with
        | none => rw [hrest] at h; cases h
        | some frames =>
          rw [hrest] at h
          cases h
          rw [ih frames it.cur_is_osr hrest]
          cases w <;> simp [coalesceFrom]

theorem coalesceFrom_eq_spec :
    ∀ ps : List PythonFrameIterator, noSuccessiveOsr ps →
      coalesceFrom false ps = specOsrCoalescing ps := by
  intro ps
  induction ps using specOsrCoalescing.induct with
  | case1 => intro _; rfl
  | case2 a => intro _; simp [coalesceFrom, specOsrCoalescing]
  | case3 a b rest ha ih =>
    intro h
    obtain ⟨hab, hrest⟩ := h
    have hb : b.cur_is_osr = false := by
      cases hbo : b.cur_is_osr with
      | false => rfl
      | true => exact absurd ⟨ha, hbo⟩ hab
    have hrest2 : noSuccessiveOsr rest := by
      cases rest with
      | nil => trivial
      | cons c more => exact hrest.2
    simp only [coalesceFrom, specOsrCoalescing, ha, hb, if_true, Bool.false_eq_true, if_false]
    rw [ih hrest2]
  | case4 a b rest ha ih =>
    intro h
    have ha2 : a.cur_is_osr = false := by simpa using ha
    simp only [specOsrCoalescing, ha2, Bool.false_eq_true, if_false]
    rw [← ih h.2]
    simp [coalesceFrom, ha2]

/-- C14: on a native stack whose Python frames `ps` have no OSR continuation immediately
followed by another one, a complete walk yields `ps` coalesced by the rule of the spec
(every frame yielded, the frame right after a yielded OSR continuation discarded), and
the first Python frame is always yielded. -/
theorem walker_osr_coalescing (g : Globals) (rt : Runtime) (stack : List NativeFrame)
    (ps : List PythonFrameIterator)
    (hps : pythonFramesOf g rt stack = some ps) (hosr : noSuccessiveOsr ps) :
    unwindPythonFrames g rt stack = some (specOsrCoalescing ps) ∧
    (specOsrCoalescing ps).head? = ps.head? := by
  constructor
  · rw [unwindPythonFrames_eq, walkTrace_of_pythonFrames g rt stack ps false hps,
      coalesceFrom_eq_spec ps hosr]
    simp
  · cases ps with
    | nil => rfl
    | cons a rest =>
      cases rest with
      | nil => rfl
      | cons b more =>
        rw [specOsrCoalescing]
        split <;> rfl

/-- Instance of C14: on the sample stack the frame of function 1 right behind the OSR
continuation of function 2 is not yielded; the walk yields the OSR frame, the interpreter
frame and the outer frame of function 1. -/
theorem walker_osr_coalescing_witness :
    (unwindPythonFrames walkGlobals walkRuntime osrStack).map (List.map frameView) =
      some [(⟨FrameType.COMPILED, 8200⟩, some 2), (⟨FrameType.INTERPRETED, 777⟩, some 3),
            (⟨FrameType.COMPILED, 4104⟩, some 1)] := by
  have h := (walker_osr_coalescing walkGlobals walkRuntime osrStack osrStackFrames
    rfl (by decide)).1
  rw [h]
  decide


theorem frameIterator_foreign (g : Globals) (rt : Runtime) (f : NativeFrame) (start : Nat)
    (hmiss : getCFForAddress g f.ip = none) (hproc : f.proc_start = some start)
    (hstart : start ≠ rt.interpreter_instr_addr) (rest : List NativeFrame) :
    frameIterator g rt f rest = some none := by
  unfold frameIterator
  simp [hmiss, hproc, hstart]

theorem frameIterator_rest (g : Globals) (rt : Runtime) (x : NativeFrame)
    (r1 r2 : List NativeFrame) :
    (frameIterator g rt x r1 = none ∧ frameIterator g rt x r2 = none) ∨
    (frameIterator g rt x r1 = some none ∧ frameIterator g rt x r2 = some none) ∨
    (∃ i1 i2, frameIterator g rt x r1 = some (some i1) ∧
      frameIterator g rt x r2 = some (some i2) ∧
      frameView i1 = frameView i2 ∧ i1.cur_is_osr = i2.cur_is_osr) := by
  unfold frameIterator
  cases hcf : getCFForAddress g x.ip with
  | some cf => exact Or.inr (Or.inr ⟨_, _, rfl, rfl, rfl, rfl⟩)
  | none =>
    simp only
    cases hp : x.proc_start with
    | none => exact Or.inl ⟨rfl, rfl⟩
    | some start_ip =>
      simp only
      by_cases hs : start_ip = rt.interpreter_instr_addr
      · simp only [hs, if_true]
        cases hi : rt.getCFForInterpretedFrame x.bp with
        | none => exact Or.inl ⟨rfl, rfl⟩
        | some cf => exact Or.inr (Or.inr ⟨_, _, rfl, rfl, rfl, rfl⟩)
      · simp [hs]

theorem walkTrace_foreign (g : Globals) (rt : Runtime) (f : NativeFrame) (start : Nat)
    (hmiss : getCFForAddress g f.ip = none) (hproc : f.proc_start = some start)
    (hstart : start ≠ rt.interpreter_instr_addr) (post : List NativeFrame)
    (pre : List NativeFrame) :
    ∀ w : Bool,
      (walkTrace g rt w (pre ++ f :: post)).1.map frameView =
        (walkTrace g rt w (pre ++ post)).1.map frameView ∧
      (walkTrace g rt w (pre ++ f :: post)).2 = (walkTrace g rt w (pre ++ post)).2 := by
  induction pre with
  | nil =>
    intro w
    simp only [List.nil_append]
    rw [walkTrace_cons, frameIterator_foreign g rt f start hmiss hproc hstart]
    exact ⟨rfl, rfl⟩
  | cons x rest ih =>
    intro w
    simp only [List.cons_append]
    rw [walkTrace_cons, walkTrace_cons]
    rcases frameIterator_rest g rt x (rest ++ f :: post) (rest ++ post) with
      ⟨h1, h2⟩ | ⟨h1, h2⟩ | ⟨i1, i2, h1, h2, hv, ho⟩
    · rw [h1, h2]
      exact ⟨rfl, rfl⟩
    · rw [h1, h2]
      exact ih w
    · rw [h1, h2]
      simp only
      rw [ho]
      cases w with
      | true => exact ih _
      | false =>
        simp only [Bool.false_eq_true, if_false, List.map_cons]
        exact ⟨by rw [hv, (ih _).1], (ih _).2⟩

/-- C15: a native frame whose ip misses the registry and whose procedure start is not the
interpreter trampoline yields nothing, and inserting or removing such a frame anywhere in
the native stack leaves the walk unchanged: the same failure or the same sequence of
(frame id, compiled function) pairs. -/
theorem walker_foreign_transparent (g : Globals) (rt : Runtime) (f : NativeFrame)
    (start : Nat) (hmiss : getCFForAddress g f.ip = none)
    (hproc : f.proc_start = some start) (hstart : start ≠ rt.interpreter_instr_addr) :
    unwindPythonFrames g rt [f] = some [] ∧
    ∀ pre post : List NativeFrame,
      (unwindPythonFrames g rt (pre ++ f :: post)).map (List.map frameView) =
        (unwindPythonFrames g rt (pre ++ post)).map (List.map frameView) := by
  constructor
  · rw [unwindPythonFrames_eq, walkTrace_cons,
      frameIterator_foreign g rt f start hmiss hproc hstart]
    rfl
  · intro pre post
    obtain ⟨h1, h2⟩ := walkTrace_foreign g rt f start hmiss hproc hstart post pre false
    rw [unwindPythonFrames_eq, unwindPythonFrames_eq, h2]
    cases (walkTrace g rt false (pre ++ post)).2 with
    | true => rfl
    | false => simp [h1]

/-- Instance of C15: the foreign frame at ip 50 of the sample stack can be removed without
changing what the walk yields. -/
theorem walker_foreign_transparent_witness :
    (unwindPythonFrames walkGlobals walkRuntime osrStack).map (List.map frameView) =
      (unwindPythonFrames walkGlobals walkRuntime
        [nativeFrame 8200 1 8192, nativeFrame 4100 3 4096, nativeFrame 60 777 9000,
         nativeFrame 4104 5 4096]).map (List.map frameView) :=
  (walker_foreign_transparent walkGlobals walkRuntime (nativeFrame 50 2 40) 40
    (by decide) rfl (by decide)).2 [nativeFrame 8200 1 8192]
    [nativeFrame 4100 3 4096, nativeFrame 60 777 9000, nativeFrame 4104 5 4096]

theorem walkTrace_mem (g : Globals) (rt : Runtime) (stack : List NativeFrame) :
    ∀ (w : Bool) (it : PythonFrameIterator), it ∈ (walkTrace g rt w stack).1 →
      ∃ x rest, x ∈ stack ∧ frameIterator g rt x rest = some (some it) := by
  induction stack with
  | nil => intro w it h; simp [walkTrace] at h
  | cons f rest ih =>
    intro w it h
    rw [walkTrace_cons] at h
    have lift : (∃ x r, x ∈ rest ∧ frameIterator g rt x r = some (some it)) →
        ∃ x r, x ∈ f :: rest ∧ frameIterator g rt x r = some (some it) := by
      rintro ⟨x, r, hx, hfx⟩
      exact ⟨x, r, by simp [hx], hfx⟩
    cases hfi : frameIterator g rt f rest with
    | none => rw [hfi] at h; simp at h
    | some o =>
      rw [hfi] at h
      cases o with
      | none => exact lift (ih w it h)
      | some itf =>
        simp only at h
        cases w with
        | true => exact lift (ih _ it (by simpa using h))
        | false =>
          simp only [Bool.false_eq_true, if_false, List.mem_cons] at h
          rcases h with rfl | h
          · exact ⟨f, rest, by simp, hfi⟩
          · exact lift (ih _ it h)

theorem frameIterator_compiled (g : Globals) (rt : Runtime) (x : NativeFrame)
    (rest : List NativeFrame) (it : PythonFrameIterator)
    (h : frameIterator g rt x rest = some (some it))
    (hty : it.id.type = FrameType.COMPILED) :
    ∃ cf, it.cf = some cf ∧ getCFForAddress g it.id.ip = some cf := by
  unfold frameIterator at h
  cases hcf : getCFForAddress g x.ip with
  | some cf =>
    rw [hcf] at h
    simp only [Option.some.injEq] at h
    subst h
    exact ⟨cf, rfl, hcf⟩
  | none =>
    rw [hcf] at h
    simp only at h
    cases hp : x.proc_start with
    | none => rw [hp] at h; cases h
    | some start_ip =>
      rw [hp] at h
      simp only at h
      by_cases hs : start_ip = rt.interpreter_instr_addr
      · simp only [hs, if_true] at h
        cases hi : rt.getCFForInterpretedFrame x.bp with
        | none => rw [hi] at h; cases h
        | some cf =>
          rw [hi] at h
          simp only [Option.some.injEq] at h
          subst h
          cases hty
      · simp [hs] at h

/-- C16: every frame a walk yields as Compiled, with `id.ip = p` and compiled function
`f`, has `f` registered and `f.code_start < p <= f.code_start + f.code_size` (for the
64-bit sum the lookup computes, hence for the exact sum too). -/
theorem walker_compiled_frame_in_range (g : Globals) (rt : Runtime)
    (stack : List NativeFrame) (frames : List PythonFrameIterator) (it : PythonFrameIterator)
    (hwalk : unwindPythonFrames g rt stack = some frames) (hit : it ∈ frames)
    (hty : it.id.type = FrameType.COMPILED) :
    ∃ f, it.cf = some f ∧ f ∈ g.cf_registry.cfs ∧
      (g.heap f).code_start < it.id.ip ∧
      it.id.ip ≤ ((g.heap f).code_start + (g.heap f).code_size) % 2 ^ 64 ∧
      it.id.ip ≤ (g.heap f).code_start + (g.heap f).code_size := by
  have htrace := unwindPythonFrames_some g rt stack frames hwalk
  have hmem : it ∈ (walkTrace g rt false stack).1 := by rw [htrace]; exact hit
  obtain ⟨x, rest, -, hfi⟩ := walkTrace_mem g rt stack false it hmem
  obtain ⟨cf, hcf, hlook⟩ := frameIterator_compiled g rt x rest it hfi hty
  unfold getCFForAddress CFRegistry.getCFForAddress at hlook
  obtain ⟨pre, post, hsplit, hin, -⟩ :=
    getCFForAddressLoop_some g.heap g.cf_registry.cfs it.id.ip cf hlook
  have hb := (addrInCF_iff_mod _ _).mp hin
  exact ⟨cf, hcf, by rw [hsplit]; simp, hb.1, hb.2, le_trans hb.2 (Nat.mod_le _ _)⟩

/-- Instance of C16: the first frame the walk of the sample stack yields is Compiled, at
ip 8200 in function 2, and `8192 < 8200 <= 8192 + 32`. -/
theorem walker_compiled_frame_in_range_witness :
    osrStackTop.cf = some 2 ∧
    (walkGlobals.heap 2).code_start < osrStackTop.id.ip ∧
    osrStackTop.id.ip ≤ (walkGlobals.heap 2).code_start + (walkGlobals.heap 2).code_size := by
  obtain ⟨f, h1, -, h3, -, h5⟩ :=
    walker_compiled_frame_in_range walkGlobals walkRuntime osrStack osrStackYielded
      osrStackTop rfl (List.Mem.head _) rfl
  have hcf : osrStackTop.cf = some 2 := rfl
  rw [hcf] at h1
  cases h1
  exact ⟨hcf, h3, h5⟩

/-! ## Theorems: traceback -/

theorem foldTrace_traceback (rt : Runtime) (heap : CFHeap) (mem : Memory)
    (frames : List PythonFrameIterator) (infos : List LineInfo)
    (h : List.Forall₂ (fun it li => lineInfoForFrame rt heap mem it = some li) frames infos) :
    ∀ acc, foldTrace (tracebackBody rt heap mem) frames false acc = some (acc ++ infos) := by
  induction h with
  | nil => intro acc; simp [foldTrace]
  | cons hhead _ ih =>
    intro acc
    rw [foldTrace]
    simp only [tracebackBody, hhead]
    rw [ih]
    simp

theorem foldTrace_traceback_some (rt : Runtime) (heap : CFHeap) (mem : Memory)
    (frames : List PythonFrameIterator) (a : Bool) :
    ∀ acc r, foldTrace (tracebackBody rt heap mem) frames a acc = some r →
      a = false ∧ ∃ infos,
        List.Forall₂ (fun it li => lineInfoForFrame rt heap mem it = some li) frames infos ∧
        r = acc ++ infos := by
  induction frames with
  | nil =>
    intro acc r h
    rw [foldTrace] at h
    cases a with
    | true => simp at h
    | false =>
      simp only [Bool.false_eq_true, if_false, Option.some.injEq] at h
      exact ⟨rfl, [], List.Forall₂.nil, by simp [h]⟩
  | cons it rest ih =>
    intro acc r h
    rw [foldTrace] at h
    cases hli : lineInfoForFrame rt heap mem it with
    | none => simp [tracebackBody, hli] at h
    | some li =>
      simp only [tracebackBody, hli] at h
      obtain ⟨ha, infos, hall, hr⟩ := ih _ r h
      exact ⟨ha, li :: infos, List.Forall₂.cons hli hall, by simp [hr]⟩

/-- C17: with frame introspection enabled, `getTracebackEntries` returns one `LineInfo`
per frame the walker yields, in the reverse of walk order: when every yielded frame has a
line info the result is the reversed list of them, entry `i` being that of yielded frame
`n - 1 - i`; and whenever the function returns, its result arises this way. -/
theorem getTracebackEntries_reverse (g : Globals) (rt : Runtime) (mem : Memory)
    (stack : List NativeFrame) (st : TracebackState) :
    (∀ (frames : List PythonFrameIterator) (infos : List LineInfo),
      unwindPythonFrames g rt stack = some frames →
      List.Forall₂ (fun it li => lineInfoForFrame rt g.heap mem it = some li) frames infos →
      getTracebackEntries true g rt mem stack st = some (infos.reverse, st) ∧
      infos.reverse.length = frames.length ∧
      ∀ i, i < frames.length → infos.reverse[i]? = infos[frames.length - 1 - i]?) ∧
    (∀ (entries : List LineInfo) (st2 : TracebackState),
      getTracebackEntries true g rt mem stack st = some (entries, st2) →
      ∃ frames infos, unwindPythonFrames g rt stack = some frames ∧
        List.Forall₂ (fun it li => lineInfoForFrame rt g.heap mem it = some li) frames infos ∧
        entries = infos.reverse ∧ st2 = st) := by
  constructor
  · intro frames infos hwalk hinfos
    have hlen : frames.length = infos.length := hinfos.length_eq
    refine ⟨?_, by simp [hlen], ?_⟩
    · unfold getTracebackEntries
      simp only [Bool.true_eq_false, if_false]
      rw [unwindLoop_of_frames g rt stack frames hwalk,
        foldTrace_traceback rt g.heap mem frames infos hinfos]
      simp
    · intro i hi
      rw [List.getElem?_reverse (by omega), hlen]
  · intro entries st2 h
    unfold getTracebackEntries at h
    simp only [Bool.true_eq_false, if_false] at h
    rw [unwindLoop_trace] at h
    cases hf : foldTrace (tracebackBody rt g.heap mem) (walkTrace g rt false stack).1
        (walkTrace g rt false stack).2 [] with
    | none => rw [hf] at h; cases h
    | some r =>
      rw [hf] at h
      simp only [Option.some.injEq, Prod.mk.injEq] at h
      obtain ⟨ha, infos, hall, hr⟩ := foldTrace_traceback_some rt g.heap mem _ _ [] r hf
      refine ⟨(walkTrace g rt false stack).1, infos, ?_, hall, ?_, h.2.symm⟩
      · rw [unwindPythonFrames_eq, ha]
        simp
      · rw [← h.1, hr]
        simp

/-- Instance of C17: on the sample stack the walk yields a compiled frame of `f` (line
103), an interpreter frame of `g` (line 21) and a compiled frame of `f` (line 10); the
traceback lists them outermost first. -/
theorem getTracebackEntries_reverse_witness :
    getTracebackEntries true tracebackGlobals tracebackRuntime zeroMemory tracebackStack
        ⟨false, []⟩ =
      some ([⟨10, 0, "m.py", "f"⟩, ⟨21, 0, "m.py", "g"⟩, ⟨103, 0, "m.py", "f"⟩], ⟨false, []⟩) :=
  ((getTracebackEntries_reverse tracebackGlobals tracebackRuntime zeroMemory tracebackStack
    ⟨false, []⟩).1 tracebackFrames
    [⟨103, 0, "m.py", "f"⟩, ⟨21, 0, "m.py", "g"⟩, ⟨10, 0, "m.py", "f"⟩] rfl
    (List.Forall₂.cons rfl (List.Forall₂.cons rfl (List.Forall₂.cons rfl List.Forall₂.nil)))).1


/-! ## Theorems: exception info -/

theorem updateLoop_apply (c : Nat) (l : List Nat) :
    ∀ (store : ExcStore) (q : Nat),
      updateLoop c store l q = if q ∈ l then store c else store q := by
  induction l with
  | nil => intro store q; simp [updateLoop]
  | cons ex rest ih =>
    intro store q
    rw [updateLoop, ih]
    have hc : Function.update store ex (store c) c = store c := by
      by_cases h : c = ex
      · subst h; simp
      · simp [Function.update, h]
    rw [hc]
    by_cases hq : q ∈ rest
    · simp [hq]
    · by_cases hqe : q = ex
      · subst hqe; simp
      · simp [hq, hqe, Function.update]

theorem excAdvance_to_update (pre : List Nat) :
    ∀ s : ExcLoopState, (excAdvance s pre).to_update = s.to_update ++ pre := by
  induction pre with
  | nil => intro s; simp [excAdvance]
  | cons p rest ih => intro s; rw [excAdvance, ih]; simp

theorem excAdvance_cur_exc (pre : List Nat) :
    ∀ s : ExcLoopState, (excAdvance s pre).cur_exc =
      match s.cur_exc with
      | some c => some c
      | none => pre.head? := by
  induction pre with
  | nil => intro s; cases h : s.cur_exc <;> simp [excAdvance, h]
  | cons p rest ih =>
    intro s
    rw [excAdvance, ih]
    cases h : s.cur_exc <;> simp

theorem excAdvance_copy_from (pre : List Nat) :
    ∀ s : ExcLoopState, (excAdvance s pre).copy_from_exc =
      match pre.getLast? with
      | some l => some l
      | none => s.copy_from_exc := by
  induction pre with
  | nil => intro s; simp [excAdvance]
  | cons p rest ih =>
    intro s
    rw [excAdvance, ih]
    cases rest with
    | nil => simp
    | cons r more =>
      rw [List.getLast?_cons_cons]
      cases h : (r :: more).getLast? with
      | none => simp at h
      | some l => rfl

theorem foldTrace_exc_empty (rt : Runtime) (heap : CFHeap) (mem : Memory) (store : ExcStore)
    (fpre : List PythonFrameIterator) (pre : List Nat)
    (h : List.Forall₂ (fun it p => it.getFrameInfo rt heap mem = some p) fpre pre) :
    (∀ q ∈ pre, (store q).type = 0) →
    ∀ (s : ExcLoopState) (rest : List PythonFrameIterator) (a : Bool),
      foldTrace (frameExcInfoBody rt heap mem store) (fpre ++ rest) a s =
        foldTrace (frameExcInfoBody rt heap mem store) rest a (excAdvance s pre) := by
  induction h with
  | nil => intro _ s rest a; rfl
  | cons hhead _ ih =>
    intro hempty s rest a
    simp only [List.cons_append]
    rw [foldTrace]
    simp only [frameExcInfoBody, hhead, hempty _ (List.mem_cons_self _ _), if_true]
    rw [ih (fun q hq => hempty q (List.mem_cons_of_mem _ hq))]
    rfl

theorem getFrameExcInfo_populated (g : Globals) (rt : Runtime) (mem : Memory)
    (stack : List NativeFrame) (store : ExcStore)
    (fpre : List PythonFrameIterator) (fj : PythonFrameIterator)
    (fpost : List PythonFrameIterator) (pre : List Nat) (p : Nat)
    (hwalk : unwindPythonFrames g rt stack = some (fpre ++ fj :: fpost))
    (hpre : List.Forall₂ (fun it q => it.getFrameInfo rt g.heap mem = some q) fpre pre)
    (hp : fj.getFrameInfo rt g.heap mem = some p)
    (hempty : ∀ q ∈ pre, (store q).type = 0)
    (htype : (store p).type ≠ 0) (hvalue : (store p).value ≠ 0)
    (htb : (store p).traceback ≠ 0) :
    getFrameExcInfo g rt mem stack store =
      some (pre.head?.getD p, fun q => if q ∈ pre then store p else store q) := by
  unfold getFrameExcInfo
  rw [unwindLoop_of_frames g rt stack _ hwalk,
    foldTrace_exc_empty rt g.heap mem store fpre pre hpre hempty, foldTrace]
  simp only [frameExcInfoBody, hp, htype, if_false, hvalue, htb]
  rw [excAdvance_to_update, excAdvance_cur_exc]
  simp only [List.nil_append]
  have hstore : updateLoop p store pre = fun q => if q ∈ pre then store p else store q := by
    funext q
    exact updateLoop_apply p pre store q
  rw [hstore]
  cases pre with
  | nil => rfl
  | cons a rest => rfl

theorem getFrameExcInfo_unpopulated (g : Globals) (rt : Runtime) (mem : Memory)
    (stack : List NativeFrame) (store : ExcStore)
    (frames : List PythonFrameIterator) (p0 : Nat) (tl : List Nat)
    (hwalk : unwindPythonFrames g rt stack = some frames)
    (hptrs : List.Forall₂ (fun it q => it.getFrameInfo rt g.heap mem = some q) frames
      (p0 :: tl))
    (hempty : ∀ q ∈ p0 :: tl, (store q).type = 0) (hnone : rt.None ≠ 0) :
    getFrameExcInfo g rt mem stack store =
      some (p0, fun q => if q ∈ p0 :: tl then ⟨rt.None, rt.None, rt.None⟩ else store q) := by
  unfold getFrameExcInfo
  have h0 := foldTrace_exc_empty rt g.heap mem store frames (p0 :: tl) hptrs hempty
    { to_update := [], copy_from_exc := none, cur_exc := none } [] false
  rw [List.append_nil] at h0
  rw [unwindLoop_of_frames g rt stack _ hwalk, h0, foldTrace]
  simp only [Bool.false_eq_true, if_false]
  rw [excAdvance_copy_from, excAdvance_to_update, excAdvance_cur_exc]
  obtain ⟨last, hlast⟩ : ∃ last, (p0 :: tl).getLast? = some last := by
    cases h : (p0 :: tl).getLast? with
    | none => simp at h
    | some l => exact ⟨l, rfl⟩
  have hmem : last ∈ p0 :: tl := List.mem_of_getLast?_eq_some hlast
  rw [hlast]
  simp only [hempty last hmem, if_true, Function.update_same, hnone, if_false,
    List.nil_append, List.head?_cons]
  congr 1
  congr 1
  funext q
  rw [updateLoop_apply]
  by_cases hq : q ∈ p0 :: tl
  · simp only [hq, if_true, Function.update_same]
  · have hne : q ≠ last := fun h => hq (h ▸ hmem)
    simp only [hq, if_false, Function.update_noteq hne]


/-- C18: on a stack whose walk yields the frames `frames`, `getFrameExcInfo` returns the
`ExcInfo` of the top frame, which after the call holds the tuple of the first frame in
walk order whose tuple is populated (type non-null; the function asserts that its value
and traceback are non-null too); if no frame's tuple is populated the returned tuple is
the sentinel `(None, None, None)`, which is also stored in the last frame visited. -/
theorem getFrameExcInfo_first_populated (g : Globals) (rt : Runtime) (mem : Memory)
    (stack : List NativeFrame) (store : ExcStore) (frames : List PythonFrameIterator)
    (hwalk : unwindPythonFrames g rt stack = some frames) :
    (∀ (fpre : List PythonFrameIterator) (fj : PythonFrameIterator)
      (fpost : List PythonFrameIterator) (pre : List Nat) (p : Nat),
      frames = fpre ++ fj :: fpost →
      List.Forall₂ (fun it q => it.getFrameInfo rt g.heap mem = some q) fpre pre →
      fj.getFrameInfo rt g.heap mem = some p →
      (∀ q ∈ pre, (store q).type = 0) →
      (store p).type ≠ 0 → (store p).value ≠ 0 → (store p).traceback ≠ 0 →
      ∃ store2, getFrameExcInfo g rt mem stack store = some (pre.head?.getD p, store2) ∧
        store2 (pre.head?.getD p) = store p) ∧
    (∀ (p0 : Nat) (tl : List Nat) (last : Nat),
      List.Forall₂ (fun it q => it.getFrameInfo rt g.heap mem = some q) frames (p0 :: tl) →
      (p0 :: tl).getLast? = some last →
      (∀ q ∈ p0 :: tl, (store q).type = 0) → rt.None ≠ 0 →
      ∃ store2, getFrameExcInfo g rt mem stack store = some (p0, store2) ∧
        store2 p0 = ⟨rt.None, rt.None, rt.None⟩ ∧
        store2 last = ⟨rt.None, rt.None, rt.None⟩) := by
  constructor
  · intro fpre fj fpost pre p hsplit hpre hp hempty htype hvalue htb
    rw [hsplit] at hwalk
    refine ⟨_, getFrameExcInfo_populated g rt mem stack store fpre fj fpost pre p hwalk hpre hp
      hempty htype hvalue htb, ?_⟩
    cases pre with
    | nil => simp
    | cons a rest => simp
  · intro p0 tl last hptrs hlast hempty hnone
    refine ⟨_, getFrameExcInfo_unpopulated g rt mem stack store frames p0 tl hwalk hptrs hempty
      hnone, ?_, ?_⟩
    · simp
    · simp [List.mem_of_getLast?_eq_some hlast]

/-- Instance of C18: on the sample stack the first two frames (FrameInfo at 1006 and 200)
have empty tuples and the third (at 3006) holds `(5, 6, 7)`; the call returns the top
frame's `ExcInfo`, which then holds `(5, 6, 7)`. -/
theorem getFrameExcInfo_first_populated_witness :
    (getFrameExcInfo excGlobals excRuntime zeroMemory excStack excStorePopulated).map
      (fun r => (r.1, r.2 r.1)) = some (1006, ⟨5, 6, 7⟩) := by
  obtain ⟨store2, h, hv⟩ :=
    (getFrameExcInfo_first_populated excGlobals excRuntime zeroMemory excStack
      excStorePopulated excFrames rfl).1 excFramesFirstTwo excFramesThird [] [1006, 200] 3006
      rfl (List.Forall₂.cons rfl (List.Forall₂.cons rfl List.Forall₂.nil)) rfl
      (by decide) (by decide) (by decide) (by decide)
  rw [h]
  simp only [Option.map_some', List.head?_cons, Option.getD_some] at hv ⊢
  rw [hv]
  rfl

/-- C19: after `getFrameExcInfo` returns, every frame the walk met before the first
populated frame (every visited frame when none was populated) holds a tuple equal to the
one returned. -/
theorem getFrameExcInfo_propagates (g : Globals) (rt : Runtime) (mem : Memory)
    (stack : List NativeFrame) (store : ExcStore) (frames : List PythonFrameIterator)
    (hwalk : unwindPythonFrames g rt stack = some frames) :
    (∀ (fpre : List PythonFrameIterator) (fj : PythonFrameIterator)
      (fpost : List PythonFrameIterator) (pre : List Nat) (p : Nat),
      frames = fpre ++ fj :: fpost →
      List.Forall₂ (fun it q => it.getFrameInfo rt g.heap mem = some q) fpre pre →
      fj.getFrameInfo rt g.heap mem = some p →
      (∀ q ∈ pre, (store q).type = 0) →
      (store p).type ≠ 0 → (store p).value ≠ 0 → (store p).traceback ≠ 0 →
      ∃ r store2, getFrameExcInfo g rt mem stack store = some (r, store2) ∧
        ∀ q ∈ pre, store2 q = store2 r) ∧
    (∀ (p0 : Nat) (tl : List Nat),
      List.Forall₂ (fun it q => it.getFrameInfo rt g.heap mem = some q) frames (p0 :: tl) →
      (∀ q ∈ p0 :: tl, (store q).type = 0) → rt.None ≠ 0 →
      ∃ r store2, getFrameExcInfo g rt mem stack store = some (r, store2) ∧
        ∀ q ∈ p0 :: tl, store2 q = store2 r) := by
  constructor
  · intro fpre fj fpost pre p hsplit hpre hp hempty htype hvalue htb
    rw [hsplit] at hwalk
    refine ⟨_, _, getFrameExcInfo_populated g rt mem stack store fpre fj fpost pre p hwalk hpre
      hp hempty htype hvalue htb, ?_⟩
    intro q hq
    cases pre with
    | nil => simp at hq
    | cons a rest => simp [hq]
  · intro p0 tl hptrs hempty hnone
    refine ⟨_, _, getFrameExcInfo_unpopulated g rt mem stack store frames p0 tl hwalk hptrs
      hempty hnone, ?_⟩
    intro q hq
    simp [hq]

/-- Instance of C19: on the sample stack with no populated tuple, the three visited frames
(FrameInfo at 1006, 200 and 3006) all hold the returned tuple after the call. -/
theorem getFrameExcInfo_propagates_witness :
    (getFrameExcInfo excGlobals excRuntime zeroMemory excStack excStoreEmpty).map
      (fun r => (decide (r.2 1006 = r.2 r.1), decide (r.2 200 = r.2 r.1),
        decide (r.2 3006 = r.2 r.1))) = some (true, true, true) := by
  obtain ⟨r, store2, h, hall⟩ :=
    (getFrameExcInfo_propagates excGlobals excRuntime zeroMemory excStack excStoreEmpty
      excFrames rfl).2 1006 [200, 3006]
      (List.Forall₂.cons rfl (List.Forall₂.cons rfl (List.Forall₂.cons rfl List.Forall₂.nil)))
      (by decide) (by decide)
  rw [h]
  simp [hall 1006 (by simp), hall 200 (by simp), hall 3006 (by simp)]

theorem foldTrace_exc_facts (rt : Runtime) (heap : CFHeap) (mem : Memory) (store : ExcStore)
    (frames : List PythonFrameIterator) (a : Bool) :
    ∀ s s2 : ExcLoopState,
      foldTrace (frameExcInfoBody rt heap mem store) frames a s = some s2 →
      (frames = [] ∧ s2 = s) ∨
      ∃ it0 rest0 p0 c E, frames = it0 :: rest0 ∧
        it0.getFrameInfo rt heap mem = some p0 ∧
        s2.cur_exc = some (match s.cur_exc with
                           | none => p0
                           | some x => x) ∧
        s2.copy_from_exc = some c ∧ s2.to_update = s.to_update ++ E ∧
        ((store c).type ≠ 0 ∨ c ∈ E) ∧ (p0 ∈ E ∨ (E = [] ∧ c = p0)) := by
  induction frames with
  | nil =>
    intro s s2 h
    rw [foldTrace] at h
    cases a with
    | true => simp at h
    | false =>
      simp only [Bool.false_eq_true, if_false, Option.some.injEq] at h
      exact Or.inl ⟨rfl, h.symm⟩
  | cons it rest ih =>
    intro s s2 h
    right
    rw [foldTrace] at h
    cases hfi : it.getFrameInfo rt heap mem with
    | none => simp [frameExcInfoBody, hfi] at h
    | some p =>
      by_cases hty : (store p).type = 0
      · simp only [frameExcInfoBody, hfi, hty, if_true] at h
        rcases ih _ s2 h with ⟨-, hs2⟩ | ⟨it1, rest1, p1, c, E, -, -, hcur, hcopy, hupd, hc, -⟩
        · subst hs2
          exact ⟨it, rest, p, p, [p], rfl, hfi, rfl, rfl, rfl, Or.inr (by simp),
            Or.inl (by simp)⟩
        · refine ⟨it, rest, p, c, p :: E, rfl, hfi, ?_, hcopy, ?_, ?_, Or.inl (by simp)⟩
          · rw [hcur]
          · rw [hupd]
            simp
          · rcases hc with hc | hc
            · exact Or.inl hc
            · exact Or.inr (by simp [hc])
      · simp only [frameExcInfoBody, hfi, hty, if_false, Option.some.injEq] at h
        subst h
        exact ⟨it, rest, p, p, [], rfl, hfi, rfl, rfl, by simp, Or.inl hty, Or.inr ⟨rfl, rfl⟩⟩

/-- C20: if a call of `getFrameExcInfo` succeeds, a second call on the state it leaves
(same stack, no intervening change) returns the same `ExcInfo` and writes nothing: the
exception tuples after the second call are those after the first. -/
theorem getFrameExcInfo_idempotent (g : Globals) (rt : Runtime) (mem : Memory)
    (stack : List NativeFrame) (store store2 : ExcStore) (r : Nat)
    (h : getFrameExcInfo g rt mem stack store = some (r, store2)) :
    getFrameExcInfo g rt mem stack store2 = some (r, store2) := by
  unfold getFrameExcInfo at h ⊢
  rw [unwindLoop_trace] at h ⊢
  cases hf : foldTrace (frameExcInfoBody rt g.heap mem store) (walkTrace g rt false stack).1
      (walkTrace g rt false stack).2 { to_update := [], copy_from_exc := none, cur_exc := none }
    with
  | none => rw [hf] at h; cases h
  | some s =>
    rw [hf] at h
    rcases foldTrace_exc_facts rt g.heap mem store _ _ _ s hf with
      ⟨-, hs⟩ | ⟨it0, rest0, p0, c, E, hframes, hfi, hcur, hcopy, hupd, hc, hp0⟩
    · subst hs
      cases h
    · simp only [hcopy, hcur] at h
      simp only [List.nil_append] at hupd
      generalize hs1 : (if (store c).type = 0 then
          Function.update store c ⟨rt.None, rt.None, rt.None⟩ else store) = store1 at h
      by_cases hv : (store1 c).value = 0
      · simp [hv] at h
      · by_cases ht : (store1 c).traceback = 0
        · simp [hv, ht] at h
        · simp only [hv, ht, if_false, Option.some.injEq, Prod.mk.injEq] at h
          obtain ⟨hr, hstore⟩ := h
          subst hr
          have htype : (store1 c).type ≠ 0 := by
            by_cases hz : (store c).type = 0
            · rw [if_pos hz] at hs1
              rw [← hs1] at hv ⊢
              simp only [Function.update_same] at hv ⊢
              exact hv
            · rw [if_neg hz] at hs1
              rw [← hs1]
              exact hz
          have hat : store2 p0 = store1 c := by
            rw [← hstore, hupd, updateLoop_apply]
            rcases hp0 with hin | ⟨hE, hcp⟩
            · simp [hin]
            · simp [hE, hcp]
          have hne : (store2 p0).type ≠ 0 := by rw [hat]; exact htype
          have hv2 : (store2 p0).value ≠ 0 := by rw [hat]; exact hv
          have ht2 : (store2 p0).traceback ≠ 0 := by rw [hat]; exact ht
          have h2 : foldTrace (frameExcInfoBody rt g.heap mem store2)
              (walkTrace g rt false stack).1 (walkTrace g rt false stack).2
              { to_update := [], copy_from_exc := none, cur_exc := none } =
              some { to_update := [], copy_from_exc := some p0, cur_exc := some p0 } := by
            rw [hframes, foldTrace]
            simp only [frameExcInfoBody, hfi, hne, if_false]
          rw [h2]
          simp only [hne, if_false, hv2, ht2, updateLoop]

/-- Instance of C20: the sample call on the stack with one populated frame succeeds, and
repeating it on the state it leaves returns the same pointer 1006. -/
theorem getFrameExcInfo_idempotent_witness :
    ((getFrameExcInfo excGlobals excRuntime zeroMemory excStack excStorePopulated).bind
      (fun r => getFrameExcInfo excGlobals excRuntime zeroMemory excStack r.2)).map
      (fun r => r.1) = some 1006 := by
  have hs : (getFrameExcInfo excGlobals excRuntime zeroMemory excStack
      excStorePopulated).isSome = true := by decide
  obtain ⟨⟨r, store2⟩, h⟩ := Option.isSome_iff_exists.mp hs
  have h1 : (getFrameExcInfo excGlobals excRuntime zeroMemory excStack
      excStorePopulated).map (fun r => r.1) = some 1006 := by decide
  rw [h] at h1
  simp only [Option.map_some', Option.some.injEq] at h1
  rw [h]
  simp only [Option.some_bind]
  rw [getFrameExcInfo_idempotent excGlobals excRuntime zeroMemory excStack excStorePopulated
    store2 r h]
  exact congrArg some h1


/-! ## Theorems: emission observer -/

theorem symbolLoop_cons (L : LoadedObjectInfo) (g : Globals) (sym : SymbolRef)
    (rest : List SymbolRef) :
    symbolLoop L g (sym :: rest) =
      if sym.isReadableFunction then
        if L.getSymbolLoadAddress (sym.getName.getD "") = 0 then Except.error g
        else
          match notifyFunctionSymbol g (L.getSymbolLoadAddress (sym.getName.getD ""))
              (sym.getSize.getD 0) with
          | none => Except.error g
          | some g2 => symbolLoop L g2 rest
      else if sym.getType = some SymbolType.ST_Function ∧ sym.getSize = none ∧
          ∃ n, sym.getName = some n ∧ L.getSymbolLoadAddress n = 0 then Except.error g
      else symbolLoop L g rest := by
  rw [symbolLoop]
  unfold SymbolRef.isReadableFunction
  cases hty : sym.getType with
  | none => simp
  | some t =>
    by_cases ht : t = SymbolType.ST_Function
    · subst ht
      cases hn : sym.getName with
      | none => simp
      | some n =>
        cases hs : sym.getSize with
        | none =>
          by_cases ha : L.getSymbolLoadAddress n = 0
          · simp [ha]
          · simp [ha]
        | some s => simp
    · simp [ht]

theorem isReadableFunction_iff (sym : SymbolRef) :
    sym.isReadableFunction = true ↔
      sym.getType = some SymbolType.ST_Function ∧ ∃ n s, sym.getName = some n ∧
        sym.getSize = some s := by
  unfold SymbolRef.isReadableFunction
  cases hn : sym.getName <;> cases hs : sym.getSize <;> simp

theorem symbolLoop_no_function (L : LoadedObjectInfo) (syms : List SymbolRef) :
    ∀ g : Globals, (∀ sym ∈ syms, sym.isReadableFunction = false) →
      symbolLoop L g syms = Except.ok g ∨ symbolLoop L g syms = Except.error g := by
  induction syms with
  | nil => intro g _; left; rw [symbolLoop]
  | cons sym rest ih =>
    intro g h
    rw [symbolLoop_cons, h sym (List.mem_cons_self _ _)]
    simp only [Bool.false_eq_true, if_false]
    split
    · right; rfl
    · exact ih g (fun s hs => h s (List.mem_cons_of_mem _ hs))

theorem symbolLoop_ok (L : LoadedObjectInfo) (syms : List SymbolRef) :
    ∀ g g2 : Globals, symbolLoop L g syms = Except.ok g2 →
      ∀ sym ∈ syms, ∀ n s, sym.getType = some SymbolType.ST_Function →
        sym.getName = some n → sym.getSize = some s →
        ∃ cf, g.cur_cf = some cf ∧ L.getSymbolLoadAddress n ≠ 0 ∧
          (g.heap cf).code_start = 0 ∧
          g2.heap = setCode g.heap cf (L.getSymbolLoadAddress n) s ∧
          g2.cur_cf = g.cur_cf ∧ g2.cf_registry = g.cf_registry.registerCF cf := by
  induction syms with
  | nil => intro g g2 _ sym hsym; cases hsym
  | cons hd rest ih =>
    intro g g2 h sym hsym n s hty hn hs
    rw [symbolLoop_cons] at h
    cases hr : hd.isReadableFunction with
    | false =>
      rw [hr] at h
      simp only [Bool.false_eq_true, if_false] at h
      split at h
      · cases h
      · rcases List.mem_cons.mp hsym with heq | hmem
        · subst heq
          have : sym.isReadableFunction = true :=
            (isReadableFunction_iff sym).mpr ⟨hty, n, s, hn, hs⟩
          rw [this] at hr
          cases hr
        · exact ih g g2 h sym hmem n s hty hn hs
    | true =>
      rw [hr] at h
      simp only [if_true] at h
      obtain ⟨-, n0, s0, hn0, hs0⟩ := (isReadableFunction_iff hd).mp hr
      rw [hn0, hs0] at h
      simp only [Option.getD_some] at h
      split at h
      · cases h
      · cases hnot : notifyFunctionSymbol g (L.getSymbolLoadAddress n0) s0 with
        | none => rw [hnot] at h; cases h
        | some g1 =>
          rw [hnot] at h
          simp only at h
          obtain ⟨cf, hcur, ha, hstart, hheap, hcur1, hreg⟩ :=
            notifyFunctionSymbol_some g g1 _ _ hnot
          have hbusy : (g1.heap cf).code_start ≠ 0 := by
            rw [hheap, (setCode_self _ _ _ _).1]
            exact ha
          have hnone : ∀ q ∈ rest, q.isReadableFunction = false := by
            intro q hq
            cases hqr : q.isReadableFunction with
            | false => rfl
            | true =>
              obtain ⟨hqt, qn, qs, hqn, hqs⟩ := (isReadableFunction_iff q).mp hqr
              obtain ⟨cf2, hc2, -, hz, -⟩ := ih g1 g2 h q hq qn qs hqt hqn hqs
              rw [hcur1, hcur] at hc2
              cases hc2
              exact absurd hz hbusy
          have hg2 : g2 = g1 := by
            rcases symbolLoop_no_function L rest g1 hnone with h1 | h1
            · rw [h1] at h
              cases h
              rfl
            · rw [h1] at h
              cases h
          subst hg2
          rcases List.mem_cons.mp hsym with heq | hmem
          · subst heq
            rw [hn0] at hn
            rw [hs0] at hs
            cases hn
            cases hs
            exact ⟨cf, hcur, ha, hstart, hheap, hcur1, hreg⟩
          · have : sym.isReadableFunction = true :=
              (isReadableFunction_iff sym).mpr ⟨hty, n, s, hn, hs⟩
            rw [hnone sym hmem] at this
            cases this

theorem symbolLoop_error (L : LoadedObjectInfo) (syms : List SymbolRef) :
    ∀ g g2 : Globals, symbolLoop L g syms = Except.error g2 →
      g2 = g ∨
      ∃ cf sym n s, sym ∈ syms ∧ sym.getType = some SymbolType.ST_Function ∧
        sym.getName = some n ∧ sym.getSize = some s ∧ g.cur_cf = some cf ∧
        (g.heap cf).code_start = 0 ∧ L.getSymbolLoadAddress n ≠ 0 ∧
        g2.heap = setCode g.heap cf (L.getSymbolLoadAddress n) s ∧
        g2.cur_cf = g.cur_cf ∧ g2.cf_registry = g.cf_registry.registerCF cf := by
  induction syms with
  | nil => intro g g2 h; rw [symbolLoop] at h; cases h
  | cons hd rest ih =>
    intro g g2 h
    rw [symbolLoop_cons] at h
    cases hr : hd.isReadableFunction with
    | false =>
      rw [hr] at h
      simp only [Bool.false_eq_true, if_false] at h
      split at h
      · cases h
        exact Or.inl rfl
      · rcases ih g g2 h with h1 | ⟨cf, sym, n, s, hm, h2⟩
        · exact Or.inl h1
        · exact Or.inr ⟨cf, sym, n, s, List.mem_cons_of_mem _ hm, h2⟩
    | true =>
      rw [hr] at h
      simp only [if_true] at h
      obtain ⟨hty0, n0, s0, hn0, hs0⟩ := (isReadableFunction_iff hd).mp hr
      rw [hn0, hs0] at h
      simp only [Option.getD_some] at h
      split at h
      · cases h
        exact Or.inl rfl
      · cases hnot : notifyFunctionSymbol g (L.getSymbolLoadAddress n0) s0 with
        | none =>
          rw [hnot] at h
          cases h
          exact Or.inl rfl
        | some g1 =>
          rw [hnot] at h
          simp only at h
          obtain ⟨cf, hcur, ha, hstart, hheap, hcur1, hreg⟩ :=
            notifyFunctionSymbol_some g g1 _ _ hnot
          have hbusy : (g1.heap cf).code_start ≠ 0 := by
            rw [hheap, (setCode_self _ _ _ _).1]
            exact ha
          rcases ih g1 g2 h with h1 | ⟨cf2, sym, n, s, -, -, -, -, hc2, hz, -⟩
          · subst h1
            exact Or.inr ⟨cf, hd, n0, s0, List.mem_cons_self _ _, hty0, hn0, hs0, hcur,
              hstart, ha, hheap, hcur1, hreg⟩
          · rw [hcur1, hcur] at hc2
            cases hc2
            exact absurd hz hbusy

theorem NotifyObjectEmitted_ok (mem : Memory) (st st2 : EmissionState) (Obj : ObjectFile)
    (L : LoadedObjectInfo) (h : NotifyObjectEmitted mem st Obj L = Except.ok st2) :
    (∃ cf, st.g.cur_cf = some cf) ∧ symbolLoop L st.g Obj.symbols = Except.ok st2.g ∧
    ∃ scan table, sectionLoop L {} Obj.sections = some scan ∧ scan.found_text = true ∧
      scan.found_eh_frame = true ∧
      parseEhFrame mem scan.eh_frame_addr scan.eh_frame_size = some table ∧
      st2.dyn_info_list = st.dyn_info_list ++
        [{ start_ip := scan.text_addr, end_ip := (scan.text_addr + scan.text_size) % U64,
           segbase := scan.eh_frame_addr, table := table }] := by
  unfold NotifyObjectEmitted at h
  cases hcur : st.g.cur_cf with
  | none => rw [hcur] at h; cases h
  | some cf =>
    rw [hcur] at h
    simp only at h
    cases hsl : symbolLoop L st.g Obj.symbols with
    | error g1 => rw [hsl] at h; cases h
    | ok g1 =>
      rw [hsl] at h
      simp only at h
      cases hsec : sectionLoop L {} Obj.sections with
      | none => rw [hsec] at h; cases h
      | some scan =>
        rw [hsec] at h
        simp only at h
        cases hft : scan.found_text with
        | false => simp [hft] at h
        | true =>
          cases hfe : scan.found_eh_frame with
          | false => simp [hft, hfe] at h
          | true =>
            simp only [hft, hfe, Bool.true_eq_false, if_false] at h
            cases hp : parseEhFrame mem scan.eh_frame_addr scan.eh_frame_size with
            | none => rw [hp] at h; cases h
            | some table =>
              rw [hp] at h
              simp only [Except.ok.injEq] at h
              subst h
              exact ⟨⟨cf, rfl⟩, rfl, scan, table, rfl, hft, hfe, hp, rfl⟩

theorem NotifyObjectEmitted_error (mem : Memory) (st st2 : EmissionState) (Obj : ObjectFile)
    (L : LoadedObjectInfo) (h : NotifyObjectEmitted mem st Obj L = Except.error st2) :
    st2.dyn_info_list = st.dyn_info_list ∧
    ((st.g.cur_cf = none ∧ st2.g = st.g) ∨
     symbolLoop L st.g Obj.symbols = Except.error st2.g ∨
     symbolLoop L st.g Obj.symbols = Except.ok st2.g) := by
  unfold NotifyObjectEmitted at h
  cases hcur : st.g.cur_cf with
  | none =>
    rw [hcur] at h
    simp only [Except.error.injEq] at h
    subst h
    exact ⟨rfl, Or.inl ⟨rfl, rfl⟩⟩
  | some cf =>
    rw [hcur] at h
    simp only at h
    cases hsl : symbolLoop L st.g Obj.symbols with
    | error g1 =>
      rw [hsl] at h
      simp only [Except.error.injEq] at h
      subst h
      exact ⟨rfl, Or.inr (Or.inl rfl)⟩
    | ok g1 =>
      rw [hsl] at h
      simp only at h
      have key : ∀ r : Except EmissionState EmissionState,
          r = Except.error { st with g := g1 } → r = Except.error st2 →
          st2.dyn_info_list = st.dyn_info_list ∧
          ((some cf = none ∧ st2.g = st.g) ∨ Except.ok g1 = (Except.error st2.g :
            Except Globals Globals) ∨ Except.ok g1 = (Except.ok st2.g :
            Except Globals Globals)) := by
        intro r h1 h2
        rw [h1] at h2
        simp only [Except.error.injEq] at h2
        subst h2
        exact ⟨rfl, Or.inr (Or.inr rfl)⟩
      cases hsec : sectionLoop L {} Obj.sections with
      | none => rw [hsec] at h; exact key _ rfl h
      | some scan =>
        rw [hsec] at h
        simp only at h
        cases hft : scan.found_text with
        | false => simp only [hft, if_true] at h; exact key _ rfl h
        | true =>
          cases hfe : scan.found_eh_frame with
          | false => simp only [hft, hfe, Bool.true_eq_false, if_false, if_true] at h; exact key _ rfl h
          | true =>
            simp only [hft, hfe, Bool.true_eq_false, if_false] at h
            cases hp : parseEhFrame mem scan.eh_frame_addr scan.eh_frame_size with
            | none => rw [hp] at h; exact key _ rfl h
            | some table => rw [hp] at h; cases h

/-- C21 fails as stated: the observer succeeds on an object whose `.text` section is loaded
at 12288 with 64 bytes and whose function symbol `f` is loaded at 12304 with 16 bytes, and
the active function 1 ends with `code_start = 12304` and `code_size = 16`, the address and
size of the symbol, not of the section. -/
theorem emitted_code_range_is_not_text_section :
    freshEmission.g.cur_cf = some 1 ∧
    emittedObject.sections.filter (fun sec => sec.getName = some ".text") =
      [⟨some ".text", 64⟩] ∧
    emittedLoaded.getSectionLoadAddress ".text" = 12288 ∧
    emissionView 1 (NotifyObjectEmitted ehFrameOk freshEmission emittedObject emittedLoaded) =
      (true, 12304, 16, [1]) := by
  decide

/-- C21 (amended): after the emission observer succeeds on an object that has a function
symbol whose name and size can be read, the active compiled function has `code_start`
equal to the load address of that symbol and `code_size` equal to the size of that symbol,
it is still the active function, and it is present in the registry. -/
theorem NotifyObjectEmitted_code_range (mem : Memory) (st st2 : EmissionState)
    (Obj : ObjectFile) (L : LoadedObjectInfo)
    (h : NotifyObjectEmitted mem st Obj L = Except.ok st2)
    (cf : CFPtr) (hcur : st.g.cur_cf = some cf)
    (sym : SymbolRef) (hsym : sym ∈ Obj.symbols) (n : String) (s : Nat)
    (hty : sym.getType = some SymbolType.ST_Function) (hn : sym.getName = some n)
    (hs : sym.getSize = some s) :
    (st2.g.heap cf).code_start = L.getSymbolLoadAddress n ∧
    (st2.g.heap cf).code_size = s ∧
    st2.g.cur_cf = some cf ∧
    cf ∈ st2.g.cf_registry.cfs := by
  obtain ⟨-, hloop, -⟩ := NotifyObjectEmitted_ok mem st st2 Obj L h
  obtain ⟨cf2, hc2, -, -, hheap, hcur2, hreg⟩ :=
    symbolLoop_ok L Obj.symbols st.g st2.g hloop sym hsym n s hty hn hs
  rw [hcur] at hc2
  cases hc2
  refine ⟨?_, ?_, ?_, ?_⟩
  · rw [hheap, (setCode_self _ _ _ _).1]
  · rw [hheap, (setCode_self _ _ _ _).2]
  · rw [hcur2, hcur]
  · rw [hreg]
    simp [CFRegistry.registerCF]

/-- Instance of C21 (amended): on the sample object the active function 1 gets the load
address and the size of the function symbol `f` and is registered. -/
theorem NotifyObjectEmitted_code_range_witness :
    (emittedState.g.heap 1).code_start = emittedLoaded.getSymbolLoadAddress "f" ∧
    (emittedState.g.heap 1).code_size = 16 ∧
    emittedState.g.cur_cf = some 1 ∧
    1 ∈ emittedState.g.cf_registry.cfs :=
  NotifyObjectEmitted_code_range ehFrameOk freshEmission emittedState emittedObject
    emittedLoaded rfl 1 rfl ⟨some SymbolType.ST_Function, some "f", some 16⟩ (by decide)
    "f" 16 rfl rfl rfl

/-- C22 fails as stated: the active function 1 has `code_start = 4096`, and the observer
still succeeds on an object that has both sections and no function symbol. -/
theorem emission_accepts_nonzero_code_start :
    staleEmission.g.cur_cf = some 1 ∧
    (staleEmission.g.heap 1).code_start = 4096 ∧
    emissionView 1
      (NotifyObjectEmitted ehFrameOk staleEmission symbolFreeObject emittedLoaded) =
      (true, 4096, 16, [1]) := by
  decide

/-- C22 (amended): the emission observer fails on every emitted object when no active
compiled function is set, and it fails on every emitted object that has a function symbol
with readable name and size when the `code_start` of the active function is already
non-zero; whenever it succeeds, an active function was set, and its `code_start` was zero
before the call if the object has such a function symbol. -/
theorem NotifyObjectEmitted_rejected (mem : Memory) (st : EmissionState) (Obj : ObjectFile)
    (L : LoadedObjectInfo) :
    (st.g.cur_cf = none → NotifyObjectEmitted mem st Obj L = Except.error st) ∧
    (∀ cf, st.g.cur_cf = some cf → (st.g.heap cf).code_start ≠ 0 →
      (∃ sym ∈ Obj.symbols, sym.isReadableFunction = true) →
      ∃ st2, NotifyObjectEmitted mem st Obj L = Except.error st2) ∧
    (∀ st2, NotifyObjectEmitted mem st Obj L = Except.ok st2 →
      ∃ cf, st.g.cur_cf = some cf ∧
        ((∃ sym ∈ Obj.symbols, sym.isReadableFunction = true) →
          (st.g.heap cf).code_start = 0)) := by
  have hok : ∀ st2, NotifyObjectEmitted mem st Obj L = Except.ok st2 →
      ∃ cf, st.g.cur_cf = some cf ∧
        ((∃ sym ∈ Obj.symbols, sym.isReadableFunction = true) →
          (st.g.heap cf).code_start = 0) := by
    intro st2 h
    obtain ⟨⟨cf, hcur⟩, hloop, -⟩ := NotifyObjectEmitted_ok mem st st2 Obj L h
    refine ⟨cf, hcur, ?_⟩
    rintro ⟨sym, hsym, hr⟩
    obtain ⟨hty, n, s, hn, hs⟩ := (isReadableFunction_iff sym).mp hr
    obtain ⟨cf2, hc2, -, hz, -⟩ :=
      symbolLoop_ok L Obj.symbols st.g st2.g hloop sym hsym n s hty hn hs
    rw [hcur] at hc2
    cases hc2
    exact hz
  refine ⟨?_, ?_, hok⟩
  · intro hnone
    unfold NotifyObjectEmitted
    rw [hnone]
  · intro cf hcur hbusy hfun
    cases hres : NotifyObjectEmitted mem st Obj L with
    | error st2 => exact ⟨st2, rfl⟩
    | ok st2 =>
      obtain ⟨cf2, hc2, hz⟩ := hok st2 hres
      rw [hcur] at hc2
      cases hc2
      exact absurd (hz hfun) hbusy

/-- Instance of C22 (amended): with no active function the observer fails on the sample
object and leaves the state as it was; with the active function 1 already emitted at 4096
it fails on the sample object, which has the function symbol `f`. -/
theorem NotifyObjectEmitted_rejected_witness :
    NotifyObjectEmitted ehFrameOk idleEmission emittedObject emittedLoaded =
      Except.error idleEmission ∧
    (NotifyObjectEmitted ehFrameOk staleEmission emittedObject emittedLoaded).isOk = false :=
  ⟨(NotifyObjectEmitted_rejected ehFrameOk idleEmission emittedObject emittedLoaded).1 rfl,
   by
    obtain ⟨st2, h⟩ :=
      (NotifyObjectEmitted_rejected ehFrameOk staleEmission emittedObject emittedLoaded).2.1
        1 rfl (by decide) ⟨⟨some SymbolType.ST_Function, some "f", some 16⟩, by decide, rfl⟩
    rw [h]
    rfl⟩

/-- C23 fails as stated: on an object with the function symbol `f` and no `.text` section
the observer fails, and at that point the active function 1, whose `code_start` and
`code_size` were 0 and which was not registered, has `code_start = 12304`,
`code_size = 16` and is in the registry. -/
theorem emission_failure_after_registration :
    freshEmission.g.cur_cf = some 1 ∧
    (freshEmission.g.heap 1).code_start = 0 ∧ (freshEmission.g.heap 1).code_size = 0 ∧
    freshEmission.g.cf_registry.cfs = [] ∧
    textFreeObject.sections.filter (fun sec => sec.getName = some ".text") = [] ∧
    emissionView 1
      (NotifyObjectEmitted ehFrameOk freshEmission textFreeObject emittedLoaded) =
      (false, 12304, 16, [1]) := by
  decide

/-- C23 (amended): whenever the emission observer fails on an object, nothing has been
handed to the unwinder and the active-function slot is as before; if the object has no
function symbol with readable name and size, the registry and every record are as before
the call; in general either they are as before, or the only change is the one the symbol
loop makes before the sections are looked at: the active function has received the load
address and size of a function symbol and has been appended to the registry. The latter is
the case whenever the symbol loop completed and the object has such a symbol, that is,
whenever the failure is a missing or duplicate section or a rejected `.eh_frame`. -/
theorem NotifyObjectEmitted_failure_state (mem : Memory) (st st2 : EmissionState)
    (Obj : ObjectFile) (L : LoadedObjectInfo)
    (h : NotifyObjectEmitted mem st Obj L = Except.error st2) :
    st2.dyn_info_list = st.dyn_info_list ∧ st2.g.cur_cf = st.g.cur_cf ∧
    ((∀ sym ∈ Obj.symbols, sym.isReadableFunction = false) →
      st2.g.heap = st.g.heap ∧ st2.g.cf_registry = st.g.cf_registry) ∧
    ((st2.g.heap = st.g.heap ∧ st2.g.cf_registry = st.g.cf_registry) ∨
      ∃ cf sym n s, sym ∈ Obj.symbols ∧ sym.getType = some SymbolType.ST_Function ∧
        sym.getName = some n ∧ sym.getSize = some s ∧ st.g.cur_cf = some cf ∧
        st2.g.heap = setCode st.g.heap cf (L.getSymbolLoadAddress n) s ∧
        st2.g.cf_registry = st.g.cf_registry.registerCF cf) ∧
    (∀ g1, symbolLoop L st.g Obj.symbols = Except.ok g1 →
      ∀ sym ∈ Obj.symbols, ∀ n s, sym.getType = some SymbolType.ST_Function →
        sym.getName = some n → sym.getSize = some s →
        ∃ cf, st.g.cur_cf = some cf ∧
          st2.g.heap = setCode st.g.heap cf (L.getSymbolLoadAddress n) s ∧
          st2.g.cf_registry = st.g.cf_registry.registerCF cf) := by
  obtain ⟨hdyn, hcases⟩ := NotifyObjectEmitted_error mem st st2 Obj L h
  refine ⟨hdyn, ?_, ?_, ?_, ?_⟩
  · rcases hcases with ⟨-, hg⟩ | herr | hok
    · rw [hg]
    · rcases symbolLoop_error L Obj.symbols st.g st2.g herr with h1 | ⟨_, _, _, _, h2⟩
      · rw [h1]
      · exact h2.2.2.2.2.2.2.2.2.1
    · by_cases hex : ∃ sym ∈ Obj.symbols, sym.isReadableFunction = true
      · obtain ⟨sym, hsym, hr⟩ := hex
        obtain ⟨hty, n, s, hn, hs⟩ := (isReadableFunction_iff sym).mp hr
        obtain ⟨cf, -, -, -, -, hc, -⟩ :=
          symbolLoop_ok L Obj.symbols st.g st2.g hok sym hsym n s hty hn hs
        exact hc
      · have hnone : ∀ sym ∈ Obj.symbols, sym.isReadableFunction = false := by
          intro sym hsym
          cases hr : sym.isReadableFunction with
          | false => rfl
          | true => exact absurd ⟨sym, hsym, hr⟩ hex
        rcases symbolLoop_no_function L Obj.symbols st.g hnone with h1 | h1
        · rw [h1] at hok
          simp only [Except.ok.injEq] at hok
          rw [← hok]
        · rw [h1] at hok
          cases hok
  · intro hnone
    rcases hcases with ⟨-, hg⟩ | herr | hok
    · rw [hg]
      exact ⟨rfl, rfl⟩
    · rcases symbolLoop_no_function L Obj.symbols st.g hnone with h1 | h1
      · rw [h1] at herr
        cases herr
      · rw [h1] at herr
        simp only [Except.error.injEq] at herr
        rw [← herr]
        exact ⟨rfl, rfl⟩
    · rcases symbolLoop_no_function L Obj.symbols st.g hnone with h1 | h1
      · rw [h1] at hok
        simp only [Except.ok.injEq] at hok
        rw [← hok]
        exact ⟨rfl, rfl⟩
      · rw [h1] at hok
        cases hok
  · rcases hcases with ⟨-, hg⟩ | herr | hok
    · left
      rw [hg]
      exact ⟨rfl, rfl⟩
    · rcases symbolLoop_error L Obj.symbols st.g st2.g herr with h1 |
        ⟨cf, sym, n, s, hm, hty, hn, hs, hcur, -, -, hheap, -, hreg⟩
      · left
        rw [h1]
        exact ⟨rfl, rfl⟩
      · exact Or.inr ⟨cf, sym, n, s, hm, hty, hn, hs, hcur, hheap, hreg⟩
    · by_cases hex : ∃ sym ∈ Obj.symbols, sym.isReadableFunction = true
      · obtain ⟨sym, hsym, hr⟩ := hex
        obtain ⟨hty, n, s, hn, hs⟩ := (isReadableFunction_iff sym).mp hr
        obtain ⟨cf, hcur, -, -, hheap, -, hreg⟩ :=
          symbolLoop_ok L Obj.symbols st.g st2.g hok sym hsym n s hty hn hs
        exact Or.inr ⟨cf, sym, n, s, hsym, hty, hn, hs, hcur, hheap, hreg⟩
      · have hnone : ∀ sym ∈ Obj.symbols, sym.isReadableFunction = false := by
          intro sym hsym
          cases hr : sym.isReadableFunction with
          | false => rfl
          | true => exact absurd ⟨sym, hsym, hr⟩ hex
        left
        rcases symbolLoop_no_function L Obj.symbols st.g hnone with h1 | h1
        · rw [h1] at hok
          simp only [Except.ok.injEq] at hok
          rw [← hok]
          exact ⟨rfl, rfl⟩
        · rw [h1] at hok
          cases hok
  · intro g1 hg1 sym hsym n s hty hn hs
    have hok : symbolLoop L st.g Obj.symbols = Except.ok st2.g := by
      rcases hcases with ⟨hnone, -⟩ | herr | hok
      · exfalso
        obtain ⟨cf, hcur, -⟩ := symbolLoop_ok L Obj.symbols st.g g1 hg1 sym hsym n s hty hn hs
        rw [hnone] at hcur
        cases hcur
      · rw [hg1] at herr
        cases herr
      · exact hok
    obtain ⟨cf, hcur, -, -, hheap, -, hreg⟩ :=
      symbolLoop_ok L Obj.symbols st.g st2.g hok sym hsym n s hty hn hs
    exact ⟨cf, hcur, hheap, hreg⟩

/-- Instance of C23 (amended): on the sample object without a `.text` section the observer
fails after its symbol loop has completed, hands nothing to the unwinder, and leaves the
active function 1 with the address 12304 and the size 16 of the symbol `f`, appended to
the registry. -/
theorem NotifyObjectEmitted_failure_state_witness :
    textFreeState.dyn_info_list = freshEmission.dyn_info_list ∧
    textFreeState.g.cur_cf = freshEmission.g.cur_cf ∧
    (textFreeState.g.heap 1).code_start = 12304 ∧
    textFreeState.g.cf_registry = freshEmission.g.cf_registry.registerCF 1 := by
  have h := NotifyObjectEmitted_failure_state ehFrameOk freshEmission textFreeState
    textFreeObject emittedLoaded rfl
  obtain ⟨cf, hcur, hheap, hreg⟩ := h.2.2.2.2
    { freshGlobals with heap := setCode freshGlobals.heap 1 12304 16,
                        cf_registry := freshGlobals.cf_registry.registerCF 1 } rfl
    ⟨some SymbolType.ST_Function, some "f", some 16⟩ (by decide) "f" 16 rfl rfl rfl
  have hcf : cf = 1 := by
    have h1 : freshEmission.g.cur_cf = some 1 := rfl
    rw [h1] at hcur
    cases hcur
    rfl
  subst hcf
  refine ⟨h.1, h.2.1, ?_, hreg⟩
  rw [hheap]
  rfl

/-! ## Theorems: disabled introspection -/

theorem disabled_traceback_first_call (g : Globals) (rt : Runtime) (mem : Memory)
    (stack : List NativeFrame) (st : TracebackState) (h : st.printed_warning = false) :
    getTracebackEntries false g rt mem stack st =
      some ([], { printed_warning := true,
                  stderr := st.stderr ++
                    ["Warning: can't get traceback since ENABLE_FRAME_INTROSPECTION=0\n"] }) := by
  unfold getTracebackEntries
  simp [h]

theorem disabled_traceback_later_call (g : Globals) (rt : Runtime) (mem : Memory)
    (stack : List NativeFrame) (st : TracebackState) (h : st.printed_warning = true) :
    getTracebackEntries false g rt mem stack st = some ([], st) := by
  unfold getTracebackEntries
  simp [h]

theorem tracebackCalls_disabled_later (calls : List TracebackCall) :
    ∀ st : TracebackState, st.printed_warning = true →
      tracebackCalls false calls st = some (List.replicate calls.length [], st) := by
  induction calls with
  | nil => intro st _; rfl
  | cons c rest ih =>
    intro st h
    rw [tracebackCalls, disabled_traceback_later_call c.g c.rt c.mem c.stack st h]
    simp only
    rw [ih st h]
    rfl

/-- C24: with frame introspection disabled and the static flag in its initial state, the
first call of `getTracebackEntries` returns an empty vector and appends the one warning
line to the diagnostic stream; every call made once the flag is set returns an empty
vector and leaves the stream and the flag as they are; so a sequence of `n >= 1` calls
returns `n` empty vectors and leaves exactly that one line behind. -/
theorem getTracebackEntries_disabled (c : TracebackCall) (calls : List TracebackCall)
    (st : TracebackState) (h0 : st.printed_warning = false) :
    getTracebackEntries false c.g c.rt c.mem c.stack st =
      some ([], { printed_warning := true,
                  stderr := st.stderr ++
                    ["Warning: can't get traceback since ENABLE_FRAME_INTROSPECTION=0\n"] }) ∧
    (∀ (c2 : TracebackCall) (st2 : TracebackState), st2.printed_warning = true →
      getTracebackEntries false c2.g c2.rt c2.mem c2.stack st2 = some ([], st2)) ∧
    tracebackCalls false (c :: calls) st =
      some (List.replicate (calls.length + 1) [],
            { printed_warning := true,
              stderr := st.stderr ++
                ["Warning: can't get traceback since ENABLE_FRAME_INTROSPECTION=0\n"] }) := by
  refine ⟨disabled_traceback_first_call c.g c.rt c.mem c.stack st h0, ?_, ?_⟩
  · intro c2 st2 h2
    exact disabled_traceback_later_call c2.g c2.rt c2.mem c2.stack st2 h2
  · rw [tracebackCalls, disabled_traceback_first_call c.g c.rt c.mem c.stack st h0]
    simp only
    rw [tracebackCalls_disabled_later calls _ rfl]
    rfl

/-- Instance of C24: three calls in a row on the traceback sample, starting with an empty
diagnostic stream, return three empty vectors and leave the single warning line. -/
theorem getTracebackEntries_disabled_witness :
    tracebackCalls false [sampleTracebackCall, sampleTracebackCall, sampleTracebackCall]
      ⟨false, []⟩ =
      some ([[], [], []],
            ⟨true, ["Warning: can't get traceback since ENABLE_FRAME_INTROSPECTION=0\n"]⟩) :=
  (getTracebackEntries_disabled sampleTracebackCall [sampleTracebackCall, sampleTracebackCall]
    ⟨false, []⟩ rfl).2.2

/-! ## Theorems: no Python frame -/

theorem incrLoop_no_python (g : Globals) (rt : Runtime) (stack : List NativeFrame)
    (hno : ∀ f ∈ stack, getCFForAddress g f.ip = none ∧
      f.proc_start ≠ some rt.interpreter_instr_addr) :
    ∀ (w : Bool) (it : PythonFrameIterator),
      PythonFrameIterator.incrLoop g rt w it stack = none ∨
      ∃ it2, PythonFrameIterator.incrLoop g rt w it stack = some (false, it2) := by
  induction stack with
  | nil => intro w it; right; exact ⟨it, by rw [PythonFrameIterator.incrLoop]⟩
  | cons f rest ih =>
    intro w it
    obtain ⟨hmiss, hproc⟩ := hno f (List.mem_cons_self _ _)
    have hrest := ih (fun q hq => hno q (List.mem_cons_of_mem _ hq))
    rw [PythonFrameIterator.incrLoop]
    simp only [hmiss]
    cases hp : f.proc_start with
    | none => left; rfl
    | some start_ip =>
      have hne : start_ip ≠ rt.interpreter_instr_addr := by
        intro heq
        rw [hp, heq] at hproc
        exact hproc rfl
      simp only [hne, if_false]
      exact hrest w _

theorem begin_no_python (g : Globals) (rt : Runtime) (stack : List NativeFrame)
    (hno : ∀ f ∈ stack, getCFForAddress g f.ip = none ∧
      f.proc_start ≠ some rt.interpreter_instr_addr) :
    PythonFrameIterator.begin g rt stack = none ∨
    PythonFrameIterator.begin g rt stack = some none := by
  unfold PythonFrameIterator.begin PythonFrameIterator.incr
  simp only
  rcases incrLoop_no_python g rt stack hno false
    { id := ⟨FrameType.COMPILED, 0⟩, cursor := { regs := fun _ => none, outer := stack },
      cf := none, cur_is_osr := false } with h | ⟨it2, h⟩
  · left; rw [h]
  · right; rw [h]; rfl

/-- C25: on a native stack with no Python frame (no frame whose instruction pointer the
registry knows and no frame of the interpreter trampoline) `getTopCompiledFunction` and
`getFrameExcInfo` fail instead of returning a value, whatever the exception tuples in
memory are. -/
theorem no_python_frame_is_fatal (g : Globals) (rt : Runtime) (mem : Memory)
    (stack : List NativeFrame) (store : ExcStore)
    (hno : ∀ f ∈ stack, getCFForAddress g f.ip = none ∧
      f.proc_start ≠ some rt.interpreter_instr_addr) :
    getTopCompiledFunction g rt stack = none ∧
    getFrameExcInfo g rt mem stack store = none := by
  constructor
  · unfold getTopCompiledFunction getTopPythonFrame
    rcases begin_no_python g rt stack hno with h | h <;> rw [h]
  · unfold getFrameExcInfo unwindLoop
    rcases begin_no_python g rt stack hno with h | h
    · rw [h]
    · rw [h]
      simp only [forPythonFrames_none]

/-- Instance of C25: on a stack of two foreign frames, with the sample registry, both
queries fail. -/
theorem no_python_frame_is_fatal_witness :
    getTopCompiledFunction walkGlobals walkRuntime foreignStack = none ∧
    getFrameExcInfo walkGlobals walkRuntime zeroMemory foreignStack excStoreEmpty = none :=
  no_python_frame_is_fatal walkGlobals walkRuntime zeroMemory foreignStack excStoreEmpty
    (by decide)

/-! ## Theorems: successive OSR frames -/

theorem coalesceFrom_two_osr (a b c : PythonFrameIterator) (post : List PythonFrameIterator)
    (ha : a.cur_is_osr = true) (hb : b.cur_is_osr = true) :
    ∀ (pre : List PythonFrameIterator) (w : Bool),
      coalesceFrom w (pre ++ a :: b :: c :: post) =
        coalesceFrom w (pre ++ [a]) ++ coalesceFrom c.cur_is_osr post := by
  intro pre
  induction pre with
  | nil =>
    intro w
    cases w <;> simp [coalesceFrom, ha, hb]
  | cons p rest ih =>
    intro w
    cases w <;> simp [coalesceFrom, ih]

/-- C26 fails as stated: the sample stack has four Python frames, the first two of them OSR
continuations, and the walk does not fail: it yields the first frame and the fourth and
silently discards the second and the third. -/
theorem walker_accepts_successive_osr :
    doubleOsrFrames.map (fun it => it.cur_is_osr) = [true, true, false, false] ∧
    (unwindPythonFrames walkGlobals walkRuntime doubleOsrStack).map (List.map frameView) =
      some [(⟨FrameType.COMPILED, 8200⟩, some 2), (⟨FrameType.COMPILED, 4104⟩, some 1)] := by
  decide

/-- C26 (amended): two successive OSR continuations are no failure of the walker. On every
native stack whose frames the walker can classify, with Python frames `ps`, the walk
succeeds and yields exactly the frames of `ps` whose preceding Python frame is not an OSR
continuation; where two successive frames `a`, `b` of `ps` are both OSR continuations, `b`
and the Python frame `c` after it are discarded and the walk goes on behind `c`. -/
theorem walker_successive_osr (g : Globals) (rt : Runtime) (stack : List NativeFrame)
    (ps : List PythonFrameIterator) (hps : pythonFramesOf g rt stack = some ps) :
    unwindPythonFrames g rt stack = some (coalesceFrom false ps) ∧
    ∀ (pre : List PythonFrameIterator) (a b c : PythonFrameIterator)
      (post : List PythonFrameIterator),
      ps = pre ++ a :: b :: c :: post → a.cur_is_osr = true → b.cur_is_osr = true →
      unwindPythonFrames g rt stack =
        some (coalesceFrom false (pre ++ [a]) ++ coalesceFrom c.cur_is_osr post) := by
  have hwalk : unwindPythonFrames g rt stack = some (coalesceFrom false ps) := by
    rw [unwindPythonFrames_eq, walkTrace_of_pythonFrames g rt stack ps false hps]
    simp
  refine ⟨hwalk, ?_⟩
  intro pre a b c post hsplit ha hb
  rw [hwalk, hsplit, coalesceFrom_two_osr a b c post ha hb pre false]

/-- Instance of C26 (amended): on the sample stack with two successive OSR frames the walk
succeeds with the first and the fourth Python frame. -/
theorem walker_successive_osr_witness :
    (unwindPythonFrames walkGlobals walkRuntime doubleOsrStack).map (List.map frameView) =
      some [(⟨FrameType.COMPILED, 8200⟩, some 2), (⟨FrameType.COMPILED, 4104⟩, some 1)] := by
  have h := (walker_successive_osr walkGlobals walkRuntime doubleOsrStack doubleOsrFrames
    rfl).1
  rw [h]
  decide

/-! ## Theorems: the walk is bounded by the call depth -/

theorem incrLoopSteps_cons (g : Globals) (rt : Runtime) (w : Bool) (it : PythonFrameIterator)
    (f : NativeFrame) (rest : List NativeFrame) :
    PythonFrameIterator.incrLoopSteps g rt w it (f :: rest) =
      match frameIterator g rt f rest with
      | none => ([true], none)
      | some none =>
        (true :: (PythonFrameIterator.incrLoopSteps g rt w
            { it with cursor := { regs := f.regs, outer := rest }, cf := none } rest).1,
         (PythonFrameIterator.incrLoopSteps g rt w
            { it with cursor := { regs := f.regs, outer := rest }, cf := none } rest).2)
      | some (some it2) =>
        if w then
          (true :: (PythonFrameIterator.incrLoopSteps g rt it2.cur_is_osr it2 rest).1,
           (PythonFrameIterator.incrLoopSteps g rt it2.cur_is_osr it2 rest).2)
        else ([true], some (true, it2)) := by
  unfold frameIterator
  rw [PythonFrameIterator.incrLoopSteps]
  cases hcf : getCFForAddress g f.ip with
  | some cf => rfl
  | none =>
    simp only
    cases hp : f.proc_start with
    | none => rfl
    | some start_ip =>
      simp only
      by_cases hs : start_ip = rt.interpreter_instr_addr
      · simp only [hs, if_true]
        cases hi : rt.getCFForInterpretedFrame f.bp with
        | none => rfl
        | some cf => rfl
      · simp only [hs, if_false]

theorem incrLoopSteps_spec (g : Globals) (rt : Runtime) (stack : List NativeFrame) :
    ∀ (w : Bool) (it : PythonFrameIterator),
      (PythonFrameIterator.incrLoopSteps g rt w it stack).2 =
        PythonFrameIterator.incrLoop g rt w it stack ∧
      ((PythonFrameIterator.incrLoopSteps g rt w it stack).2 = none →
        ∃ k, 1 ≤ k ∧ k ≤ stack.length ∧
          (PythonFrameIterator.incrLoopSteps g rt w it stack).1 = List.replicate k true) ∧
      (∀ it2, (PythonFrameIterator.incrLoopSteps g rt w it stack).2 = some (false, it2) →
        (PythonFrameIterator.incrLoopSteps g rt w it stack).1 =
          List.replicate stack.length true ++ [false]) ∧
      (∀ it2, (PythonFrameIterator.incrLoopSteps g rt w it stack).2 = some (true, it2) →
        ∃ k, 1 ≤ k ∧ k + it2.cursor.outer.length = stack.length ∧
          (PythonFrameIterator.incrLoopSteps g rt w it stack).1 = List.replicate k true) := by
  induction stack with
  | nil =>
    intro w it
    rw [PythonFrameIterator.incrLoopSteps, PythonFrameIterator.incrLoop]
    refine ⟨rfl, ?_, ?_, ?_⟩
    · intro h; cases h
    · intro it2 _; rfl
    · intro it2 h; simp at h
  | cons f rest ih =>
    intro w it
    rw [incrLoopSteps_cons, incrLoop_cons]
    have step : ∀ (w2 : Bool) (it1 : PythonFrameIterator),
        (PythonFrameIterator.incrLoopSteps g rt w2 it1 rest).2 =
          PythonFrameIterator.incrLoop g rt w2 it1 rest ∧
        ((PythonFrameIterator.incrLoopSteps g rt w2 it1 rest).2 = none →
          ∃ k, 1 ≤ k ∧ k ≤ (f :: rest).length ∧
            true :: (PythonFrameIterator.incrLoopSteps g rt w2 it1 rest).1 =
              List.replicate k true) ∧
        (∀ it2, (PythonFrameIterator.incrLoopSteps g rt w2 it1 rest).2 = some (false, it2) →
          true :: (PythonFrameIterator.incrLoopSteps g rt w2 it1 rest).1 =
            List.replicate (f :: rest).length true ++ [false]) ∧
        (∀ it2, (PythonFrameIterator.incrLoopSteps g rt w2 it1 rest).2 = some (true, it2) →
          ∃ k, 1 ≤ k ∧ k + it2.cursor.outer.length = (f :: rest).length ∧
            true :: (PythonFrameIterator.incrLoopSteps g rt w2 it1 rest).1 =
              List.replicate k true) := by
      intro w2 it1
      obtain ⟨h0, h1, h2, h3⟩ := ih w2 it1
      refine ⟨h0, ?_, ?_, ?_⟩
      · intro h
        obtain ⟨k, -, hk, hlog⟩ := h1 h
        refine ⟨k + 1, by omega, by simp only [List.length_cons]; omega, ?_⟩
        rw [hlog, List.replicate_succ]
      · intro it2 h
        rw [h2 it2 h]
        simp [List.replicate_succ]
      · intro it2 h
        obtain ⟨k, -, hk, hlog⟩ := h3 it2 h
        refine ⟨k + 1, by omega, by simp only [List.length_cons]; omega, ?_⟩
        rw [hlog, List.replicate_succ]
    cases hfi : frameIterator g rt f rest with
    | none =>
      simp only
      refine ⟨trivial, ?_, ?_, ?_⟩
      · intro _
        exact ⟨1, le_refl 1, by simp, rfl⟩
      · intro it2 h; cases h
      · intro it2 h; cases h
    | some o =>
      cases o with
      | none =>
        simp only
        exact step w _
      | some itf =>
        simp only
        cases w with
        | true =>
          simp only [if_true]
          exact step itf.cur_is_osr itf
        | false =>
          simp only [Bool.false_eq_true, if_false]
          refine ⟨trivial, ?_, ?_, ?_⟩
          · intro h; cases h
          · intro it2 h; simp at h
          · intro it2 h
            simp only [Option.some.injEq, Prod.mk.injEq, true_and] at h
            subst h
            have hout : itf.cursor.outer = rest := frameIterator_outer g rt f rest itf hfi
            refine ⟨1, le_refl 1, ?_, rfl⟩
            rw [hout]
            simp only [List.length_cons]
            omega

theorem stepsWithin_length (m : Nat) (log : List Bool) (h : stepsWithin m log) :
    log.length ≤ m + 1 := by
  rcases h with ⟨k, hk, hlog⟩ | hlog
  · rw [hlog, List.length_replicate]
    omega
  · rw [hlog]
    simp

theorem stepsWithin_append (m k m2 : Nat) (log : List Bool) (hk : k + m2 = m)
    (h : stepsWithin m2 log) : stepsWithin m (List.replicate k true ++ log) := by
  rcases h with ⟨j, hj, hlog⟩ | hlog
  · left
    refine ⟨k + j, by omega, ?_⟩
    rw [hlog, List.replicate_add]
  · right
    rw [hlog, ← hk, List.replicate_add, List.append_assoc]

theorem replicate_true_split (m : Nat) :
    ∀ pre post : List Bool, List.replicate m true ++ [false] = pre ++ false :: post →
      pre = List.replicate m true ∧ post = [] := by
  induction m with
  | zero =>
    intro pre post h
    cases pre with
    | nil =>
      simp only [List.replicate_zero, List.nil_append, List.cons.injEq, true_and] at h
      exact ⟨rfl, h.symm⟩
    | cons x pre2 =>
      simp only [List.replicate_zero, List.nil_append, List.cons_append, List.cons.injEq] at h
      have h2 := h.2
      cases pre2 <;> simp at h2
  | succ n ih =>
    intro pre post h
    cases pre with
    | nil =>
      simp [List.replicate_succ] at h
    | cons x pre2 =>
      simp only [List.replicate_succ, List.cons_append, List.cons.injEq] at h
      obtain ⟨hx, hrest⟩ := h
      obtain ⟨h1, h2⟩ := ih pre2 post hrest
      refine ⟨?_, h2⟩
      rw [List.replicate_succ, ← hx, h1]

theorem stepsWithin_last (m : Nat) (log pre post : List Bool) (h : stepsWithin m log)
    (hsplit : log = pre ++ false :: post) : pre = List.replicate m true ∧ post = [] := by
  rcases h with ⟨k, -, hlog⟩ | hlog
  · exfalso
    have hmem : false ∈ log := by rw [hsplit]; simp
    rw [hlog] at hmem
    have := List.eq_of_mem_replicate hmem
    cases this
  · rw [hlog] at hsplit
    exact replicate_true_split m pre post hsplit

theorem forPythonFramesSteps_none {σ : Type} (g : Globals) (rt : Runtime)
    (body : σ → PythonFrameIterator → Option (LoopControl σ)) (fuel : Nat) (s : σ) :
    forPythonFramesSteps g rt body fuel none s = ([], some s) := by
  cases fuel <;> rw [forPythonFramesSteps]

theorem forPythonFramesSteps_spec {σ : Type} (g : Globals) (rt : Runtime)
    (body : σ → PythonFrameIterator → Option (LoopControl σ)) (fuel : Nat) :
    ∀ (it : PythonFrameIterator) (s : σ), it.cursor.outer.length < fuel →
      (forPythonFramesSteps g rt body fuel (some it) s).2 =
        forPythonFrames g rt body fuel (some it) s ∧
      stepsWithin it.cursor.outer.length (forPythonFramesSteps g rt body fuel (some it) s).1 ∧
      ((∀ s1 it1, ∃ s2, body s1 it1 = some (LoopControl.next s2)) →
        (forPythonFramesSteps g rt body fuel (some it) s).2 ≠ none →
        (forPythonFramesSteps g rt body fuel (some it) s).1 =
          List.replicate it.cursor.outer.length true ++ [false]) := by
  induction fuel with
  | zero => intro it s h; omega
  | succ n ih =>
    intro it s hfuel
    rw [forPythonFramesSteps, forPythonFrames]
    cases hb : body s it with
    | none =>
      refine ⟨rfl, Or.inl ⟨0, Nat.zero_le _, rfl⟩, ?_⟩
      intro _ h
      exact absurd rfl h
    | some c =>
      cases c with
      | stop s2 =>
        refine ⟨rfl, Or.inl ⟨0, Nat.zero_le _, rfl⟩, ?_⟩
        intro hall _
        obtain ⟨s3, hs3⟩ := hall s it
        rw [hb] at hs3
        cases hs3
      | next s2 =>
        simp only
        obtain ⟨h0, h1, h2, h3⟩ :=
          incrLoopSteps_spec g rt it.cursor.outer it.cur_is_osr it
        have hincr : (it.incrSteps g rt).2 = it.incr g rt := h0
        cases hr : (it.incrSteps g rt).2 with
        | none =>
          rw [← hincr, hr]
          simp only
          obtain ⟨k, -, hk, hlog⟩ := h1 hr
          refine ⟨trivial, Or.inl ⟨k, hk, hlog⟩, ?_⟩
          intro _ h
          exact absurd rfl h
        | some p =>
          obtain ⟨found, it2⟩ := p
          rw [← hincr, hr]
          simp only
          cases found with
          | false =>
            simp only [Bool.false_eq_true, if_false, forPythonFramesSteps_none,
              forPythonFrames_none, List.append_nil]
            have hlog := h2 it2 hr
            exact ⟨trivial, Or.inr hlog, fun _ _ => hlog⟩
          | true =>
            simp only [if_true]
            obtain ⟨k, hk1, hk, hlog⟩ := h3 it2 hr
            obtain ⟨i0, i1, i2⟩ := ih it2 s2 (by omega)
            have hlog2 : (it.incrSteps g rt).1 = List.replicate k true := hlog
            refine ⟨i0, ?_, ?_⟩
            · rw [hlog2]
              exact stepsWithin_append _ k _ _ hk i1
            · intro hall hne
              rw [hlog2, i2 hall hne, ← hk, List.replicate_add, List.append_assoc]

theorem unwindLoopSteps_spec {σ : Type} (g : Globals) (rt : Runtime)
    (stack : List NativeFrame) (body : σ → PythonFrameIterator → Option (LoopControl σ))
    (s : σ) :
    (unwindLoopSteps g rt stack body s).2 = unwindLoop g rt stack body s ∧
    stepsWithin stack.length (unwindLoopSteps g rt stack body s).1 ∧
    ((∀ s1 it1, ∃ s2, body s1 it1 = some (LoopControl.next s2)) →
      (unwindLoopSteps g rt stack body s).2 ≠ none →
      (unwindLoopSteps g rt stack body s).1 = List.replicate stack.length true ++ [false]) := by
  unfold unwindLoopSteps unwindLoop PythonFrameIterator.beginSteps PythonFrameIterator.begin
  simp only
  obtain ⟨h0, h1, h2, h3⟩ := incrLoopSteps_spec g rt stack false
    { id := ⟨FrameType.COMPILED, 0⟩, cursor := { regs := fun _ => none, outer := stack },
      cf := none, cur_is_osr := false }
  have hincr : (PythonFrameIterator.incrSteps g rt
      { id := ⟨FrameType.COMPILED, 0⟩, cursor := { regs := fun _ => none, outer := stack },
        cf := none, cur_is_osr := false }).2 =
      PythonFrameIterator.incr g rt
      { id := ⟨FrameType.COMPILED, 0⟩, cursor := { regs := fun _ => none, outer := stack },
        cf := none, cur_is_osr := false } := h0
  cases hr : (PythonFrameIterator.incrSteps g rt
      { id := ⟨FrameType.COMPILED, 0⟩, cursor := { regs := fun _ => none, outer := stack },
        cf := none, cur_is_osr := false }).2 with
  | none =>
    rw [← hincr, hr]
    simp only
    obtain ⟨k, -, hk, hlog⟩ := h1 hr
    refine ⟨trivial, Or.inl ⟨k, hk, hlog⟩, ?_⟩
    intro _ h
    exact absurd rfl h
  | some p =>
    obtain ⟨found, it2⟩ := p
    rw [← hincr, hr]
    simp only
    cases found with
    | false =>
      simp only [if_true, forPythonFramesSteps_none, forPythonFrames_none, List.append_nil]
      have hlog := h2 it2 hr
      exact ⟨trivial, Or.inr hlog, fun _ _ => hlog⟩
    | true =>
      simp only [Bool.true_eq_false, if_false]
      obtain ⟨k, hk1, hk, hlog⟩ := h3 it2 hr
      obtain ⟨i0, i1, i2⟩ :=
        forPythonFramesSteps_spec g rt body stack.length it2 s (by omega)
      have hlog2 : (PythonFrameIterator.incrSteps g rt
          { id := ⟨FrameType.COMPILED, 0⟩,
            cursor := { regs := fun _ => none, outer := stack },
            cf := none, cur_is_osr := false }).1 = List.replicate k true := hlog
      refine ⟨i0, ?_, ?_⟩
      · rw [hlog2]
        exact stepsWithin_append _ k _ _ hk i1
      · intro hall hne
        rw [hlog2, i2 hall hne, ← hk, List.replicate_add, List.append_assoc]

theorem walkTrace_length (g : Globals) (rt : Runtime) (stack : List NativeFrame) :
    ∀ w : Bool, (walkTrace g rt w stack).1.length ≤ stack.length := by
  induction stack with
  | nil => intro w; simp [walkTrace]
  | cons f rest ih =>
    intro w
    rw [walkTrace_cons]
    cases hfi : frameIterator g rt f rest with
    | none => simp
    | some o =>
      cases o with
      | none =>
        simp only [List.length_cons]
        exact Nat.le_succ_of_le (ih w)
      | some it =>
        simp only
        cases w with
        | true =>
          simp only [if_true, List.length_cons]
          exact Nat.le_succ_of_le (ih _)
        | false =>
          simp only [Bool.false_eq_true, if_false, List.length_cons]
          exact Nat.succ_le_succ (ih _)

theorem incrSteps_length (g : Globals) (rt : Runtime) (it : PythonFrameIterator) :
    (it.incrSteps g rt).2 = it.incr g rt ∧
    (it.incrSteps g rt).1.length ≤ it.cursor.outer.length + 1 := by
  obtain ⟨h0, h1, h2, h3⟩ := incrLoopSteps_spec g rt it.cursor.outer it.cur_is_osr it
  refine ⟨h0, ?_⟩
  unfold PythonFrameIterator.incrSteps
  cases hr : (PythonFrameIterator.incrLoopSteps g rt it.cur_is_osr it it.cursor.outer).2 with
  | none =>
    obtain ⟨k, -, hk, hlog⟩ := h1 hr
    rw [hlog, List.length_replicate]
    omega
  | some p =>
    obtain ⟨found, it2⟩ := p
    cases found with
    | false =>
      rw [h2 it2 hr]
      simp
    | true =>
      obtain ⟨k, -, hk, hlog⟩ := h3 it2 hr
      rw [hlog, List.length_replicate]
      omega

/-- C27: on a native stack of `n` frames every call of `incr()` returns, with the result of
the model `incr`, after at most one call of `unw_step` per frame still ahead of the cursor
plus one, its nested OSR-skip calls included; every range-for over the walk makes at most
`n + 1` calls of `unw_step` in total and none after the first one that returns `<= 0`; a
complete walk yields at most `n` frames and makes exactly the `n` calls that return `> 0`
followed by the one that returns `<= 0`. -/
theorem walk_bounded_by_call_depth (g : Globals) (rt : Runtime) (stack : List NativeFrame) :
    (∀ it : PythonFrameIterator,
      (it.incrSteps g rt).2 = it.incr g rt ∧
      (it.incrSteps g rt).1.length ≤ it.cursor.outer.length + 1) ∧
    (∀ (σ : Type) (body : σ → PythonFrameIterator → Option (LoopControl σ)) (s : σ),
      (unwindLoopSteps g rt stack body s).2 = unwindLoop g rt stack body s ∧
      (unwindLoopSteps g rt stack body s).1.length ≤ stack.length + 1 ∧
      ∀ pre post : List Bool, (unwindLoopSteps g rt stack body s).1 = pre ++ false :: post →
        pre = List.replicate stack.length true ∧ post = []) ∧
    (unwindPythonFramesSteps g rt stack).2 = unwindPythonFrames g rt stack ∧
    (∀ frames, unwindPythonFrames g rt stack = some frames →
      frames.length ≤ stack.length ∧
      (unwindPythonFramesSteps g rt stack).1 = List.replicate stack.length true ++ [false]) := by
  refine ⟨incrSteps_length g rt, ?_, ?_, ?_⟩
  · intro σ body s
    obtain ⟨h0, h1, -⟩ := unwindLoopSteps_spec g rt stack body s
    exact ⟨h0, stepsWithin_length _ _ h1, fun pre post h => stepsWithin_last _ _ pre post h1 h⟩
  · exact (unwindLoopSteps_spec g rt stack _ []).1
  · intro frames h
    constructor
    · have hw := unwindPythonFrames_some g rt stack frames h
      have hlen := walkTrace_length g rt stack false
      rw [hw] at hlen
      exact hlen
    · obtain ⟨h0, -, h2⟩ := unwindLoopSteps_spec g rt stack
        (fun (frames : List PythonFrameIterator) it => some (LoopControl.next (frames ++ [it])))
        []
      apply h2
      · intro s1 it1
        exact ⟨s1 ++ [it1], rfl⟩
      · rw [h0]
        have h3 : unwindLoop g rt stack
            (fun (frames : List PythonFrameIterator) it =>
              some (LoopControl.next (frames ++ [it]))) [] = some frames := h
        rw [h3]
        simp

/-- Instance of C27: the complete walk of the sample stack of five native frames makes five
calls of `unw_step` that return `> 0` and then the one that returns `<= 0`, and yields at
most five frames. -/
theorem walk_bounded_by_call_depth_witness :
    osrStackYielded.length ≤ osrStack.length ∧
    (unwindPythonFramesSteps walkGlobals walkRuntime osrStack).1 =
      List.replicate osrStack.length true ++ [false] :=
  (walk_bounded_by_call_depth walkGlobals walkRuntime osrStack).2.2.2 osrStackYielded rfl

/-! ## Theorems: frame effect of `getFrameExcInfo` -/

/-- C28: a call of `getFrameExcInfo` that walks the frames `frames` changes only the
exception tuples of the frames visited before the first populated frame: the tuple of the
first populated frame and every tuple stored elsewhere, such as those of the frames outward
of it, are after the call what they were before it. When no frame is populated, the tuples
that change are those of the visited frames, the last of which receives the sentinel, and
every other tuple is as before. -/
theorem getFrameExcInfo_frame_effect (g : Globals) (rt : Runtime) (mem : Memory)
    (stack : List NativeFrame) (store : ExcStore) (frames : List PythonFrameIterator)
    (hwalk : unwindPythonFrames g rt stack = some frames) :
    (∀ (fpre : List PythonFrameIterator) (fj : PythonFrameIterator)
      (fpost : List PythonFrameIterator) (pre : List Nat) (p : Nat),
      frames = fpre ++ fj :: fpost →
      List.Forall₂ (fun it q => it.getFrameInfo rt g.heap mem = some q) fpre pre →
      fj.getFrameInfo rt g.heap mem = some p →
      (∀ q ∈ pre, (store q).type = 0) →
      (store p).type ≠ 0 → (store p).value ≠ 0 → (store p).traceback ≠ 0 →
      ∃ r store2, getFrameExcInfo g rt mem stack store = some (r, store2) ∧
        (∀ q, q ∉ pre → store2 q = store q) ∧
        p ∉ pre ∧ store2 p = store p ∧
        (∀ it ∈ fpost, ∀ q, it.getFrameInfo rt g.heap mem = some q → q ∉ pre →
          store2 q = store q)) ∧
    (∀ (p0 : Nat) (tl : List Nat) (last : Nat),
      List.Forall₂ (fun it q => it.getFrameInfo rt g.heap mem = some q) frames (p0 :: tl) →
      (p0 :: tl).getLast? = some last →
      (∀ q ∈ p0 :: tl, (store q).type = 0) → rt.None ≠ 0 →
      ∃ r store2, getFrameExcInfo g rt mem stack store = some (r, store2) ∧
        (∀ q, q ∉ p0 :: tl → store2 q = store q) ∧
        store2 last = ⟨rt.None, rt.None, rt.None⟩) := by
  constructor
  · intro fpre fj fpost pre p hsplit hpre hp hempty htype hvalue htb
    rw [hsplit] at hwalk
    have hnot : p ∉ pre := fun hin => htype (hempty p hin)
    refine ⟨_, _, getFrameExcInfo_populated g rt mem stack store fpre fj fpost pre p hwalk hpre
      hp hempty htype hvalue htb, ?_, hnot, ?_, ?_⟩
    · intro q hq
      simp only [hq, if_false]
    · simp only [hnot, if_false]
    · intro it _ q _ hq
      simp only [hq, if_false]
  · intro p0 tl last hptrs hlast hempty hnone
    refine ⟨_, _, getFrameExcInfo_unpopulated g rt mem stack store frames p0 tl hwalk hptrs
      hempty hnone, ?_, ?_⟩
    · intro q hq
      simp only [hq, if_false]
    · simp only [List.mem_of_getLast?_eq_some hlast, if_true]

/-- Instance of C28: on the sample stack the first two frames (FrameInfo at 1006 and 200)
have empty tuples and the third (at 3006) holds `(5, 6, 7)`; after the call the tuple at
3006 is still `(5, 6, 7)` and the tuple at the unvisited address 4000 is still empty. -/
theorem getFrameExcInfo_frame_effect_witness :
    (getFrameExcInfo excGlobals excRuntime zeroMemory excStack excStorePopulated).map
      (fun r => (r.2 3006, r.2 4000)) = some (⟨5, 6, 7⟩, ⟨0, 0, 0⟩) := by
  obtain ⟨r, store2, h, hout, -, hp, -⟩ :=
    (getFrameExcInfo_frame_effect excGlobals excRuntime zeroMemory excStack
      excStorePopulated excFrames rfl).1 excFramesFirstTwo excFramesThird [] [1006, 200] 3006
      rfl (List.Forall₂.cons rfl (List.Forall₂.cons rfl List.Forall₂.nil)) rfl
      (by decide) (by decide) (by decide) (by decide)
  rw [h]
  simp only [Option.map_some']
  rw [hp, hout 4000 (by decide)]
  rfl

/-! ## Theorems: `_Py_HashPointer` -/

theorem hashPointer_rotation (p : Nat) (hp : p < 2 ^ 64) :
    (p >>> 4) ||| ((p <<< 60) % 2 ^ 64) = rotateRight4 p := by
  unfold rotateRight4
  have hhi : (p <<< 60) % 2 ^ 64 = 2 ^ 60 * (p % 16) := by
    rw [Nat.shiftLeft_eq]
    norm_num
    omega
  have hlo : p >>> 4 = p / 16 := by
    rw [Nat.shiftRight_eq_div_pow]
  have hlt : p / 16 < 2 ^ 60 := by
    norm_num at hp ⊢
    omega
  rw [hhi, hlo, Nat.lor_comm, ← Nat.mul_add_lt_is_or hlt]
  ring

theorem rotateRight4_lt (p : Nat) (hp : p < 2 ^ 64) : rotateRight4 p < 2 ^ 64 := by
  unfold rotateRight4
  norm_num at hp ⊢
  omega

/-- C29: for every 64-bit pointer value `p`, `_Py_HashPointer(p)` is not `-1`: it is `p`
rotated right by 4 bits, read as a signed 64-bit integer, except that it is `-2` when that
reading is `-1`. -/
theorem hashPointer_never_minus_one (p : Nat) (hp : p < 2 ^ 64) :
    _Py_HashPointer 8 p ≠ -1 ∧
    _Py_HashPointer 8 p =
      if asSigned64 (rotateRight4 p) = -1 then -2 else asSigned64 (rotateRight4 p) := by
  have hval : _Py_HashPointer 8 p =
      if asSigned64 (rotateRight4 p) = -1 then -2 else asSigned64 (rotateRight4 p) := by
    unfold _Py_HashPointer asSigned64
    simp only [Nat.mod_eq_of_lt hp, show 8 * 8 - 4 = 60 from rfl, show 8 * 8 = 64 from rfl,
      hashPointer_rotation p hp]
    norm_num
  refine ⟨?_, hval⟩
  rw [hval]
  split
  · decide
  · assumption

/-- Instance of C29: the all-ones pointer rotates to itself, which reads as `-1`, and the
function returns `-2`; the pointer 16 hashes to 1. -/
theorem hashPointer_never_minus_one_witness :
    _Py_HashPointer 8 (2 ^ 64 - 1) ≠ -1 ∧ _Py_HashPointer 8 (2 ^ 64 - 1) = -2 ∧
    _Py_HashPointer 8 16 = 1 :=
  ⟨(hashPointer_never_minus_one (2 ^ 64 - 1) (by decide)).1,
   by rw [(hashPointer_never_minus_one (2 ^ 64 - 1) (by decide)).2]; decide,
   by rw [(hashPointer_never_minus_one 16 (by decide)).2]; decide⟩

/-! ## Theorems: property accessors -/

theorem property_copy_spec (property_cls : Nat) (heap : PropertyHeap) (old : Nat)
    (o : BoxedProperty) (get set del : Option Nat)
    (hold : heap[old]? = some o) (hcls : o.cls = property_cls) :
    ∃ (new : Nat) (heap2 : PropertyHeap), property_copy property_cls heap old get set del = some (new, heap2) ∧
      new ≠ old ∧
      (∀ (a : Nat) (r : BoxedProperty), heap[a]? = some r → heap2[a]? = some r) ∧
      heap2[new]? = some
        { cls := o.cls
          prop_get := if get = none then o.prop_get else get
          prop_set := if set = none then o.prop_set else set
          prop_del := if del = none then o.prop_del else del
          prop_doc := o.prop_doc } := by
  have hlt : old < heap.length := by
    rcases List.getElem?_eq_some.mp hold with ⟨h, -⟩
    exact h
  refine ⟨heap.length,
    heap ++ [{ cls := property_cls
               prop_get := if get = none then o.prop_get else get
               prop_set := if set = none then o.prop_set else set
               prop_del := if del = none then o.prop_del else del
               prop_doc := o.prop_doc }], ?_, ?_, ?_, ?_⟩
  · unfold property_copy
    rw [hold]
    simp only [hcls, ne_eq, not_true_eq_false, if_false]
  · omega
  · intro a r ha
    have hal : a < heap.length := by
      rcases List.getElem?_eq_some.mp ha with ⟨h, -⟩
      exact h
    rw [List.getElem?_append_left hal]
    exact ha
  · rw [hcls]
    simp

/-- C30: for every property object `old` and every argument `f`, the property getter,
setter and deleter return a new object, different from `old`, whose get, set or del slot
respectively is `f` when `f` is non-null, and whose other two accessors and doc are those
of `old`; when `f` is null the new object equals `old` field for field; `old` and every
other object in memory are left as they were. -/
theorem property_accessor_copy (property_cls : Nat) (heap : PropertyHeap) (old : Nat)
    (o : BoxedProperty) (f : Option Nat)
    (hold : heap[old]? = some o) (hcls : o.cls = property_cls) :
    (∃ (new : Nat) (heap2 : PropertyHeap), propertyGetter property_cls heap old f = some (new, heap2) ∧ new ≠ old ∧
      heap2[old]? = some o ∧ (∀ (a : Nat) (r : BoxedProperty), heap[a]? = some r → heap2[a]? = some r) ∧
      (f = none → heap2[new]? = some o) ∧
      (∀ v, f = some v → heap2[new]? = some { o with prop_get := some v })) ∧
    (∃ (new : Nat) (heap2 : PropertyHeap), propertySetter property_cls heap old f = some (new, heap2) ∧ new ≠ old ∧
      heap2[old]? = some o ∧ (∀ (a : Nat) (r : BoxedProperty), heap[a]? = some r → heap2[a]? = some r) ∧
      (f = none → heap2[new]? = some o) ∧
      (∀ v, f = some v → heap2[new]? = some { o with prop_set := some v })) ∧
    (∃ (new : Nat) (heap2 : PropertyHeap), propertyDeleter property_cls heap old f = some (new, heap2) ∧ new ≠ old ∧
      heap2[old]? = some o ∧ (∀ (a : Nat) (r : BoxedProperty), heap[a]? = some r → heap2[a]? = some r) ∧
      (f = none → heap2[new]? = some o) ∧
      (∀ v, f = some v → heap2[new]? = some { o with prop_del := some v })) := by
  refine ⟨?_, ?_, ?_⟩
  · obtain ⟨new, heap2, h, hne, hkeep, hnew⟩ :=
      property_copy_spec property_cls heap old o f none none hold hcls
    refine ⟨new, heap2, ?_, hne, hkeep old o hold, hkeep, ?_, ?_⟩
    · unfold propertyGetter
      rw [hold]
      simp only [hcls, ne_eq, not_true_eq_false, if_false]
      exact h
    · intro hf
      rw [hnew, hf]
      simp
    · intro v hf
      rw [hnew, hf]
      simp
  · obtain ⟨new, heap2, h, hne, hkeep, hnew⟩ :=
      property_copy_spec property_cls heap old o none f none hold hcls
    refine ⟨new, heap2, ?_, hne, hkeep old o hold, hkeep, ?_, ?_⟩
    · unfold propertySetter
      rw [hold]
      simp only [hcls, ne_eq, not_true_eq_false, if_false]
      exact h
    · intro hf
      rw [hnew, hf]
      simp
    · intro v hf
      rw [hnew, hf]
      simp
  · obtain ⟨new, heap2, h, hne, hkeep, hnew⟩ :=
      property_copy_spec property_cls heap old o none none f hold hcls
    refine ⟨new, heap2, ?_, hne, hkeep old o hold, hkeep, ?_, ?_⟩
    · unfold propertyDeleter
      rw [hold]
      simp only [hcls, ne_eq, not_true_eq_false, if_false]
      exact h
    · intro hf
      rw [hnew, hf]
      simp
    · intro v hf
      rw [hnew, hf]
      simp

/-- Instance of C30: the setter of the sample property with the argument 11 returns a new
property with getter 10, setter 11, no deleter and doc 20, and the old object keeps its
empty setter. -/
theorem property_accessor_copy_witness :
    propertyView 0 (propertySetter 7 sampleProperties 0 (some 11)) =
      some (some ⟨7, some 10, some 11, none, some 20⟩,
            some ⟨7, some 10, none, none, some 20⟩) := by
  obtain ⟨new, heap2, h, -, hold, -, -, hnew⟩ :=
    (property_accessor_copy 7 sampleProperties 0 ⟨7, some 10, none, none, some 20⟩ (some 11)
      rfl rfl).2.1
  rw [h]
  simp only [propertyView, Option.map_some']
  rw [hnew 11 rfl, hold]

end Pyston
